import Mathlib

/-!
# tsswitch: input executors, packet rings and the switch core

Shallow embedding of `src/tstools/tsswitchInputExecutor.cpp` and
`src/tstools/tsswitchCore.cpp`.

Conventions.
* `size_t` values are natural numbers.  Subtraction is the wrapping `subSize`
  (an underflow is observable in the program).  Sums of ring indices are plain
  sums: a ring holds 188-byte packets, so twice its capacity is far below `2^64`
  and these sums never wrap.
* The fields guarded by a mutex are a record; a method called under that mutex
  is a function on the record.
-/

namespace tsswitch

/-! ## Machine arithmetic -/

/-- Modulus of `size_t` arithmetic (64-bit targets). -/
def SIZE_MOD : Nat := 18446744073709551616

/-- Wrapping `a - b` on `size_t`, for operands below `SIZE_MOD`. -/
def subSize (a b : Nat) : Nat :=
  if b ≤ a then a - b else a + SIZE_MOD - b

/-- The constant `NPOS` (all bits set), the value of an index option that is not set. -/
def NPOS : Nat := SIZE_MOD - 1

/-! ## InputExecutor: the fields guarded by `_mutex` -/

/-- The mutable members of `InputExecutor`; `bufferSize` is `_buffer.size()` and
`abortCount` counts the calls of `plugin()->abortInput()` made by the core. -/
structure InputExecutor where
  bufferSize : Nat
  flowControl : Bool
  outputInUse : Bool
  terminated : Bool
  startRequests : Nat
  stopRequests : Nat
  outFirst : Nat
  outCount : Nat
  abortCount : Nat
deriving DecidableEq, Repr

namespace InputExecutor

/-- Constructor: a ring of `bufferedPackets` slots, nothing requested. -/
def new (bufferedPackets : Nat) : InputExecutor :=
  { bufferSize := bufferedPackets, flowControl := false, outputInUse := false,
    terminated := false, startRequests := 0, stopRequests := 0,
    outFirst := 0, outCount := 0, abortCount := 0 }

/-- Method `startInput(flowControl)`. -/
def startInput (e : InputExecutor) (flowControl : Bool) : InputExecutor :=
  { e with flowControl := flowControl, startRequests := e.startRequests + 1 }

/-- Method `stopInput()`. -/
def stopInput (e : InputExecutor) : InputExecutor :=
  { e with stopRequests := e.stopRequests + 1 }

/-- Method `setFlowControl(flowControl)`. -/
def setFlowControl (e : InputExecutor) (flowControl : Bool) : InputExecutor :=
  { e with flowControl := flowControl }

/-- Method `terminateInput()`. -/
def terminateInput (e : InputExecutor) : InputExecutor :=
  { e with terminated := true }

/-- The call `plugin()->abortInput()` issued by `Core::stopPlugin`. -/
def abortInput (e : InputExecutor) : InputExecutor :=
  { e with abortCount := e.abortCount + 1 }

/-- Method `getOutputArea`: returns `(first, count)` and the new state. -/
def getOutputArea (e : InputExecutor) : (Nat × Nat) × InputExecutor :=
  let count := min e.outCount (subSize e.bufferSize e.outFirst)
  ((e.outFirst, count), { e with outputInUse := decide (count > 0) })

/-- The assertion `assert(count <= _outCount)` of `freeOutput`. -/
def freeOutputAssert (e : InputExecutor) (count : Nat) : Bool :=
  decide (count ≤ e.outCount)

/-- Method `freeOutput(count)`. -/
def freeOutput (e : InputExecutor) (count : Nat) : InputExecutor :=
  { e with
    outFirst := (e.outFirst + count) % e.bufferSize
    outCount := subSize e.outCount count
    outputInUse := false }

/-- Start of `main`'s session wait and end of a session: `_outFirst = 0; _outCount = 0`. -/
def resetBuffer (e : InputExecutor) : InputExecutor :=
  { e with outFirst := 0, outCount := 0 }

/-- Guard of the loop "wait for free buffer or stop" in `main`. -/
def bufferFullWait (e : InputExecutor) : Bool :=
  decide (e.outCount ≥ e.bufferSize) && decide (e.stopRequests = 0) && !e.terminated

/-- The `else` branch of that loop: drop the oldest packets. -/
def dropOldest (maxInputPackets : Nat) (e : InputExecutor) : InputExecutor :=
  let freeCount := min maxInputPackets (subSize e.bufferSize e.outFirst)
  { e with
    outFirst := (e.outFirst + freeCount) % e.bufferSize
    outCount := subSize e.outCount freeCount }

/-- The two assertions made before dropping: `_outFirst < _buffer.size()` and
`freeCount <= _outCount`. -/
def dropOldestAssert (maxInputPackets : Nat) (e : InputExecutor) : Bool :=
  decide (e.outFirst < e.bufferSize) &&
    decide (min maxInputPackets (subSize e.bufferSize e.outFirst) ≤ e.outCount)

/-- Receive area `(inFirst, inCount)` computed by `main` once there is free space. -/
def receiveArea (maxInputPackets : Nat) (e : InputExecutor) : Nat × Nat :=
  let inFirst := (e.outFirst + e.outCount) % e.bufferSize
  let inCount := min maxInputPackets
    (min (subSize e.bufferSize e.outCount) (subSize e.bufferSize inFirst))
  (inFirst, inCount)

/-- The commit `_outCount += inCount` after a successful receive. -/
def commitInput (e : InputExecutor) (inCount : Nat) : InputExecutor :=
  { e with outCount := e.outCount + inCount }

/-- The statement `_stopRequests++` at end of input. -/
def endOfInput (e : InputExecutor) : InputExecutor :=
  { e with stopRequests := e.stopRequests + 1 }

end InputExecutor

/-! ## One executor seen by its two threads

`RingSys` adds the locals of the two threads that share the ring: `count` is the
count handed to the output thread by the last `getOutputArea` and not released
yet; `inFirst`, `inCount` are the receive area of the input thread, valid while
`reserved`. -/

structure RingSys where
  exec : InputExecutor
  count : Nat
  reserved : Bool
  inFirst : Nat
  inCount : Nat
deriving DecidableEq, Repr

/-- Operations on the ring, by the output thread, the core and the input thread. -/
inductive RingOp where
  | getOutputArea
  | freeOutput (n : Nat)
  | setFlowControl (b : Bool)
  | overwrite
  | reserve
  | commit (n : Nat)
  | reset
deriving DecidableEq, Repr

/-- When an operation can be made: `freeOutput n` releases at most what the last
`getOutputArea` handed out; `overwrite` is the branch taken by `main` on a full
ring without flow control; `reserve` needs the wait loop to be left without a stop;
`commit n` follows a reservation, with `1 ≤ n ≤ inCount` packets received; the
session `reset` waits for the output thread to release the buffer. -/
def RingSys.enabled (r : RingSys) : RingOp → Bool
  | .getOutputArea => true
  | .freeOutput n => decide (n ≤ r.count)
  | .setFlowControl _ => true
  | .overwrite => !r.reserved && r.exec.bufferFullWait && !r.exec.flowControl
  | .reserve => !r.reserved && !r.exec.bufferFullWait &&
      decide (r.exec.stopRequests = 0) && !r.exec.terminated
  | .commit n => r.reserved && decide (0 < n) && decide (n ≤ r.inCount)
  | .reset => !r.reserved && !r.exec.outputInUse

/-- Effect of an operation. -/
def RingSys.apply (maxInputPackets : Nat) (r : RingSys) : RingOp → RingSys
  | .getOutputArea =>
      let res := r.exec.getOutputArea
      { r with exec := res.2, count := res.1.2 }
  | .freeOutput n => { r with exec := r.exec.freeOutput n, count := 0 }
  | .setFlowControl b => { r with exec := r.exec.setFlowControl b }
  | .overwrite => { r with exec := r.exec.dropOldest maxInputPackets }
  | .reserve =>
      let a := r.exec.receiveArea maxInputPackets
      { r with reserved := true, inFirst := a.1, inCount := a.2 }
  | .commit n => { r with exec := r.exec.commitInput n, reserved := false, inCount := n }
  | .reset => { r with exec := r.exec.resetBuffer }

/-- Run a sequence of operations; `none` when one of them is not enabled. -/
def RingSys.run (maxInputPackets : Nat) : RingSys → List RingOp → Option RingSys
  | r, [] => some r
  | r, op :: ops =>
      if r.enabled op then RingSys.run maxInputPackets (r.apply maxInputPackets op) ops
      else none

/-- A freshly constructed executor, no thread holding anything. -/
def RingSys.init (bufferedPackets : Nat) : RingSys :=
  { exec := InputExecutor.new bufferedPackets, count := 0, reserved := false,
    inFirst := 0, inCount := 0 }

/-- The bound invariant of a ring of capacity `_buffer.size()`. -/
def ringBound (e : InputExecutor) : Prop :=
  e.outCount ≤ e.bufferSize ∧ e.outFirst < e.bufferSize

instance (e : InputExecutor) : Decidable (ringBound e) := by
  unfold ringBound; infer_instance

/-! ## Core: types -/

/-- State of an input plugin, as tracked by the core. -/
inductive InputState where
  | INPUT_STARTING | INPUT_RUNNING | INPUT_STOPPING | INPUT_STOPPED
deriving DecidableEq, Repr

/-- Input switching direction. -/
inductive Direction where
  | DOWNWARD | UNCHANGED | UPWARD
deriving DecidableEq, Repr

/-- State of the `Core` object. -/
inductive CoreState where
  | CORE_STOPPED | CORE_STARTING_NEXT | CORE_RUNNING | CORE_STOPPING_PREVIOUS
deriving DecidableEq, Repr

/-- Switching strategy (`_opt._strategy`). -/
inductive Strategy where
  | SEQUENTIAL_SWITCH | DELAYED_SWITCH | FAST_SWITCH
deriving DecidableEq, Repr

/-- The command line options read by the core and the executors; `inputCount` is
`inputs.size()`.  An index `primaryInput` that is not below `inputCount` means
that there is no primary input. -/
structure Options where
  inputCount : Nat
  firstInput : Nat
  primaryInput : Nat
  cycleCount : Nat
  terminate : Bool
  strategy : Strategy
  bufferedPackets : Nat
  maxInputPackets : Nat
deriving DecidableEq, Repr

/-- The members of `Core` guarded by `_mutex`, with the input executors it owns.
`outputTerminated` records `_output.terminateOutput()`, `watchDogActive` the
last of `_watchDog.restart()` / `_watchDog.suspend()`. -/
structure Core where
  inputs : List InputExecutor
  outputTerminated : Bool
  watchDogActive : Bool
  state : CoreState
  curPlugin : Nat
  nextPlugin : Nat
  timeoutPlugin : Nat
  curCycle : Nat
  terminate : Bool
  inStates : List InputState
deriving DecidableEq, Repr

/-- Outcomes of the external calls made by `Core::start`: option parsing of each
input plugin, the three steps of the output start, the start of each input
thread.  An entry missing from a list is a success. -/
structure StartEnv where
  inputOptions : List Bool
  outputOptions : Bool
  outputStart : Bool
  outputThread : Bool
  inputThread : List Bool
deriving DecidableEq, Repr

open InputState Direction CoreState Strategy

/-- A loop `for (size_t i = 0; i < n; ++i) body(i)` over a state. -/
def forRange {σ : Type} (n : Nat) (body : σ → Nat → σ) (s : σ) : σ :=
  (List.range n).foldl body s

namespace Core

/-- Constructor of `Core`. -/
def new (opt : Options) : Core :=
  { inputs := List.replicate opt.inputCount (InputExecutor.new opt.bufferedPackets)
    outputTerminated := false
    watchDogActive := false
    state := CORE_STOPPED
    curPlugin := opt.firstInput
    nextPlugin := opt.firstInput
    timeoutPlugin := opt.inputCount
    curCycle := 0
    terminate := false
    inStates := List.replicate opt.inputCount INPUT_STOPPED }

/-- Number of inputs, `_inputs.size()`. -/
def size (c : Core) : Nat := c.inputs.length

/-- Call a method of `_inputs[index]`. -/
def onInput (c : Core) (index : Nat) (f : InputExecutor → InputExecutor) : Core :=
  { c with inputs := c.inputs.modify f index }

/-- Method `cancelTimeout`. -/
def cancelTimeout (c : Core) : Core :=
  { c with timeoutPlugin := c.size, watchDogActive := false }

/-- Method `restartTimeout`. -/
def restartTimeout (c : Core) (index : Nat) : Core :=
  { c with timeoutPlugin := index, watchDogActive := true }

/-- Method `startPlugin`. -/
def startPlugin (c : Core) (index : Nat) (flowControl : Bool) : Core :=
  ({ c with inStates := c.inStates.set index INPUT_STARTING }).onInput index
    (fun e => e.startInput flowControl)

/-- Method `stopPlugin`. -/
def stopPlugin (c : Core) (index : Nat) (abortInput : Bool) : Core :=
  let c1 := { c with inStates := c.inStates.set index INPUT_STOPPING }
  let c2 := if abortInput then c1.onInput index InputExecutor.abortInput else c1
  c2.onInput index InputExecutor.stopInput

/-- Method `stop`. -/
def stop (c : Core) (success : Bool) : Core :=
  let c1 := { c with terminate := true, outputTerminated := true }
  let c2 :=
    if success then
      forRange c1.size
        (fun c i => { c.onInput i InputExecutor.terminateInput with
                      inStates := c.inStates.set i INPUT_STOPPED }) c1
    else c1
  { c2 with state := CORE_STOPPED }

/-- Method `start`, given the outcomes of the external calls. -/
def start (opt : Options) (env : StartEnv) (c : Core) : Bool × Core :=
  if c.state ≠ CORE_STOPPED then (false, c)
  else if !(List.range c.size).all (fun i => env.inputOptions.getD i true) then (false, c)
  else if !(env.outputOptions && env.outputStart && env.outputThread) then (false, c)
  else
    let c1 := { c with curPlugin := opt.firstInput, nextPlugin := opt.firstInput }
    if !(List.range c1.size).all (fun i => env.inputThread.getD i true) then
      (false, c1.stop false)
    else
      let c2 :=
        if opt.strategy = FAST_SWITCH then
          forRange c1.size
            (fun c i => c.startPlugin i (decide (i = c.curPlugin) || decide (i = opt.primaryInput)))
            c1
        else
          let c3 := c1.startPlugin c1.curPlugin true
          if opt.primaryInput < c3.size ∧ opt.primaryInput ≠ c3.curPlugin then
            c3.startPlugin opt.primaryInput true
          else c3
      (true, { c2 with state := CORE_STARTING_NEXT })

/-- The assertion `_opt.firstInput < _inputs.size()` made by `start`. -/
def startAssert (opt : Options) (c : Core) : Bool :=
  decide (opt.firstInput < c.size)

/-- Method `nextInputIndex`. -/
def nextInputIndex (c : Core) (index : Nat) : Direction → Nat
  | UPWARD => (index + 1) % c.size
  | DOWNWARD => if index > 0 then subSize index 1 else subSize c.size 1
  | UNCHANGED => index

/-- The search loop of `setInputLocked` under `FAST_SWITCH`, one iteration per unit
of fuel.  `some (some t)`: input `t` is running, switch to it; `some none`: the
method returns without switching; `none`: fuel exhausted. -/
def fastTarget (c : Core) (index : Nat) (dir : Direction) : Nat → Nat → Option (Option Nat)
  | 0, _ => none
  | fuel + 1, target =>
      if c.inStates[target]? ≠ some INPUT_RUNNING then
        if dir = UNCHANGED then some none
        else
          let target1 := c.nextInputIndex target dir
          if target1 = index then some none
          else fastTarget c index dir fuel target1
      else some (some target)

/-- Method `setInputLocked`.  The search loop runs on `_inputs.size()` units of
fuel, one per input. -/
def setInputLocked (opt : Options) (c : Core) (index : Nat) (abortCurrent : Bool)
    (dir : Direction) : Core :=
  if index = c.nextPlugin then c
  else if index ≥ c.size then c
  else
    match c.state with
    | CORE_RUNNING =>
      match opt.strategy with
      | SEQUENTIAL_SWITCH =>
        let c1 := ({ c with nextPlugin := index }).cancelTimeout
        if c1.curPlugin = opt.primaryInput then
          ({ c1 with state := CORE_STARTING_NEXT, curPlugin := index }).startPlugin index true
        else
          ({ c1 with state := CORE_STOPPING_PREVIOUS }).stopPlugin c1.curPlugin abortCurrent
      | DELAYED_SWITCH =>
        let c1 := ({ c with nextPlugin := index }).cancelTimeout
        if index = opt.primaryInput ∧ c1.inStates[index]? = some INPUT_RUNNING then
          let c2 := c1.stopPlugin c1.curPlugin false
          ({ c2 with state := CORE_RUNNING, curPlugin := index }).restartTimeout index
        else
          { c1.startPlugin index true with state := CORE_STARTING_NEXT }
      | FAST_SWITCH =>
        match c.fastTarget index dir c.size index with
        | some (some target) =>
          if target ≠ c.curPlugin then
            let c1 := c.onInput c.curPlugin (fun e => e.setFlowControl false)
            let c2 := { c1 with curPlugin := target, nextPlugin := target }
            let c3 := c2.onInput c2.curPlugin (fun e => e.setFlowControl true)
            c3.restartTimeout c3.curPlugin
          else c
        | _ => c
    | _ => c

/-- The assertion `_curPlugin == _nextPlugin` of the `FAST_SWITCH` branch of
`setInputLocked`; `true` when that branch is not reached. -/
def setInputLockedAssert (opt : Options) (c : Core) (index : Nat) : Bool :=
  if index ≠ c.nextPlugin ∧ index < c.size ∧ c.state = CORE_RUNNING ∧
      opt.strategy = FAST_SWITCH then decide (c.curPlugin = c.nextPlugin)
  else true

/-- Method `setInput`. -/
def setInput (opt : Options) (c : Core) (index : Nat) : Core :=
  c.setInputLocked opt index false UNCHANGED

/-- Method `nextInput`. -/
def nextInput (opt : Options) (c : Core) : Core :=
  c.setInputLocked opt (c.nextInputIndex c.nextPlugin UPWARD) false UPWARD

/-- Method `previousInput`. -/
def previousInput (opt : Options) (c : Core) : Core :=
  c.setInputLocked opt (c.nextInputIndex c.nextPlugin DOWNWARD) false DOWNWARD

/-- Method `handleWatchDogTimeout`. -/
def handleWatchDogTimeout (opt : Options) (c : Core) : Core :=
  if c.timeoutPlugin < c.size then
    let c1 :=
      if opt.strategy = DELAYED_SWITCH ∧ c.state = CORE_STARTING_NEXT ∧
          c.timeoutPlugin = c.nextPlugin then
        let c2 := if c.nextPlugin ≠ opt.primaryInput then c.stopPlugin c.nextPlugin true else c
        { c2 with nextPlugin := c2.curPlugin, state := CORE_RUNNING }
      else c
    c1.setInputLocked opt (c1.nextInputIndex c1.timeoutPlugin UPWARD) false UPWARD
  else c

/-- Method `inputStarted`: the returned flag and the new state. -/
def inputStarted (opt : Options) (c : Core) (index : Nat) (_success : Bool) : Bool × Core :=
  if c.inStates[index]? = some INPUT_RUNNING then (!c.terminate, c)
  else
    let c1 := { c with inStates := c.inStates.set index INPUT_RUNNING }
    if index ≠ c1.nextPlugin then (!c1.terminate, c1)
    else
      let c2 :=
        match opt.strategy with
        | SEQUENTIAL_SWITCH => { c1 with state := CORE_RUNNING }
        | DELAYED_SWITCH => c1
        | FAST_SWITCH => c1
      let c3 := c2.restartTimeout c2.curPlugin
      (!c3.terminate, c3)

/-- The assertion made by `inputStarted` in the branch of the strategy:
`_curPlugin == _nextPlugin` under `SEQUENTIAL_SWITCH` and `FAST_SWITCH`,
`_state == CORE_STARTING_NEXT` under `DELAYED_SWITCH`; `true` when the method
returns before the branch. -/
def inputStartedAssert (opt : Options) (c : Core) (index : Nat) : Bool :=
  if c.inStates[index]? = some INPUT_RUNNING then true
  else if index ≠ c.nextPlugin then true
  else
    match opt.strategy with
    | SEQUENTIAL_SWITCH => decide (c.curPlugin = c.nextPlugin)
    | DELAYED_SWITCH => decide (c.state = CORE_STARTING_NEXT)
    | FAST_SWITCH => decide (c.curPlugin = c.nextPlugin)

/-- First step of `inputReceived`: completion of a delayed switch. -/
def delayedCompletion (opt : Options) (c : Core) (index : Nat) : Core :=
  if opt.strategy = DELAYED_SWITCH ∧ c.state = CORE_STARTING_NEXT ∧ index = c.nextPlugin then
    let c1 := if c.curPlugin ≠ opt.primaryInput then c.stopPlugin c.curPlugin false else c
    { c1 with curPlugin := c1.nextPlugin, state := CORE_RUNNING }
  else c

/-- The assertion `_curPlugin != _nextPlugin` of the delayed completion; `true`
when that branch is not taken. -/
def delayedCompletionAssert (opt : Options) (c : Core) (index : Nat) : Bool :=
  if opt.strategy = DELAYED_SWITCH ∧ c.state = CORE_STARTING_NEXT ∧ index = c.nextPlugin then
    decide (c.curPlugin ≠ c.nextPlugin)
  else true

/-- Second step of `inputReceived`: automatic switch to the primary input. -/
def primaryPreemption (opt : Options) (c : Core) (index : Nat) : Core :=
  if index = opt.primaryInput ∧ c.curPlugin ≠ opt.primaryInput then
    let c1 :=
      if opt.strategy = FAST_SWITCH then
        let c2 := c.onInput c.curPlugin (fun e => e.setFlowControl false)
        if c2.nextPlugin ≠ c2.curPlugin ∧ c2.nextPlugin ≠ index then
          c2.onInput c2.nextPlugin (fun e => e.setFlowControl false)
        else c2
      else
        forRange c.size
          (fun c i =>
            if i ≠ index ∧ c.inStates[i]? ≠ some INPUT_STOPPING ∧
                c.inStates[i]? ≠ some INPUT_STOPPED then
              c.stopPlugin i true
            else c)
          c
    { c1 with curPlugin := index, nextPlugin := index }
  else c

/-- Third step of `inputReceived`: input on the current plugin restarts the
receive timeout (and wakes up the output thread). -/
def receivedOnCurrent (c : Core) (index : Nat) : Core :=
  if index = c.curPlugin then c.restartTimeout c.curPlugin else c

/-- Method `inputReceived`: the returned flag and the new state. -/
def inputReceived (opt : Options) (c : Core) (index : Nat) : Bool × Core :=
  let c1 := ((c.delayedCompletion opt index).primaryPreemption opt index).receivedOnCurrent index
  (!c1.terminate, c1)

/-- Start of the locked sequence of `inputStopped` for an input that is not yet
stopped: mark it stopped and count the end of a cycle. -/
def markStopped (c : Core) (index : Nat) : Core :=
  let c1 := { c with inStates := c.inStates.set index INPUT_STOPPED }
  if index = subSize c1.size 1 then { c1 with curCycle := (c1.curCycle + 1) % SIZE_MOD } else c1

/-- The local `stopRequest` of `inputStopped`. -/
def stopRequest (opt : Options) (c : Core) : Bool :=
  opt.terminate || (decide (opt.cycleCount > 0) && decide (c.curCycle ≥ opt.cycleCount))

/-- The `switch (_state)` of `inputStopped`, when the processing goes on. -/
def afterInputStopped (opt : Options) (c : Core) (index : Nat) : Core :=
  match c.state with
  | CORE_STOPPED => c
  | CORE_RUNNING =>
    if index = c.curPlugin then
      c.setInputLocked opt (c.nextInputIndex index UPWARD) false UPWARD
    else c
  | CORE_STARTING_NEXT => c
  | CORE_STOPPING_PREVIOUS =>
    if opt.strategy = SEQUENTIAL_SWITCH ∧ index = c.curPlugin then
      let c1 := { c with state := CORE_STARTING_NEXT, curPlugin := c.nextPlugin }
      c1.startPlugin c1.curPlugin true
    else c

/-- Method `inputStopped`: the returned flag and the new state. -/
def inputStopped (opt : Options) (c : Core) (index : Nat) (_success : Bool) : Bool × Core :=
  if c.inStates[index]? = some INPUT_STOPPED then (!c.terminate, c)
  else
    let c1 := c.markStopped index
    if c1.stopRequest opt then
      let c2 := c1.cancelTimeout.stop true
      (!c2.terminate, c2)
    else
      let c2 := c1.afterInputStopped opt index
      (!c2.terminate, c2)

end Core

/-! ## Commands and events of the core -/

/-- A command of the control thread or an event of an executor or of the watchdog. -/
inductive Event where
  | setInput (index : Nat)
  | nextInput
  | previousInput
  | stop (success : Bool)
  | inputStarted (index : Nat) (success : Bool)
  | inputReceived (index : Nat)
  | inputStopped (index : Nat) (success : Bool)
  | watchDogTimeout
deriving DecidableEq, Repr

namespace Core

/-- The core after a command or an event. -/
def step (opt : Options) (c : Core) : Event → Core
  | .setInput index => c.setInput opt index
  | .nextInput => c.nextInput opt
  | .previousInput => c.previousInput opt
  | .stop success => c.stop success
  | .inputStarted index success => (c.inputStarted opt index success).2
  | .inputReceived index => (c.inputReceived opt index).2
  | .inputStopped index success => (c.inputStopped opt index success).2
  | .watchDogTimeout => c.handleWatchDogTimeout opt

/-- Events an executor can deliver: the index is that of an input of the core
(asserted by the three methods) and a start is reported for an input that the
core has asked to start. -/
def admits (c : Core) : Event → Bool
  | .inputStarted index _ => decide (index < c.size) &&
      decide (c.inStates[index]? = some INPUT_STARTING)
  | .inputReceived index => decide (index < c.size)
  | .inputStopped index _ => decide (index < c.size)
  | _ => true

/-- Run a sequence of commands and events; `none` when one is not admitted. -/
def run (opt : Options) : Core → List Event → Option Core
  | c, [] => some c
  | c, ev :: evs => if c.admits ev then run opt (c.step opt ev) evs else none

/-- The core after a successful `start()` on a newly constructed object. -/
def started (opt : Options) : Core :=
  ((Core.new opt).start opt
    { inputOptions := [], outputOptions := true, outputStart := true,
      outputThread := true, inputThread := [] }).2

end Core

/-- An event that carries the index of an input of a core of `n` inputs (the
three notifications assert `pluginIndex < _inputs.size()`); commands and
timeouts are always valid. -/
def Event.valid (n : Nat) : Event → Bool
  | .inputStarted index _ => decide (index < n)
  | .inputReceived index => decide (index < n)
  | .inputStopped index _ => decide (index < n)
  | _ => true

/-! ## The thread of an input executor (`InputExecutor::main`) -/

/-- The notification loops `for (size_t i = 0; i < count; i--) body` of `main`, one
test of the loop condition per unit of fuel; `none` when the fuel is exhausted. -/
def notifyLoop {σ : Type} (count : Nat) (body : σ → σ) : Nat → Nat → σ → Option σ
  | 0, _, _ => none
  | fuel + 1, i, s =>
      if i < count then notifyLoop count body fuel (subSize i 1) (body s) else some s

/-- The loop "wait for free buffer or stop" of `main`, one iteration per unit of
fuel; `none` when the thread blocks on the condition (flow control on a full
ring) or the fuel is exhausted. -/
def waitFreeBuffer (maxInputPackets : Nat) : Nat → InputExecutor → Option InputExecutor
  | 0, _ => none
  | fuel + 1, e =>
      if e.bufferFullWait then
        if e.flowControl then none
        else waitFreeBuffer maxInputPackets fuel (e.dropOldest maxInputPackets)
      else some e

/-- Position of the thread in `main`: in the loop waiting for a session, in the
receive loop, at the end of a session, or out of the main loop. -/
inductive ExecPhase where
  | waiting | receiving | ending | exited
deriving DecidableEq, Repr

/-- Locals of `main`. -/
structure ExecThread where
  phase : ExecPhase
  startStatus : Bool
  stopStatus : Bool
deriving DecidableEq, Repr

/-- The core with the threads of its input executors. -/
structure System where
  core : Core
  threads : List ExecThread
deriving DecidableEq, Repr

/-- A step of the whole program: a command or watchdog event on the core, or a
step of the thread of executor `index` with the outcome of its plugin call. -/
inductive SysEvent where
  | command (ev : Event)
  | sessionWait (index : Nat) (pluginStart : Bool)
  | receive (index : Nat) (received : Nat)
  | endSession (index : Nat) (pluginStop : Bool)
deriving DecidableEq, Repr

namespace System

/-- One iteration of the loop `while (!_terminated && !startStatus)` of `main` for
executor `index`; `none` when the thread blocks waiting for a request. -/
def sessionWait (opt : Options) (index : Nat) (pluginStart : Bool)
    (t : ExecThread) (c : Core) : Option (ExecThread × Core) :=
  match c.inputs[index]? with
  | none => none
  | some e0 =>
    if e0.terminated then some ({ t with phase := .exited }, c)
    else
      let c1 := c.onInput index InputExecutor.resetBuffer
      if e0.startRequests = 0 ∧ e0.stopRequests = 0 then none
      else
        let startRequestCount := e0.startRequests
        let stopRequestCount := e0.stopRequests
        (notifyLoop stopRequestCount (fun c => (c.inputStopped opt index t.stopStatus).2)
            2 0 c1).bind fun c2 =>
          let terminated := (c2.inputs[index]?).any (fun e => e.terminated)
          (if !terminated ∧ startRequestCount > 0 then
            (notifyLoop startRequestCount
              (fun c => (c.inputStarted opt index pluginStart).2) 2 0 c2).map
              (fun c3 => (pluginStart, c3))
           else some (t.startStatus, c2)).map fun (startStatus, c3) =>
            let c4 := c3.onInput index (fun e =>
              { e with startRequests := subSize e.startRequests startRequestCount
                       stopRequests := subSize e.stopRequests stopRequestCount })
            let terminated4 := (c4.inputs[index]?).any (fun e => e.terminated)
            ({ t with
                startStatus := startStatus
                phase := if terminated4 then .exited
                         else if startStatus then .receiving else .waiting }, c4)

/-- One iteration of the receive loop of `main` for executor `index`, the plugin
returning `received` packets (`0`: end of input); `none` when the thread blocks
or when `received` exceeds the receive area. -/
def receive (opt : Options) (index : Nat) (received : Nat)
    (t : ExecThread) (c : Core) : Option (ExecThread × Core) :=
  match c.inputs[index]? with
  | none => none
  | some e0 =>
    (waitFreeBuffer opt.maxInputPackets 2 e0).bind fun e1 =>
      if e1.stopRequests > 0 ∨ e1.terminated then
        some ({ t with phase := .ending }, c.onInput index (fun _ => e1))
      else
        let area := e1.receiveArea opt.maxInputPackets
        if received > area.2 then none
        else if received = 0 then
          some ({ t with phase := .ending }, c.onInput index (fun _ => e1.endOfInput))
        else
          let c1 := c.onInput index (fun _ => e1.commitInput received)
          some (t, (c1.inputReceived opt index).2)

/-- End of a session in `main` for executor `index`: wait for the output thread,
reset the buffer, stop the plugin; `none` when the thread blocks. -/
def endSession (index : Nat) (pluginStop : Bool)
    (t : ExecThread) (c : Core) : Option (ExecThread × Core) :=
  match c.inputs[index]? with
  | none => none
  | some e0 =>
    if e0.outputInUse ∨ (e0.outCount > 0 ∧ e0.stopRequests = 0 ∧ e0.terminated = false) then none
    else
      some ({ t with phase := .waiting, startStatus := false, stopStatus := pluginStop },
            c.onInput index InputExecutor.resetBuffer)

/-- A step of the program; `none` when the step cannot be taken. -/
def step (opt : Options) (s : System) : SysEvent → Option System
  | .command ev =>
      match ev with
      | .inputStarted _ _ => none
      | .inputReceived _ => none
      | .inputStopped _ _ => none
      | _ => some { s with core := s.core.step opt ev }
  | .sessionWait index pluginStart =>
      match s.threads[index]? with
      | some t =>
        if t.phase = .waiting then
          (sessionWait opt index pluginStart t s.core).map fun (t1, c1) =>
            { core := c1, threads := s.threads.set index t1 }
        else none
      | none => none
  | .receive index received =>
      match s.threads[index]? with
      | some t =>
        if t.phase = .receiving then
          (receive opt index received t s.core).map fun (t1, c1) =>
            { core := c1, threads := s.threads.set index t1 }
        else none
      | none => none
  | .endSession index pluginStop =>
      match s.threads[index]? with
      | some t =>
        if t.phase = .ending then
          (endSession index pluginStop t s.core).map fun (t1, c1) =>
            { core := c1, threads := s.threads.set index t1 }
        else none
      | none => none

/-- Run a sequence of steps. -/
def run (opt : Options) : System → List SysEvent → Option System
  | s, [] => some s
  | s, ev :: evs => (s.step opt ev).bind fun s1 => run opt s1 evs

/-- The program after a successful `Core::start()`: every executor thread is at
the top of `main`. -/
def started (opt : Options) : System :=
  { core := Core.started opt
    threads := List.replicate opt.inputCount
      { phase := .waiting, startStatus := false, stopStatus := false } }

end System

/-! ## The ring with its packets (one session, flow control on) -/

/-- Position of the input thread inside one iteration of the receive loop. -/
inductive WriterPhase where
  | idle | reserved | received
deriving DecidableEq, Repr

/-- An executor with the contents of `_buffer` and the locals of the two threads.
`handed` are the packets found in the slots handed out by the last
`getOutputArea`; `pending` are the packets returned by the plugin and not yet
committed.  `committed` and `released` are the two histories compared by the
FIFO property. -/
structure FifoSys (α : Type) where
  exec : InputExecutor
  buffer : Nat → α
  count : Nat
  handed : List α
  phase : WriterPhase
  inFirst : Nat
  inCount : Nat
  pending : List α
  committed : List α
  released : List α

/-- Steps of the two threads on the ring within a session. -/
inductive FifoOp (α : Type) where
  | reserve
  | receive (pkts : List α)
  | commit
  | getOutputArea
  | freeOutput (n : Nat)

/-- The plugin stores the received packets from slot `first` on. -/
def writePackets {α : Type} (buffer : Nat → α) (first : Nat) (pkts : List α) : Nat → α :=
  fun k => if first ≤ k then (pkts[k - first]?).getD (buffer k) else buffer k

/-- The packets in `n` consecutive slots from `first`, without wrap. -/
def readSlots {α : Type} (buffer : Nat → α) (first n : Nat) : List α :=
  (List.range n).map (fun j => buffer (first + j))

namespace FifoSys

variable {α : Type}

/-- When a step can be taken: the input thread reserves when the wait loop lets
it through, receives between 1 and `inCount` packets, then commits; the output
thread releases at most what it was handed. -/
def enabled (s : FifoSys α) : FifoOp α → Bool
  | .reserve => decide (s.phase = .idle) && !s.exec.bufferFullWait &&
      decide (s.exec.stopRequests = 0) && !s.exec.terminated
  | .receive pkts => decide (s.phase = .reserved) && decide (0 < pkts.length) &&
      decide (pkts.length ≤ s.inCount)
  | .commit => decide (s.phase = .received)
  | .getOutputArea => true
  | .freeOutput n => decide (n ≤ s.count)

/-- Effect of a step. -/
def apply (maxInputPackets : Nat) (s : FifoSys α) : FifoOp α → FifoSys α
  | .reserve =>
      let a := s.exec.receiveArea maxInputPackets
      { s with phase := .reserved, inFirst := a.1, inCount := a.2 }
  | .receive pkts =>
      { s with phase := .received, buffer := writePackets s.buffer s.inFirst pkts,
               inCount := pkts.length, pending := pkts }
  | .commit =>
      { s with phase := .idle, exec := s.exec.commitInput s.inCount,
               committed := s.committed ++ s.pending, pending := [] }
  | .getOutputArea =>
      let res := s.exec.getOutputArea
      { s with exec := res.2, count := res.1.2,
               handed := readSlots s.buffer res.1.1 res.1.2 }
  | .freeOutput n =>
      { s with exec := s.exec.freeOutput n, count := 0, handed := [],
               released := s.released ++ s.handed.take n }

/-- Run a sequence of steps; `none` when one of them cannot be taken. -/
def run (maxInputPackets : Nat) : FifoSys α → List (FifoOp α) → Option (FifoSys α)
  | s, [] => some s
  | s, op :: ops =>
      if s.enabled op then run maxInputPackets (s.apply maxInputPackets op) ops else none

/-- Start of a session with flow control: the ring is empty. -/
def init (bufferedPackets : Nat) (buffer : Nat → α) : FifoSys α :=
  { exec := { InputExecutor.new bufferedPackets with flowControl := true }
    buffer := buffer, count := 0, handed := [], phase := .idle
    inFirst := 0, inCount := 0, pending := [], committed := [], released := [] }

/-- The packets waiting in the ring, oldest first: the slots
`(outFirst + j) mod capacity` for `j < outCount`. -/
def queue (s : FifoSys α) : List α :=
  (List.range s.exec.outCount).map
    (fun j => s.buffer ((s.exec.outFirst + j) % s.exec.bufferSize))

end FifoSys

/-- Spec-level bounded FIFO queue: `enqueue` appends at the tail, `dequeue n`
removes the `n` oldest packets and returns them. -/
structure BoundedFifo (α : Type) where
  capacity : Nat
  items : List α

/-- Append packets at the tail of the queue. -/
def BoundedFifo.enqueue {α : Type} (q : BoundedFifo α) (pkts : List α) : BoundedFifo α :=
  { q with items := q.items ++ pkts }

/-- Remove the `n` oldest packets: the packets removed and the remaining queue. -/
def BoundedFifo.dequeue {α : Type} (q : BoundedFifo α) (n : Nat) : List α × BoundedFifo α :=
  (q.items.take n, { q with items := q.items.drop n })

/-- The queue operation made by a step of the ring: a commit enqueues the pending
packets, a release of `n` slots dequeues `n` packets, other steps do nothing. -/
def BoundedFifo.follow {α : Type} (q : BoundedFifo α) (s : FifoSys α) :
    FifoOp α → List α × BoundedFifo α
  | .commit => ([], q.enqueue s.pending)
  | .freeOutput n => q.dequeue n
  | _ => ([], q)

/-! ## Invariants used by the proofs -/

/-- Invariant of a ring shared by the two threads as long as nothing is dropped
under a reader: the bounds, the reader holding at most the contiguous filled
slots, the receive area fitting in the free space. -/
def RingSys.Inv (r : RingSys) : Prop :=
  ringBound r.exec ∧ r.count ≤ r.exec.outCount ∧
  r.exec.outFirst + r.count ≤ r.exec.bufferSize ∧
  (r.exec.outputInUse = false → r.count = 0) ∧
  (r.reserved = true → r.exec.outCount + r.inCount ≤ r.exec.bufferSize)

/-- An operation that does not drop packets while the output thread uses the
buffer (`_outputInUse` set). -/
def RingSys.disciplined (r : RingSys) : RingOp → Bool
  | .overwrite => !r.exec.outputInUse
  | _ => true

/-- Invariant of the ring with its packets: the bounds; every committed packet
is either released or waiting in the ring, in order; the reader holds the first
`count` waiting slots, which do not wrap; the receive area starts at the write
index and fits in the free space; received packets are in the receive area. -/
def FifoSys.Inv {α : Type} (s : FifoSys α) : Prop :=
  s.exec.outFirst < s.exec.bufferSize ∧ s.exec.outCount ≤ s.exec.bufferSize ∧
  s.committed = s.released ++ s.queue ∧
  s.count ≤ s.exec.outCount ∧ s.exec.outFirst + s.count ≤ s.exec.bufferSize ∧
  s.handed = readSlots s.buffer s.exec.outFirst s.count ∧
  (s.phase ≠ .idle →
    s.inFirst = (s.exec.outFirst + s.exec.outCount) % s.exec.bufferSize ∧
    s.inFirst + s.inCount ≤ s.exec.bufferSize ∧
    s.exec.outCount + s.inCount ≤ s.exec.bufferSize) ∧
  (s.phase = .received → s.pending = readSlots s.buffer s.inFirst s.inCount)

/-- Well-formed core: one input state per input executor. -/
def Core.WellFormed (c : Core) : Prop :=
  c.inStates.length = c.inputs.length

instance (c : Core) : Decidable c.WellFormed := by
  unfold Core.WellFormed; infer_instance

/-- Run a sequence of operations none of which drops packets under the reader. -/
def RingSys.runDisciplined (maxInputPackets : Nat) : RingSys → List RingOp → Option RingSys
  | r, [] => some r
  | r, op :: ops =>
      if r.enabled op && r.disciplined op then
        RingSys.runDisciplined maxInputPackets (r.apply maxInputPackets op) ops
      else none

/-! ## Buffer management of the core (called by the output thread) -/

/-- What `Core::getOutputArea` returns: the returned flag, the index of the input
plugin, the first packet (`none` for `nullptr`) and the packet count. -/
structure OutputArea where
  ok : Bool
  pluginIndex : Nat
  first : Option Nat
  count : Nat
deriving DecidableEq, Repr

namespace Core

/-- Method `getOutputArea` of the core, one pass of its loop: the area returned,
or `none` when the caller sleeps on `_gotInput`; and the new state. -/
def getOutputArea (c : Core) : Option OutputArea × Core :=
  if c.terminate then
    (some { ok := !c.terminate, pluginIndex := c.curPlugin, first := none, count := 0 }, c)
  else
    match c.inputs[c.curPlugin]? with
    | none => (none, c)
    | some e =>
      let res := e.getOutputArea
      let c1 := c.onInput c.curPlugin (fun _ => res.2)
      if res.1.2 > 0 then
        (some { ok := !c1.terminate, pluginIndex := c1.curPlugin, first := some res.1.1,
                count := res.1.2 }, c1)
      else (none, c1)

/-- Method `outputSent` of the core: the returned flag and the new state. -/
def outputSent (c : Core) (pluginIndex : Nat) (count : Nat) : Bool × Core :=
  let c1 := c.onInput pluginIndex (fun e => e.freeOutput count)
  (!c1.terminate, c1)

end Core

/-- Any call made on the core: a command or an event, `start()` with the outcomes
of its external calls, or a call of the output thread. -/
inductive Call where
  | event (ev : Event)
  | start (env : StartEnv)
  | getOutputArea
  | outputSent (pluginIndex : Nat) (count : Nat)
deriving DecidableEq, Repr

namespace Core

/-- The core after a call. -/
def call (opt : Options) (c : Core) : Call → Core
  | .event ev => c.step opt ev
  | .start env => (c.start opt env).2
  | .getOutputArea => c.getOutputArea.2
  | .outputSent pluginIndex count => (c.outputSent pluginIndex count).2

/-- The core after a sequence of calls. -/
def calls (opt : Options) : Core → List Call → Core
  | c, [] => c
  | c, x :: xs => calls opt (c.call opt x) xs

/-- The flow-control flag of input `index`, `none` when there is no such input. -/
def flow (c : Core) (index : Nat) : Option Bool :=
  (c.inputs[index]?).map (fun e => e.flowControl)

end Core

/-! ## Invariants of the core -/

/-- The receive timeout covers the current input or is cancelled. -/
def Core.Covered (c : Core) : Prop :=
  c.timeoutPlugin = c.curPlugin ∨ c.timeoutPlugin = c.size

/-- Invariant behind the watchdog coverage: outside the sequential strategy the
timeout is always covered; under every strategy it is covered when the core is
RUNNING. -/
def Core.WatchInv (opt : Options) (c : Core) : Prop :=
  (opt.strategy ≠ SEQUENTIAL_SWITCH → c.Covered) ∧ (c.state = CORE_RUNNING → c.Covered)

/-- The core `d` has the control fields of `c`: state, current, next and timeout
plugin, terminate flag, number of inputs and flow-control flags. -/
def Core.SameCtl (c d : Core) : Prop :=
  d.state = c.state ∧ d.curPlugin = c.curPlugin ∧ d.nextPlugin = c.nextPlugin ∧
  d.timeoutPlugin = c.timeoutPlugin ∧ d.terminate = c.terminate ∧ d.size = c.size ∧
  ∀ j, d.flow j = c.flow j

/-- Invariant behind the flow control of the current input: the current and the
next plugin are valid indexes, the current input and the primary input (when
there is one) have flow control on, under the delayed strategy so has the next
input, and under the fast strategy the core is never RUNNING. -/
def Core.FlowInv (opt : Options) (c : Core) : Prop :=
  c.curPlugin < c.size ∧ c.nextPlugin < c.size ∧ c.flow c.curPlugin = some true ∧
  (opt.primaryInput < c.size → c.flow opt.primaryInput = some true) ∧
  (opt.strategy = DELAYED_SWITCH → c.flow c.nextPlugin = some true) ∧
  (opt.strategy = FAST_SWITCH → c.state ≠ CORE_RUNNING)

/-- The `k`-th input visited from `index` in direction `dir`, by `k` applications
of `nextInputIndex`. -/
def Core.visit (c : Core) (index : Nat) (dir : Direction) : Nat → Nat
  | 0 => index
  | k + 1 => c.nextInputIndex (Core.visit c index dir k) dir

/-- The core after a switch to `target` under the fast strategy, in the words of
the specification: nothing changes when `target` is the current plugin;
otherwise flow control is cleared on the old current plugin, `curPlugin =
nextPlugin = target`, flow control is set on the target and the timeout is
restarted on it. -/
def Core.fastSwitch (c : Core) (target : Nat) : Core :=
  if target = c.curPlugin then c
  else
    { c with
      curPlugin := target
      nextPlugin := target
      timeoutPlugin := target
      watchDogActive := true
      inputs := (c.inputs.modify (fun e => e.setFlowControl false) c.curPlugin).modify
        (fun e => e.setFlowControl true) target }

/-- The input `i` is one that the pre-emption loop stops: it is not `index` and is
neither STOPPING nor STOPPED. -/
def Core.toStop (c : Core) (index i : Nat) : Prop :=
  i ≠ index ∧ c.inStates[i]? ≠ some INPUT_STOPPING ∧ c.inStates[i]? ≠ some INPUT_STOPPED

instance (c : Core) (index i : Nat) : Decidable (c.toStop index i) := by
  unfold Core.toStop; infer_instance

/-- The operations of the output thread on the ring: `getOutputArea` and
`freeOutput`. -/
def RingOp.isReader : RingOp → Bool
  | .getOutputArea => true
  | .freeOutput _ => true
  | _ => false

/-- All the external calls of `start()` succeed for a core of `n` inputs: option
parsing of every input plugin, the start of the output, every input thread. -/
def StartEnv.allOk (env : StartEnv) (n : Nat) : Bool :=
  (List.range n).all (fun i => env.inputOptions.getD i true) &&
  (env.outputOptions && env.outputStart && env.outputThread) &&
  (List.range n).all (fun i => env.inputThread.getD i true)

/-- The outcomes of a `start()` in which every external call succeeds. -/
def StartEnv.success : StartEnv :=
  { inputOptions := [], outputOptions := true, outputStart := true,
    outputThread := true, inputThread := [] }

/-! ## The HLS input plugin (`hls::InputPlugin`) -/

namespace hls

/-- The conversion `size_t(x)` of an `int` value `x`. -/
def sizeOfInt (x : Int) : Nat := (x % (SIZE_MOD : Int)).toNat

/-- Modelled from the spec: a variant of a master playlist (`hls::MediaPlayList`,
not in src/): the identifier of its URL, its bitrate and its resolution. -/
structure Variant where
  url : Nat
  bitrate : Nat
  width : Nat
  height : Nat
deriving DecidableEq, Repr

/-- Modelled from the spec: the type of a playlist (`hls::PlayListType`, not in
src/). -/
inductive PlayListType where
  | UNKNOWN_PLAYLIST | MASTER_PLAYLIST | MEDIA_PLAYLIST
deriving DecidableEq, Repr

/-- Modelled from the spec: the content of an `hls::PlayList` (class not in src/):
its type, the variants of a master playlist, the ordered segments of a media
playlist, and whether a media playlist is updatable (live). -/
structure PlayList (σ : Type) where
  type : PlayListType
  playlists : List Variant
  segments : List σ
  updatable : Bool
deriving DecidableEq, Repr

namespace PlayList

variable {σ : Type}

/-- Modelled from the spec: `PlayList::clear`, not in src/. -/
def clear : PlayList σ :=
  { type := .UNKNOWN_PLAYLIST, playlists := [], segments := [], updatable := false }

/-- Modelled from the spec: `PlayList::segmentCount`, not in src/. -/
def segmentCount (pl : PlayList σ) : Nat := pl.segments.length

/-- Modelled from the spec: `PlayList::playListCount`, not in src/. -/
def playListCount (pl : PlayList σ) : Nat := pl.playlists.length

/-- Modelled from the spec: `PlayList::popFirstSegment`, not in src/: segments are
popped FIFO; the segment returned is `none` when the playlist is empty. -/
def popFirstSegment (pl : PlayList σ) : Option σ × PlayList σ :=
  (pl.segments.head?, { pl with segments := pl.segments.tail })

end PlayList

/-- The members of `hls::InputPlugin`; `urlValid` is `_url.isValid()`. -/
structure InputPlugin (σ : Type) where
  urlValid : Bool
  minRate : Nat
  maxRate : Nat
  minWidth : Nat
  maxWidth : Nat
  minHeight : Nat
  maxHeight : Nat
  startSegment : Int
  listVariants : Bool
  lowestRate : Bool
  highestRate : Bool
  lowestRes : Bool
  highestRes : Bool
  maxSegmentCount : Nat
  segmentCount : Nat
  playlist : PlayList σ
deriving DecidableEq, Repr

/-- Modelled from the spec: the selectors of a master playlist (methods of
`hls::PlayList`, not in src/), each returning the index of a variant or `NPOS`
("not found"); they are parameters of the model. -/
structure Selectors where
  selectPlayListLowestBitRate : List Variant → Nat
  selectPlayListHighestBitRate : List Variant → Nat
  selectPlayListLowestResolution : List Variant → Nat
  selectPlayListHighestResolution : List Variant → Nat
  selectPlayList : Nat → Nat → Nat → Nat → Nat → Nat → List Variant → Nat

/-- The error reported by a failing `start()`: a failed download of the main
playlist, one of the four error messages, a failed `assert(index <
master.playListCount())`, or a failure of the superclass. -/
inductive StartError where
  | loadFailed
  | noMatchingStream
  | noMorePlaylist
  | selectorOutOfRange
  | invalidType
  | emptyPlaylist
  | superclassFailed
deriving DecidableEq, Repr

/-- External outcomes of a `start()`: the download of the main playlist (`none` on
failure), the download of the media playlist of a variant (by number of the
attempt and variant), and the result of `AbstractHTTPInputPlugin::start()`. -/
structure StartEnv (σ : Type) where
  loadMain : Option (PlayList σ)
  loadVariant : Nat → Variant → Option (PlayList σ)
  superStart : Bool

/-- Outcome of the selection loop of `start()`: the variants whose media playlist
was fetched, in order, the master playlist at exit, and the loaded playlist or
the error. -/
structure Selection (σ : Type) where
  fetched : List Variant
  master : List Variant
  result : Except StartError (PlayList σ)

variable {σ : Type}

/-- The selection by the command line criteria, first statement of the loop body
in `start()`. -/
def selectIndex (sel : Selectors) (p : InputPlugin σ) (master : List Variant) : Nat :=
  if p.lowestRate then sel.selectPlayListLowestBitRate master
  else if p.highestRate then sel.selectPlayListHighestBitRate master
  else if p.lowestRes then sel.selectPlayListLowestResolution master
  else if p.highestRes then sel.selectPlayListHighestResolution master
  else sel.selectPlayList p.minRate p.maxRate p.minWidth p.maxWidth p.minHeight p.maxHeight master

/-- The loop `for (;;)` of `start()` that selects and downloads a media playlist,
one iteration per unit of fuel; `none` when the fuel is exhausted. -/
def selectLoop (sel : Selectors) (p : InputPlugin σ)
    (load : Nat → Variant → Option (PlayList σ)) :
    Nat → List Variant → List Variant → Option (Selection σ)
  | 0, _, _ => none
  | fuel + 1, master, fetched =>
    let index := selectIndex sel p master
    if index = NPOS then
      some { fetched := fetched, master := master, result := .error .noMatchingStream }
    else
      match master[index]? with
      | none => some { fetched := fetched, master := master, result := .error .selectorOutOfRange }
      | some v =>
        match load fetched.length v with
        | some pl => some { fetched := fetched ++ [v], master := master, result := .ok pl }
        | none =>
          if master.length = 1 then
            some { fetched := fetched ++ [v], master := master, result := .error .noMorePlaylist }
          else selectLoop sel p load fuel (master.eraseIdx index) (fetched ++ [v])

/-- The local `segCount` of `start()` after the management of the starting point,
for a playlist of `segCount` segments (not zero). -/
def startSegCount (segCount : Nat) (startSegment : Int) : Nat :=
  if startSegment > 0 then
    if (segCount + 1) % SIZE_MOD < sizeOfInt startSegment then 1
    else subSize segCount (sizeOfInt startSegment)
  else if startSegment < 0 then
    if segCount < sizeOfInt (-startSegment) then segCount
    else sizeOfInt (-startSegment)
  else segCount

/-- The loop `while (_playlist.segmentCount() > segCount) _playlist.popFirstSegment()`
on the list of segments. -/
def dropInitial (segCount : Nat) : List σ → List σ
  | [] => []
  | s :: rest => if (s :: rest).length > segCount then dropInitial segCount rest else s :: rest

/-- First part of `start`: download of the main playlist and, for a master
playlist, selection and download of a media playlist; the selection loop runs on
`master.playListCount() + 1` units of fuel (`none`: fuel exhausted). -/
def loadPlayList (sel : Selectors) (env : StartEnv σ) (p : InputPlugin σ) :
    Option (Except StartError (PlayList σ)) :=
  match env.loadMain with
  | none => some (.error .loadFailed)
  | some main =>
    if main.type = .MASTER_PLAYLIST then
      (selectLoop sel p env.loadVariant (main.playListCount + 1) main.playlists []).map
        (fun s => s.result)
    else some (.ok main)

/-- Method `start`, given the selectors and the external outcomes (`none`: fuel of
the selection loop exhausted). -/
def start (sel : Selectors) (env : StartEnv σ) (p : InputPlugin σ) :
    Option (Except StartError (InputPlugin σ)) :=
  match loadPlayList sel env p with
  | none => none
  | some (.error e) => some (.error e)
  | some (.ok pl) =>
    if pl.type ≠ .MEDIA_PLAYLIST then some (.error .invalidType)
    else if pl.segmentCount = 0 then some (.error .emptyPlaylist)
    else
      let segCount := startSegCount pl.segmentCount p.startSegment
      let pl1 := { pl with segments := dropInitial segCount pl.segments }
      let p1 := { p with playlist := pl1, segmentCount := 0 }
      if env.superStart then some (.ok p1) else some (.error .superclassFailed)

/-- The segments left in the playlist by a successful `start()`. -/
def remaining (r : Option (Except StartError (InputPlugin σ))) : Option (List σ) :=
  match r with
  | some (.ok p) => some p.playlist.segments
  | _ => none

/-- The segment-cursor law of the specification for a positive `startSegment`:
`clamp(N - startSegment, 1, N)` over the integers. -/
def cursorLaw (n : Nat) (startSegment : Int) : Int :=
  min (max ((n : Int) - startSegment) 1) (n : Int)

/-- The command line of the plugin as read by `getOptions`: whether the URL is
valid, the value of each option (0 when absent) and the presence of each flag. -/
structure CommandLine where
  urlValid : Bool
  segmentCount : Nat
  minBitrate : Nat
  maxBitrate : Nat
  minWidth : Nat
  maxWidth : Nat
  minHeight : Nat
  maxHeight : Nat
  startSegment : Int
  lowestBitrate : Bool
  highestBitrate : Bool
  lowestResolution : Bool
  highestResolution : Bool
  listVariants : Bool
  live : Bool
deriving DecidableEq, Repr

/-- The local `singleSelect` of `getOptions`. -/
def singleSelect (p : InputPlugin σ) : Nat :=
  p.lowestRate.toNat + p.highestRate.toNat + p.lowestRes.toNat + p.highestRes.toNat

/-- The local `multiSelect` of `getOptions`. -/
def multiSelect (p : InputPlugin σ) : Nat :=
  (decide (p.minRate > 0)).toNat + (decide (p.maxRate > 0)).toNat +
  (decide (p.minWidth > 0)).toNat + (decide (p.maxWidth > 0)).toNat +
  (decide (p.minHeight > 0)).toNat + (decide (p.maxHeight > 0)).toNat

/-- Method `getOptions`: the returned flag and the plugin with its options. -/
def getOptions (cl : CommandLine) (p : InputPlugin σ) : Bool × InputPlugin σ :=
  let p1 : InputPlugin σ :=
    { p with
      urlValid := cl.urlValid
      maxSegmentCount := cl.segmentCount
      minRate := cl.minBitrate
      maxRate := cl.maxBitrate
      minWidth := cl.minWidth
      maxWidth := cl.maxWidth
      minHeight := cl.minHeight
      maxHeight := cl.maxHeight
      startSegment := cl.startSegment
      lowestRate := cl.lowestBitrate
      highestRate := cl.highestBitrate
      lowestRes := cl.lowestResolution
      highestRes := cl.highestResolution
      listVariants := cl.listVariants }
  if cl.live ∧ p1.startSegment ≠ 0 then (false, p1)
  else
    let p2 := if cl.live then { p1 with startSegment := -1 } else p1
    if !p2.urlValid then (false, p2)
    else if singleSelect p2 > 1 then (false, p2)
    else if singleSelect p2 > 0 ∧ multiSelect p2 > 0 then (false, p2)
    else (true, p2)

/-- Outcome of a `_playlist.reload()`: the returned flag and the playlist after
the call. -/
structure Reload (σ : Type) where
  ok : Bool
  playlist : PlayList σ

/-- External outcomes of an `openURL()`: `tsp->aborting()` at the first test, the
first reload, then for each pass of the retry loop whether its time and abort
conditions hold (`Time::CurrentUTC() <= terminationUTC() && !aborting()`) and
the reload of that pass (after the last entry the conditions no longer hold),
and the result of `request.open`. -/
structure OpenEnv (σ : Type) where
  aborting : Bool
  reload : Reload σ
  retries : List (Bool × Reload σ)
  openOk : Bool

/-- What an `openURL()` did: the returned flag, the number of reloads of the
playlist, the argument of `request.open` when it was called (the segment popped,
`none` for the segment of an empty playlist) and the plugin after the call. -/
structure OpenResult (σ : Type) where
  ret : Bool
  reloads : Nat
  opened : Option (Option σ)
  plugin : InputPlugin σ

/-- The retry loop of `openURL`: the playlist at exit and the number of reloads. -/
def retryLoop : PlayList σ → List (Bool × Reload σ) → PlayList σ × Nat
  | pl, [] => (pl, 0)
  | pl, (go, r) :: rest =>
    if pl.segmentCount = 0 ∧ go = true then
      if !r.ok then (r.playlist, 1)
      else ((retryLoop r.playlist rest).1, (retryLoop r.playlist rest).2 + 1)
    else (pl, 0)

/-- Method `openURL`. -/
def openURL (env : OpenEnv σ) (p : InputPlugin σ) : OpenResult σ :=
  let completed : Bool :=
    (decide (p.segmentCount = 0) && decide (p.playlist.segmentCount = 0)) ||
    (decide (p.maxSegmentCount > 0) && decide (p.segmentCount ≥ p.maxSegmentCount)) ||
    env.aborting
  let reloading : Bool :=
    !completed && decide (p.playlist.segmentCount < 2) && p.playlist.updatable
  let pl := if reloading then (retryLoop env.reload.playlist env.retries).1 else p.playlist
  let reloads := if reloading then (retryLoop env.reload.playlist env.retries).2 + 1 else 0
  let completed1 := if reloading then decide (pl.segmentCount = 0) else completed
  if completed1 then
    { ret := false, reloads := reloads, opened := none, plugin := { p with playlist := pl } }
  else
    { ret := env.openOk, reloads := reloads, opened := some pl.popFirstSegment.1,
      plugin := { p with playlist := pl.popFirstSegment.2,
                         segmentCount := (p.segmentCount + 1) % SIZE_MOD } }

/-- The plugin after a sequence of `openURL()` calls. -/
def openURLs : InputPlugin σ → List (OpenEnv σ) → InputPlugin σ
  | p, [] => p
  | p, env :: envs => openURLs (openURL env p).plugin envs

/-- Modelled from the spec: the condition of the ranged selector of
`hls::PlayList` (not in src/), "all conditions must hold" where 0 means "no
bound". -/
def Variant.inRange (minBR maxBR minW maxW minH maxH : Nat) (v : Variant) : Bool :=
  (decide (minBR = 0) || decide (minBR ≤ v.bitrate)) &&
  (decide (maxBR = 0) || decide (v.bitrate ≤ maxBR)) &&
  (decide (minW = 0) || decide (minW ≤ v.width)) &&
  (decide (maxW = 0) || decide (v.width ≤ maxW)) &&
  (decide (minH = 0) || decide (minH ≤ v.height)) &&
  (decide (maxH = 0) || decide (v.height ≤ maxH))

/-- Modelled from the spec: a ranged selector of `hls::PlayList` (not in src/),
here the index of the first variant in range, `NPOS` ("not found") when there is
none. -/
def selectFirstInRange (minBR maxBR minW maxW minH maxH : Nat) (master : List Variant) : Nat :=
  match master.findIdx? (Variant.inRange minBR maxBR minW maxW minH maxH) with
  | some i => i
  | none => NPOS

end hls

/-! ## Configurations used in the evaluations -/

/-- Two inputs under the sequential strategy, input 1 being the primary input. -/
def Options.sequentialWithPrimary : Options :=
  { inputCount := 2, firstInput := 0, primaryInput := 1, cycleCount := 0, terminate := false,
    strategy := SEQUENTIAL_SWITCH, bufferedPackets := 4, maxInputPackets := 2 }

/-- Scenario 6: inputs A (0) and B (1) under the sequential strategy, no primary
input, `--cycle-count 2`. -/
def Options.twoCycles : Options :=
  { inputCount := 2, firstInput := 0, primaryInput := NPOS, cycleCount := 2, terminate := false,
    strategy := SEQUENTIAL_SWITCH, bufferedPackets := 4, maxInputPackets := 2 }

/-- Two inputs under the fast strategy, input 1 being the primary input, one cycle. -/
def Options.fastWithPrimary : Options :=
  { inputCount := 2, firstInput := 0, primaryInput := 1, cycleCount := 1, terminate := false,
    strategy := FAST_SWITCH, bufferedPackets := 4, maxInputPackets := 2 }

/-- Master selectors that never find a variant. -/
def hls.Selectors.none : hls.Selectors :=
  { selectPlayListLowestBitRate := fun _ => NPOS
    selectPlayListHighestBitRate := fun _ => NPOS
    selectPlayListLowestResolution := fun _ => NPOS
    selectPlayListHighestResolution := fun _ => NPOS
    selectPlayList := fun _ _ _ _ _ _ _ => NPOS }

/-- A media playlist (not updatable) with the given segments. -/
def hls.PlayList.media (segs : List Nat) : hls.PlayList Nat :=
  { type := .MEDIA_PLAYLIST, playlists := [], segments := segs, updatable := false }

/-- A plugin as constructed, with the given `--start-segment`. -/
def hls.InputPlugin.startingAt (s : Int) : hls.InputPlugin Nat :=
  { urlValid := true, minRate := 0, maxRate := 0, minWidth := 0, maxWidth := 0, minHeight := 0,
    maxHeight := 0, startSegment := s, listVariants := false, lowestRate := false,
    highestRate := false, lowestRes := false, highestRes := false, maxSegmentCount := 0,
    segmentCount := 0, playlist := hls.PlayList.clear }

/-- The outcomes of a `start()` whose URL is the given playlist, every other
external call succeeding (no variant is downloadable). -/
def hls.StartEnv.direct (pl : hls.PlayList Nat) : hls.StartEnv Nat :=
  { loadMain := some pl, loadVariant := fun _ _ => Option.none, superStart := true }

/-- Three inputs under the sequential strategy, no primary input, no cycle limit
(scenario 1). -/
def Options.threeSequential : Options :=
  { inputCount := 3, firstInput := 0, primaryInput := NPOS, cycleCount := 0, terminate := false,
    strategy := SEQUENTIAL_SWITCH, bufferedPackets := 4, maxInputPackets := 2 }

/-- Two inputs under the delayed strategy, no primary input (scenario 3). -/
def Options.twoDelayed : Options :=
  { inputCount := 2, firstInput := 0, primaryInput := NPOS, cycleCount := 1, terminate := false,
    strategy := DELAYED_SWITCH, bufferedPackets := 4, maxInputPackets := 2 }

/-- Selectors whose ranged selector is the first variant in range (the four others
are not used in the evaluations). -/
def hls.Selectors.firstInRange : hls.Selectors :=
  { selectPlayListLowestBitRate := fun _ => NPOS
    selectPlayListHighestBitRate := fun _ => NPOS
    selectPlayListLowestResolution := fun _ => NPOS
    selectPlayListHighestResolution := fun _ => NPOS
    selectPlayList := hls.selectFirstInRange }

/-- The variant of URL `url` at `kbps` kilobits per second (no resolution). -/
def hls.Variant.atRate (url kbps : Nat) : hls.Variant :=
  { url := url, bitrate := kbps * 1000, width := 0, height := 0 }

/-- A master playlist with the given variants. -/
def hls.PlayList.master (variants : List hls.Variant) : hls.PlayList Nat :=
  { type := .MASTER_PLAYLIST, playlists := variants, segments := [], updatable := false }

/-- A plugin as constructed, with `--max-bitrate 2000000` (scenario 4). -/
def hls.InputPlugin.maxBitrate2M : hls.InputPlugin Nat :=
  { hls.InputPlugin.startingAt 0 with maxRate := 2000000 }

/-- The outcomes of a `start()` on the given master playlist when the media
playlists of the variants up to 2000 kbps cannot be downloaded and those of the
others are a media playlist of one segment. -/
def hls.StartEnv.lowRatesFail (variants : List hls.Variant) : hls.StartEnv Nat :=
  { loadMain := some (hls.PlayList.master variants)
    loadVariant := fun _ v =>
      if v.bitrate ≤ 2000000 then Option.none else some (hls.PlayList.media [1])
    superStart := true }

/-- The outcomes of an `openURL()` without abort, in which a reload fails and
leaves an empty playlist and `request.open` fails. -/
def hls.OpenEnv.quiet : hls.OpenEnv Nat :=
  { aborting := false, reload := { ok := false, playlist := hls.PlayList.clear },
    retries := [], openOk := false }

/-- A ring of capacity 4 under flow control with two packets committed. -/
def RingSys.halfFull : RingSys :=
  (((RingSys.init 4).apply 2 (.setFlowControl true)).apply 2 .reserve).apply 2 (.commit 2)

/-! # Theorems -/

/-! ## Arithmetic of ring slots -/

theorem subSize_of_le (a b : Nat) (h : b ≤ a) : subSize a b = a - b := by
  unfold subSize; rw [if_pos h]

theorem mod_slot_ne (f c a b : Nat) (ha : a < c) (hb : b < c) (hab : a ≠ b) :
    (f + a) % c ≠ (f + b) % c := by
  intro h
  have h1 : a % c = b % c := Nat.ModEq.add_left_cancel' f h
  rw [Nat.mod_eq_of_lt ha, Nat.mod_eq_of_lt hb] at h1
  exact hab h1

theorem wrap_slot (f k c m : Nat) (h : (f + k) % c + m < c) :
    (f + k + m) % c = (f + k) % c + m := by
  rw [← Nat.mod_add_mod, Nat.mod_eq_of_lt h]

theorem slot_outside (f k c m j inCount : Nat) (hj : j < k) (hk : k + inCount ≤ c)
    (hin : (f + k) % c + inCount ≤ c) (hm : m ≤ inCount) :
    (f + j) % c < (f + k) % c ∨ (f + k) % c + m ≤ (f + j) % c := by
  by_contra hcon
  push_neg at hcon
  obtain ⟨h1, h2⟩ := hcon
  obtain ⟨d, hd⟩ : ∃ d, (f + j) % c = (f + k) % c + d := ⟨(f + j) % c - (f + k) % c, by omega⟩
  have hdm : d < m := by omega
  have hw : (f + k + d) % c = (f + k) % c + d := wrap_slot f k c d (by omega)
  have : (f + j) % c = (f + (k + d)) % c := by rw [← Nat.add_assoc, hw, hd]
  exact mod_slot_ne f c j (k + d) (by omega) (by omega) (by omega) this

theorem bufferFullWait_false_of (e : InputExecutor) (h : e.bufferFullWait = false)
    (hstop : e.stopRequests = 0) (hterm : e.terminated = false) :
    e.outCount < e.bufferSize := by
  simp only [InputExecutor.bufferFullWait, Bool.and_eq_false_iff, decide_eq_false_iff_not,
    Bool.not_eq_false'] at h
  rcases h with (h | h) | h
  · omega
  · exact absurd hstop h
  · rw [hterm] at h; exact absurd h (by decide)

/-! ## The ring bounds hold as long as nothing is dropped under the reader -/

theorem ringInv_init (cap : Nat) (hcap : 0 < cap) : (RingSys.init cap).Inv := by
  simp [RingSys.Inv, RingSys.init, InputExecutor.new, ringBound, hcap]

theorem ringInv_apply (maxIn : Nat) (r : RingSys) (op : RingOp) (hinv : r.Inv)
    (hen : r.enabled op = true) (hdis : r.disciplined op = true) : (r.apply maxIn op).Inv := by
  obtain ⟨⟨hk, hf⟩, hcnt, hcnt2, huse, hres⟩ := hinv
  cases op with
  | getOutputArea =>
    have hsub := subSize_of_le r.exec.bufferSize r.exec.outFirst (by omega)
    simp only [RingSys.Inv, ringBound, RingSys.apply, InputExecutor.getOutputArea, hsub]
    refine ⟨⟨hk, hf⟩, by omega, by omega, ?_, hres⟩
    intro h
    simp only [decide_eq_false_iff_not] at h
    omega
  | freeOutput n =>
    simp only [RingSys.enabled, decide_eq_true_eq] at hen
    have hsub := subSize_of_le r.exec.outCount n (by omega)
    have hm := Nat.mod_lt (r.exec.outFirst + n) (show 0 < r.exec.bufferSize by omega)
    simp only [RingSys.Inv, ringBound, RingSys.apply, InputExecutor.freeOutput, hsub]
    refine ⟨⟨by omega, hm⟩, by omega, by omega, fun _ => trivial, ?_⟩
    intro h
    have := hres h
    omega
  | setFlowControl b =>
    exact ⟨⟨hk, hf⟩, hcnt, hcnt2, huse, hres⟩
  | overwrite =>
    simp only [RingSys.enabled, Bool.and_eq_true, Bool.not_eq_true', InputExecutor.bufferFullWait,
      decide_eq_true_eq] at hen
    simp only [RingSys.disciplined, Bool.not_eq_true'] at hdis
    obtain ⟨⟨hnr, ⟨⟨hfull, _⟩, _⟩⟩, _⟩ := hen
    have hc0 := huse hdis
    have hsub := subSize_of_le r.exec.bufferSize r.exec.outFirst (by omega)
    have hm := Nat.mod_lt (r.exec.outFirst + min maxIn (r.exec.bufferSize - r.exec.outFirst))
      (show 0 < r.exec.bufferSize by omega)
    have hsub2 := subSize_of_le r.exec.outCount (min maxIn (r.exec.bufferSize - r.exec.outFirst))
      (by omega)
    simp only [RingSys.Inv, ringBound, RingSys.apply, InputExecutor.dropOldest, hsub, hsub2]
    refine ⟨⟨by omega, hm⟩, by omega, by omega, fun _ => hc0, ?_⟩
    intro h; rw [hnr] at h; exact absurd h (by decide)
  | reserve =>
    simp only [RingSys.enabled, Bool.and_eq_true, Bool.not_eq_true', decide_eq_true_eq] at hen
    obtain ⟨⟨⟨_, hfull⟩, hstop⟩, hterm⟩ := hen
    have hlt := bufferFullWait_false_of r.exec hfull hstop hterm
    have hm := Nat.mod_lt (r.exec.outFirst + r.exec.outCount) (show 0 < r.exec.bufferSize by omega)
    have hsub := subSize_of_le r.exec.bufferSize r.exec.outCount (by omega)
    have hsub2 := subSize_of_le r.exec.bufferSize
      ((r.exec.outFirst + r.exec.outCount) % r.exec.bufferSize) (by omega)
    simp only [RingSys.Inv, ringBound, RingSys.apply, InputExecutor.receiveArea, hsub, hsub2]
    refine ⟨⟨hk, hf⟩, hcnt, hcnt2, huse, ?_⟩
    intro _; omega
  | commit n =>
    simp only [RingSys.enabled, Bool.and_eq_true, decide_eq_true_eq] at hen
    obtain ⟨⟨hr, _⟩, hn⟩ := hen
    have := hres hr
    simp only [RingSys.Inv, ringBound, RingSys.apply, InputExecutor.commitInput]
    refine ⟨⟨by omega, hf⟩, by omega, hcnt2, huse, ?_⟩
    intro h; exact absurd h (by decide)
  | reset =>
    simp only [RingSys.enabled, Bool.and_eq_true, Bool.not_eq_true'] at hen
    obtain ⟨hnr, hnu⟩ := hen
    have hc0 := huse hnu
    simp only [RingSys.Inv, ringBound, RingSys.apply, InputExecutor.resetBuffer]
    refine ⟨⟨by omega, by omega⟩, by omega, by omega, fun _ => hc0, ?_⟩
    intro h; rw [hnr] at h; exact absurd h (by decide)

theorem ringInv_run (maxIn : Nat) (ops : List RingOp) :
    ∀ (r t : RingSys), r.Inv → RingSys.runDisciplined maxIn r ops = some t → t.Inv := by
  induction ops with
  | nil =>
    intro r t hinv hrun
    simp only [RingSys.runDisciplined, Option.some.injEq] at hrun
    exact hrun ▸ hinv
  | cons op ops ih =>
    intro r t hinv hrun
    simp only [RingSys.runDisciplined] at hrun
    split at hrun
    · rename_i hen
      simp only [Bool.and_eq_true] at hen
      exact ih _ _ (ringInv_apply maxIn r op hinv hen.1 hen.2) hrun
    · exact absurd hrun (by simp)

/-! ## Packets in the ring -/

theorem writePackets_outside {α : Type} (buffer : Nat → α) (first : Nat) (pkts : List α) (k : Nat)
    (h : k < first ∨ first + pkts.length ≤ k) : writePackets buffer first pkts k = buffer k := by
  unfold writePackets
  split
  · rcases h with h | h
    · omega
    · rw [List.getElem?_eq_none (by omega)]; rfl
  · rfl

theorem writePackets_inside {α : Type} (buffer : Nat → α) (first : Nat) (pkts : List α) (j : Nat)
    (h : j < pkts.length) : writePackets buffer first pkts (first + j) = pkts[j] := by
  unfold writePackets
  rw [if_pos (by omega)]
  have : first + j - first = j := by omega
  rw [this, List.getElem?_eq_getElem h]; rfl

theorem readSlots_writePackets {α : Type} (buffer : Nat → α) (first : Nat) (pkts : List α) :
    readSlots (writePackets buffer first pkts) first pkts.length = pkts := by
  unfold readSlots
  apply List.ext_getElem
  · simp
  · intro n h1 h2
    simp only [List.getElem_map, List.getElem_range]
    exact writePackets_inside buffer first pkts n h2

theorem readSlots_take {α : Type} (buffer : Nat → α) (first n m : Nat) (h : m ≤ n) :
    (readSlots buffer first n).take m = readSlots buffer first m := by
  unfold readSlots
  rw [← List.map_take, List.take_range, Nat.min_eq_left h]

theorem queue_split {α : Type} (buffer : Nat → α) (f c a b : Nat) :
    (List.range (a + b)).map (fun j => buffer ((f + j) % c)) =
      (List.range a).map (fun j => buffer ((f + j) % c)) ++
      (List.range b).map (fun j => buffer ((f + a + j) % c)) := by
  rw [List.range_add, List.map_append, List.map_map]
  congr 1
  apply List.map_congr_left
  intro j _
  simp [Nat.add_assoc]

theorem map_range_congr {α : Type} (n : Nat) (g h : Nat → α) (hyp : ∀ j, j < n → g j = h j) :
    (List.range n).map g = (List.range n).map h := by
  apply List.map_congr_left
  intro j hj
  exact hyp j (List.mem_range.mp hj)

theorem fifoInv_init {α : Type} (cap : Nat) (buffer : Nat → α) (hcap : 0 < cap) :
    (FifoSys.init cap buffer).Inv := by
  simp [FifoSys.Inv, FifoSys.init, InputExecutor.new, FifoSys.queue, readSlots, hcap]

theorem fifoInv_apply {α : Type} (maxIn : Nat) (s : FifoSys α) (op : FifoOp α)
    (hinv : s.Inv) (hen : s.enabled op = true) : (s.apply maxIn op).Inv := by
  obtain ⟨hf, hk, hcom, hcnt, hcnt2, hhand, hres, hrec⟩ := hinv
  cases op with
  | reserve =>
    simp only [FifoSys.enabled, Bool.and_eq_true, decide_eq_true_eq, Bool.not_eq_true',
      InputExecutor.bufferFullWait, Bool.and_eq_false_iff, decide_eq_false_iff_not,
      Bool.not_eq_false'] at hen
    obtain ⟨⟨⟨hph, hfull⟩, hstop⟩, hterm⟩ := hen
    have hlt : s.exec.outCount < s.exec.bufferSize := by
      rcases hfull with (h | h) | h
      · omega
      · exact absurd hstop h
      · rw [hterm] at h; exact absurd h (by decide)
    have hm : (s.exec.outFirst + s.exec.outCount) % s.exec.bufferSize < s.exec.bufferSize :=
      Nat.mod_lt _ (by omega)
    refine ⟨hf, hk, hcom, hcnt, hcnt2, hhand, ?_, ?_⟩
    · intro _
      simp only [FifoSys.apply, InputExecutor.receiveArea, subSize]
      rw [if_pos (by omega), if_pos (by omega)]
      refine ⟨trivial, ?_, ?_⟩ <;> omega
    · intro h; simp [FifoSys.apply] at h
  | receive pkts =>
    simp only [FifoSys.enabled, Bool.and_eq_true, decide_eq_true_eq] at hen
    obtain ⟨⟨hph, hpos⟩, hlen⟩ := hen
    obtain ⟨hin1, hin2, hin3⟩ := hres (by rw [hph]; decide)
    have hout : ∀ j, j < s.exec.outCount →
        writePackets s.buffer s.inFirst pkts ((s.exec.outFirst + j) % s.exec.bufferSize)
          = s.buffer ((s.exec.outFirst + j) % s.exec.bufferSize) := by
      intro j hj
      apply writePackets_outside
      rw [hin1]
      exact slot_outside _ _ _ _ _ s.inCount hj hin3 (by rw [← hin1]; exact hin2) hlen
    refine ⟨hf, hk, ?_, hcnt, hcnt2, ?_, ?_, ?_⟩
    · simp only [FifoSys.apply, FifoSys.queue]
      rw [hcom, FifoSys.queue]
      congr 1
      exact (map_range_congr _ _ _ hout).symm
    · simp only [FifoSys.apply]
      rw [hhand]
      unfold readSlots
      apply map_range_congr
      intro j hj
      have hlt : s.exec.outFirst + j < s.exec.bufferSize := by omega
      have := hout j (by omega)
      rw [Nat.mod_eq_of_lt hlt] at this
      exact this.symm
    · intro _
      simp only [FifoSys.apply]
      refine ⟨hin1, ?_, ?_⟩ <;> omega
    · intro _
      simp only [FifoSys.apply]
      exact (readSlots_writePackets s.buffer s.inFirst pkts).symm
  | commit =>
    simp only [FifoSys.enabled, decide_eq_true_eq] at hen
    obtain ⟨hin1, hin2, hin3⟩ := hres (by rw [hen]; decide)
    have hpend := hrec hen
    refine ⟨hf, ?_, ?_, ?_, hcnt2, hhand, ?_, ?_⟩
    · simp only [FifoSys.apply, InputExecutor.commitInput]; omega
    · simp only [FifoSys.apply, InputExecutor.commitInput, FifoSys.queue]
      rw [hcom, FifoSys.queue, queue_split, List.append_assoc]
      congr 2
      rw [hpend]
      unfold readSlots
      apply map_range_congr
      intro j hj
      rw [hin1, wrap_slot _ _ _ _ (by omega)]
    · simp only [FifoSys.apply, InputExecutor.commitInput]; omega
    · intro h; simp [FifoSys.apply] at h
    · intro h; simp [FifoSys.apply] at h
  | getOutputArea =>
    have hsub : subSize s.exec.bufferSize s.exec.outFirst = s.exec.bufferSize - s.exec.outFirst := by
      unfold subSize; rw [if_pos (by omega)]
    refine ⟨hf, hk, hcom, ?_, ?_, ?_, hres, hrec⟩
    · simp only [FifoSys.apply, InputExecutor.getOutputArea]; omega
    · simp only [FifoSys.apply, InputExecutor.getOutputArea, hsub]; omega
    · simp only [FifoSys.apply, InputExecutor.getOutputArea]
  | freeOutput n =>
    simp only [FifoSys.enabled, decide_eq_true_eq] at hen
    have hsub : subSize s.exec.outCount n = s.exec.outCount - n := by
      unfold subSize; rw [if_pos (by omega)]
    have hidx : ((s.exec.outFirst + n) % s.exec.bufferSize + (s.exec.outCount - n)) % s.exec.bufferSize
        = (s.exec.outFirst + s.exec.outCount) % s.exec.bufferSize := by
      rw [Nat.mod_add_mod]; congr 1; omega
    refine ⟨?_, ?_, ?_, ?_, ?_, ?_, ?_, hrec⟩
    · simp only [FifoSys.apply, InputExecutor.freeOutput]
      exact Nat.mod_lt _ (by omega)
    · simp only [FifoSys.apply, InputExecutor.freeOutput, hsub]; omega
    · simp only [FifoSys.apply, InputExecutor.freeOutput, hsub, FifoSys.queue]
      rw [hcom, FifoSys.queue, List.append_assoc]
      congr 1
      have hsplit : s.exec.outCount = n + (s.exec.outCount - n) := by omega
      rw [hsplit, queue_split, hhand, readSlots_take _ _ _ _ hen]
      have hsplit2 : n + (s.exec.outCount - n) - n = s.exec.outCount - n := by omega
      rw [hsplit2]
      congr 1
      · unfold readSlots
        apply map_range_congr
        intro j hj
        rw [Nat.mod_eq_of_lt (by omega)]
      · apply map_range_congr
        intro j hj
        rw [Nat.mod_add_mod]
    · simp only [FifoSys.apply]; omega
    · simp only [FifoSys.apply, InputExecutor.freeOutput]
      have := Nat.mod_lt (s.exec.outFirst + n) (show 0 < s.exec.bufferSize by omega)
      omega
    · simp [FifoSys.apply, readSlots]
    · intro h
      obtain ⟨hin1, hin2, hin3⟩ := hres h
      simp only [FifoSys.apply, InputExecutor.freeOutput, hsub]
      refine ⟨?_, hin2, ?_⟩
      · rw [hidx]; exact hin1
      · omega


theorem fifoInv_run {α : Type} (maxIn : Nat) (ops : List (FifoOp α)) :
    ∀ (s t : FifoSys α), s.Inv → FifoSys.run maxIn s ops = some t → t.Inv := by
  induction ops with
  | nil =>
    intro s t hinv hrun
    simp only [FifoSys.run, Option.some.injEq] at hrun
    exact hrun ▸ hinv
  | cons op ops ih =>
    intro s t hinv hrun
    simp only [FifoSys.run] at hrun
    split at hrun
    · rename_i hen
      exact ih _ _ (fifoInv_apply maxIn s op hinv hen) hrun
    · exact absurd hrun (by simp)

theorem fifo_bufferSize_run {α : Type} (maxIn : Nat) (ops : List (FifoOp α)) :
    ∀ (s t : FifoSys α), FifoSys.run maxIn s ops = some t →
      t.exec.bufferSize = s.exec.bufferSize := by
  induction ops with
  | nil =>
    intro s t hrun
    simp only [FifoSys.run, Option.some.injEq] at hrun
    rw [hrun]
  | cons op ops ih =>
    intro s t hrun
    simp only [FifoSys.run] at hrun
    split at hrun
    · rw [ih _ _ hrun]
      cases op <;> rfl
    · exact absurd hrun (by simp)

/-- One step of the ring is the step of the bounded FIFO queue that `follow`
assigns to it: the waiting packets after the step are the queue after the queue
operation, and the packets released by the step are the packets dequeued. -/
theorem fifo_refines_step {α : Type} (maxIn : Nat) (s : FifoSys α) (op : FifoOp α)
    (hinv : s.Inv) (hen : s.enabled op = true) :
    (s.apply maxIn op).queue =
        ((BoundedFifo.mk s.exec.bufferSize s.queue).follow s op).2.items ∧
    (s.apply maxIn op).released =
        s.released ++ ((BoundedFifo.mk s.exec.bufferSize s.queue).follow s op).1 := by
  have hinv1 := fifoInv_apply maxIn s op hinv hen
  have hc := hinv.2.2.1
  have hc1 := hinv1.2.2.1
  cases op with
  | reserve =>
    simp only [FifoSys.apply] at hc1
    rw [hc] at hc1
    exact ⟨(List.append_cancel_left hc1).symm, by simp [FifoSys.apply, BoundedFifo.follow]⟩
  | receive pkts =>
    simp only [FifoSys.apply] at hc1
    rw [hc] at hc1
    exact ⟨(List.append_cancel_left hc1).symm, by simp [FifoSys.apply, BoundedFifo.follow]⟩
  | getOutputArea =>
    simp only [FifoSys.apply] at hc1
    rw [hc] at hc1
    exact ⟨(List.append_cancel_left hc1).symm, by simp [FifoSys.apply, BoundedFifo.follow]⟩
  | commit =>
    simp only [FifoSys.apply] at hc1
    rw [hc, List.append_assoc] at hc1
    exact ⟨(List.append_cancel_left hc1).symm, by simp [FifoSys.apply, BoundedFifo.follow]⟩
  | freeOutput n =>
    simp only [FifoSys.enabled, decide_eq_true_eq] at hen
    have hlen : (s.handed.take n).length = n := by
      rw [hinv.2.2.2.2.2.1, List.length_take]
      simp [readSlots, hen]
    have hc2 : s.committed =
        (s.released ++ s.handed.take n) ++ (s.apply maxIn (.freeOutput n)).queue := hc1
    rw [hc, List.append_assoc] at hc2
    have hq := List.append_cancel_left hc2
    refine ⟨?_, ?_⟩
    · show _ = s.queue.drop n
      rw [hq, List.drop_left' hlen]
    · show s.released ++ s.handed.take n = s.released ++ s.queue.take n
      rw [hq, List.take_left' hlen]

/-! ## Claims on the ring -/

/-- C1 (ring bound invariant), evaluated on the code: on a ring of capacity 4 with
`maxInputPackets = 2`, filled by two commits of 2 packets under flow control,
after `getOutputArea` (which hands out 4 slots), `setFlowControl(false)`, the
overwrite step of the full ring and `freeOutput(4)`, every operation being
enabled, the assertion `count <= _outCount` of `freeOutput` is false when it is
called, and `outCount` is then `2^64 - 2`: the bound `outCount ≤ capacity` does
not hold. -/
theorem C1_ring_bound_broken_by_overwrite :
    ((RingSys.init 4).run 2
        [.setFlowControl true, .reserve, .commit 2, .reserve, .commit 2, .getOutputArea,
         .setFlowControl false, .overwrite]).map
      (fun r => (decide (ringBound r.exec), r.count, r.enabled (.freeOutput 4),
        r.exec.freeOutputAssert 4)) = some (true, 4, true, false) ∧
    ((RingSys.init 4).run 2
        [.setFlowControl true, .reserve, .commit 2, .reserve, .commit 2, .getOutputArea,
         .setFlowControl false, .overwrite, .freeOutput 4]).map
      (fun r => (r.exec.outCount, decide (ringBound r.exec))) =
      some (SIZE_MOD - 2, false) := by
  decide

/-- C2 (no overwrite while the output uses the buffer), evaluated on the code: on a
ring of capacity 4 filled under flow control, after `getOutputArea` has set
`outputInUse` and `setFlowControl(false)`, the overwrite step of the wait loop is
enabled; it moves `outFirst` from 0 to 2 and `outCount` from 4 to 2 while
`outputInUse` is still true. -/
theorem C2_overwrite_while_output_in_use :
    ((RingSys.init 4).run 2
        [.setFlowControl true, .reserve, .commit 2, .reserve, .commit 2, .getOutputArea,
         .setFlowControl false]).map
      (fun r => (r.exec.outputInUse, r.enabled .overwrite, r.exec.outFirst, r.exec.outCount,
        (r.apply 2 .overwrite).exec.outFirst, (r.apply 2 .overwrite).exec.outCount,
        (r.apply 2 .overwrite).exec.outputInUse)) =
      some (true, true, 0, 4, 2, 2, true) := by
  rfl

/-- C3 (FIFO refinement): from the start of a session with flow control on, after
any sequence of steps of the input thread (reserve, receive, commit) and of the
output thread (getOutputArea, freeOutput of at most the count handed out), the
packets handed to the reader and released are, in order, a prefix of the packets
committed by the writer; the difference is exactly the content of the ring,
oldest first, which holds `outCount` packets and never more than the capacity. -/
theorem C3_fifo_order {α : Type} (cap maxIn : Nat) (buffer : Nat → α)
    (ops : List (FifoOp α)) (t : FifoSys α) (hcap : 0 < cap)
    (hrun : FifoSys.run maxIn (FifoSys.init cap buffer) ops = some t) :
    t.released <+: t.committed ∧ t.committed = t.released ++ t.queue ∧
      t.queue.length = t.exec.outCount ∧ t.exec.outCount ≤ cap := by
  have hinv := fifoInv_run maxIn ops _ t (fifoInv_init cap buffer hcap) hrun
  have hsz := fifo_bufferSize_run maxIn ops _ t hrun
  obtain ⟨_, hk, hcom, _⟩ := hinv
  refine ⟨⟨t.queue, hcom.symm⟩, hcom, by simp [FifoSys.queue], ?_⟩
  rw [hsz] at hk
  exact hk

/-- Witness of C3 on a ring of four slots: two packets committed, one released. -/
theorem C3_fifo_order_witness :
    (((((((FifoSys.init 4 (fun _ => 0)).apply 2 .reserve).apply 2 (.receive [10, 11])).apply 2
        .commit).apply 2 .getOutputArea).apply 2 (.freeOutput 1)).released = [10]) ∧
    ([10] : List Nat) <+: [10, 11] :=
  ⟨rfl, (C3_fifo_order 4 2 (fun _ => 0)
      [.reserve, .receive [10, 11], .commit, .getOutputArea, .freeOutput 1]
      ((((((FifoSys.init 4 (fun _ => 0)).apply 2 .reserve).apply 2 (.receive [10, 11])).apply 2
        .commit).apply 2 .getOutputArea).apply 2 (.freeOutput 1))
      (by decide) rfl).1⟩

/-- C4 (write reservation): on a ring that is not full and satisfies the bounds,
the receive area starts at `(outFirst + outCount) mod capacity`, its size is
`min(maxInputPackets, capacity - outCount, capacity - inFirst)`, the two
assertions `inFirst < capacity` and `inFirst + inCount <= capacity` hold, and
`inCount ≥ 1` whenever `maxInputPackets ≥ 1`. -/
theorem C4_receive_area (maxInputPackets : Nat) (e : InputExecutor)
    (hfirst : e.outFirst < e.bufferSize) (hcount : e.outCount < e.bufferSize) :
    (e.receiveArea maxInputPackets).1 = (e.outFirst + e.outCount) % e.bufferSize ∧
    (e.receiveArea maxInputPackets).2 =
      min maxInputPackets (min (e.bufferSize - e.outCount)
        (e.bufferSize - (e.receiveArea maxInputPackets).1)) ∧
    (e.receiveArea maxInputPackets).1 < e.bufferSize ∧
    (e.receiveArea maxInputPackets).1 + (e.receiveArea maxInputPackets).2 ≤ e.bufferSize ∧
    (1 ≤ maxInputPackets → 1 ≤ (e.receiveArea maxInputPackets).2) := by
  have hpos : 0 < e.bufferSize := Nat.lt_of_le_of_lt (Nat.zero_le _) hfirst
  have hm : (e.outFirst + e.outCount) % e.bufferSize < e.bufferSize := Nat.mod_lt _ hpos
  have h1 := subSize_of_le e.bufferSize e.outCount (by omega)
  have h2 := subSize_of_le e.bufferSize ((e.outFirst + e.outCount) % e.bufferSize) (by omega)
  simp only [InputExecutor.receiveArea, h1, h2]
  refine ⟨trivial, trivial, hm, ?_, ?_⟩ <;> omega

/-- Witness of C4: capacity 8, read index 5, 2 packets waiting, at most 4 packets
per receive: the area is slot 7 alone. -/
theorem C4_receive_area_witness :
    (InputExecutor.receiveArea 4 { InputExecutor.new 8 with outFirst := 5, outCount := 2 }).1 = 7 ∧
    (InputExecutor.receiveArea 4 { InputExecutor.new 8 with outFirst := 5, outCount := 2 }).2 = 1 :=
  have h := C4_receive_area 4 { InputExecutor.new 8 with outFirst := 5, outCount := 2 }
    (by decide) (by decide)
  ⟨h.1.trans (by decide), h.2.1.trans (by decide)⟩

/-- C5 (read release): on a ring satisfying the bounds, `freeOutput(n)` with
`n ≤ outCount` gives `outFirst = (outFirst + n) mod capacity`,
`outCount = outCount - n`, `outputInUse = false`, and the write index
`(outFirst + outCount) mod capacity` is unchanged; the bounds hold again. -/
theorem C5_free_output (e : InputExecutor) (n : Nat)
    (hfirst : e.outFirst < e.bufferSize) (hcount : e.outCount ≤ e.bufferSize)
    (hn : n ≤ e.outCount) :
    (e.freeOutput n).outFirst = (e.outFirst + n) % e.bufferSize ∧
    (e.freeOutput n).outCount = e.outCount - n ∧
    (e.freeOutput n).outputInUse = false ∧
    ((e.freeOutput n).outFirst + (e.freeOutput n).outCount) % (e.freeOutput n).bufferSize =
      (e.outFirst + e.outCount) % e.bufferSize ∧
    ringBound (e.freeOutput n) := by
  have h1 := subSize_of_le e.outCount n hn
  have hm := Nat.mod_lt (e.outFirst + n) (Nat.lt_of_le_of_lt (Nat.zero_le _) hfirst)
  simp only [InputExecutor.freeOutput, h1, ringBound]
  refine ⟨trivial, trivial, trivial, ?_, by omega, hm⟩
  rw [Nat.mod_add_mod]
  congr 1
  omega

/-- Witness of C5: capacity 8, read index 6, 5 packets waiting, 3 released. -/
theorem C5_free_output_witness :
    (InputExecutor.freeOutput
      { InputExecutor.new 8 with outFirst := 6, outCount := 5, outputInUse := true } 3).outFirst = 1 ∧
    (InputExecutor.freeOutput
      { InputExecutor.new 8 with outFirst := 6, outCount := 5, outputInUse := true } 3).outCount = 2 :=
  have h := C5_free_output
    { InputExecutor.new 8 with outFirst := 6, outCount := 5, outputInUse := true } 3
    (by decide) (by decide) (by decide)
  ⟨h.1.trans (by decide), h.2.1.trans (by decide)⟩

/-! ## The core -/

theorem forRange_succ {σ : Type} (n : Nat) (body : σ → Nat → σ) (s : σ) :
    forRange (n + 1) body s = body (forRange n body s) n := by
  simp [forRange, List.range_succ, List.foldl_append]

/-- The loop of `stop(true)` over the first `n` inputs: only `inputs` and
`inStates` change, entry by entry. -/
theorem stop_loop (n : Nat) (c : Core) :
    let r := forRange n
      (fun c i => { c.onInput i InputExecutor.terminateInput with
                    inStates := c.inStates.set i INPUT_STOPPED }) c
    r = { c with inputs := r.inputs, inStates := r.inStates } ∧
    (∀ j, r.inputs[j]? =
      if j < n then (c.inputs[j]?).map InputExecutor.terminateInput else c.inputs[j]?) ∧
    (∀ j, r.inStates[j]? =
      if j < n then (c.inStates[j]?).map (fun _ => INPUT_STOPPED) else c.inStates[j]?) := by
  induction n with
  | zero => simp [forRange]
  | succ n ih =>
    obtain ⟨h1, h2, h3⟩ := ih
    rw [forRange_succ]
    generalize forRange n _ c = r at h1 h2 h3
    refine ⟨?_, ?_, ?_⟩
    · simp only [Core.onInput]
      rw [h1]
    · intro j
      simp only [Core.onInput, List.getElem?_modify, h2]
      by_cases hj : n = j
      · subst hj; simp
      · by_cases hlt : j < n
        · simp [hj, hlt, Nat.lt_succ_of_lt hlt]
        · have : ¬ j < n + 1 := by omega
          simp [hj, hlt, this]
    · intro j
      simp only [Core.onInput, List.getElem?_set', h3]
      by_cases hj : n = j
      · subst hj; simp; rfl
      · by_cases hlt : j < n
        · simp [hj, hlt, Nat.lt_succ_of_lt hlt]
        · have : ¬ j < n + 1 := by omega
          simp [hj, hlt, this]

theorem stop_true_eq (c : Core) (hwf : c.WellFormed) :
    c.stop true =
      { c with terminate := true, outputTerminated := true, state := CORE_STOPPED,
               inputs := c.inputs.map InputExecutor.terminateInput,
               inStates := List.replicate c.size INPUT_STOPPED } := by
  have h := stop_loop c.size { c with terminate := true, outputTerminated := true }
  simp only at h
  obtain ⟨h1, h2, h3⟩ := h
  simp only [Core.stop, if_true, Core.size] at h1 h2 h3 ⊢
  generalize forRange _ _ _ = r at h1 h2 h3
  have hin : r.inputs = c.inputs.map InputExecutor.terminateInput := by
    apply List.ext_getElem?
    intro j
    rw [h2, List.getElem?_map]
    split
    · rfl
    · rename_i hj
      rw [List.getElem?_eq_none (by omega)]; rfl
  have hst : r.inStates = List.replicate c.inputs.length INPUT_STOPPED := by
    apply List.ext_getElem?
    intro j
    rw [h3, List.getElem?_replicate]
    unfold Core.WellFormed at hwf
    split
    · rename_i hj
      rw [List.getElem?_eq_getElem (by omega)]; rfl
    · rename_i hj
      rw [List.getElem?_eq_none (by omega)]
  rw [h1, hin, hst]

theorem markStopped_eq (c : Core) (index : Nat) :
    c.markStopped index =
      { c with inStates := c.inStates.set index INPUT_STOPPED,
               curCycle := if index = subSize c.size 1 then (c.curCycle + 1) % SIZE_MOD
                           else c.curCycle } := by
  by_cases h : index = subSize c.inputs.length 1 <;> simp [Core.markStopped, Core.size, h]

/-! ## The loops end within their fuel -/

/-- Two tests of the loop condition are enough for the notification loops: the
body runs once when `count ≥ 1`, not at all when `count = 0`. -/
theorem notifyLoop_two {σ : Type} (count : Nat) (body : σ → σ) (s : σ)
    (hcount : count < SIZE_MOD) :
    notifyLoop count body 2 0 s = some (if count = 0 then s else body s) := by
  by_cases h : count = 0
  · subst h; simp [notifyLoop]
  · have h0 : 0 < count := Nat.pos_of_ne_zero h
    have hw : ¬ (subSize 0 1 < count) := by
      unfold subSize SIZE_MOD at *
      simp only [Nat.reduceLeDiff, if_false]
      omega
    simp [notifyLoop, h0, hw, h]

theorem upward_step (index k n : Nat) :
    ((index + k) % n + 1) % n = (index + (k + 1)) % n := by
  rw [Nat.mod_add_mod, Nat.add_assoc]

theorem mod_of_decomp (a n q r : Nat) (h : a = n * q + r) (hr : r < n) : a % n = r := by
  rw [h, Nat.mul_add_mod, Nat.mod_eq_of_lt hr]

theorem downward_step (index m n : Nat) (hn : 0 < n) (hm : 0 < m) :
    (if (index + m) % n > 0 then subSize ((index + m) % n) 1 else subSize n 1)
      = (index + (m - 1)) % n := by
  have hlt := Nat.mod_lt (index + m) hn
  have hdiv := Nat.div_add_mod (index + m) n
  generalize hr : (index + m) % n = r at hlt hdiv ⊢
  generalize hq : (index + m) / n = q at hdiv
  by_cases hpos : r > 0
  · rw [if_pos hpos, subSize_of_le _ _ hpos]
    symm
    apply mod_of_decomp _ n q (r - 1) _ (by omega)
    generalize n * q = P at hdiv ⊢
    omega
  · rw [if_neg hpos, subSize_of_le _ _ hn]
    have hz : r = 0 := by omega
    subst hz
    rcases Nat.eq_zero_or_pos q with h | h
    · subst h; simp at hdiv; omega
    · obtain ⟨p, hp⟩ : ∃ p, q = p + 1 := ⟨q - 1, by omega⟩
      subst hp
      symm
      apply mod_of_decomp _ n p (n - 1) _ (by omega)
      rw [Nat.mul_add] at hdiv
      generalize n * p = P at hdiv ⊢
      omega


theorem fastTarget_upward (c : Core) (index : Nat) (hidx : index < c.size) :
    ∀ fuel k, k < c.size → c.size ≤ fuel + k →
      c.fastTarget index UPWARD fuel ((index + k) % c.size) ≠ none := by
  intro fuel
  induction fuel with
  | zero => intro k hk hf; omega
  | succ f ih =>
    intro k hk hf
    unfold Core.fastTarget
    split
    · simp only [Core.nextInputIndex, upward_step]
      rw [if_neg (by decide)]
      split
      · simp
      · rename_i hne
        have hk1 : k + 1 < c.size := by
          rcases Nat.lt_or_ge (k + 1) c.size with h | h
          · exact h
          · exfalso
            apply hne
            have : k + 1 = c.size := by omega
            rw [this, Nat.add_mod_right, Nat.mod_eq_of_lt hidx]
        exact ih (k + 1) hk1 (by omega)
    · simp

theorem fastTarget_downward (c : Core) (index : Nat) (hidx : index < c.size) :
    ∀ fuel k, k < c.size → c.size ≤ fuel + k →
      c.fastTarget index DOWNWARD fuel ((index + (c.size - k)) % c.size) ≠ none := by
  intro fuel
  induction fuel with
  | zero => intro k hk hf; omega
  | succ f ih =>
    intro k hk hf
    unfold Core.fastTarget
    split
    · simp only [Core.nextInputIndex]
      rw [if_neg (by decide), downward_step index (c.size - k) c.size (by omega) (by omega)]
      split
      · simp
      · rename_i hne
        have hk1 : k + 1 < c.size := by
          rcases Nat.lt_or_ge (k + 1) c.size with h | h
          · exact h
          · exfalso
            apply hne
            have : c.size - k - 1 = 0 := by omega
            rw [this, Nat.add_zero, Nat.mod_eq_of_lt hidx]
        have hsub : c.size - k - 1 = c.size - (k + 1) := by omega
        rw [hsub]
        exact ih (k + 1) hk1 (by omega)
    · simp

/-- The search loop of `setInputLocked` under `FAST_SWITCH` ends within
`_inputs.size()` iterations: the fuel given by `setInputLocked` is never
exhausted. -/
theorem fastTarget_terminates (c : Core) (index : Nat) (dir : Direction)
    (hidx : index < c.size) : c.fastTarget index dir c.size index ≠ none := by
  cases dir with
  | UPWARD =>
    have h := fastTarget_upward c index hidx c.size 0 (by omega) (by omega)
    rw [Nat.add_zero, Nat.mod_eq_of_lt hidx] at h
    exact h
  | DOWNWARD =>
    have h := fastTarget_downward c index hidx c.size 0 (by omega) (by omega)
    rw [Nat.sub_zero, Nat.add_mod_right, Nat.mod_eq_of_lt hidx] at h
    exact h
  | UNCHANGED =>
    obtain ⟨f, hf⟩ : ∃ f, c.size = f + 1 := ⟨c.size - 1, by omega⟩
    rw [hf]
    unfold Core.fastTarget
    split <;> simp

/-- Two iterations are enough for the loop "wait for free buffer or stop" when at
least one packet is freed at a time: on a full ring without flow control one
drop makes room, and the only other outcome `none` is the wait on the condition. -/
theorem waitFreeBuffer_two (maxInputPackets : Nat) (e : InputExecutor)
    (hmax : 1 ≤ maxInputPackets) (hb : ringBound e) :
    waitFreeBuffer maxInputPackets 2 e =
      if e.bufferFullWait then
        if e.flowControl then none else some (e.dropOldest maxInputPackets)
      else some e := by
  obtain ⟨hk, hf⟩ := hb
  unfold waitFreeBuffer
  by_cases hfull : e.bufferFullWait = true
  · rw [if_pos hfull, if_pos hfull]
    by_cases hfc : e.flowControl = true
    · rw [if_pos hfc, if_pos hfc]
    · rw [if_neg hfc, if_neg hfc]
      unfold waitFreeBuffer
      have hge : e.outCount ≥ e.bufferSize := by
        simp only [InputExecutor.bufferFullWait, Bool.and_eq_true, decide_eq_true_eq] at hfull
        exact hfull.1.1
      have hnot : (e.dropOldest maxInputPackets).bufferFullWait = false := by
        have h1 := subSize_of_le e.bufferSize e.outFirst (by omega)
        have h2 := subSize_of_le e.outCount (min maxInputPackets (e.bufferSize - e.outFirst))
          (by omega)
        simp only [InputExecutor.bufferFullWait, InputExecutor.dropOldest, h1, h2,
          Bool.and_eq_false_iff, decide_eq_false_iff_not]
        left; left; omega
      rw [hnot]
      rfl
  · rw [if_neg hfull, if_neg hfull]

/-! ## Claims on the executor thread and the core -/

/-- C6 (one-for-one notification), evaluated on the code: with the callback
replaced by a call counter, the notification loop of `main` run for a snapshot
of 2 pending requests, and for a snapshot of 3, makes one call, not 2 or 3. -/
theorem C6_notification_loop_single_call :
    notifyLoop 2 (fun calls : Nat => calls + 1) 2 0 0 = some 1 ∧
    notifyLoop 3 (fun calls : Nat => calls + 1) 2 0 0 = some 1 := by
  decide

/-- C7 (core stability), evaluated on the code: sequential strategy, inputs 0 and 1,
input 1 primary.  After `start()`, `inputStarted(0)` and `setInput(1)`, input 1 is
still STARTING and the core is STOPPING_PREVIOUS with `nextPlugin = 1`; the event
`inputStarted(1)` then finds the assertion `_curPlugin == _nextPlugin` false and
leaves the core RUNNING with `curPlugin = 0` and `nextPlugin = 1`. -/
theorem C7_running_with_pending_switch :
    ((Core.started Options.sequentialWithPrimary).run Options.sequentialWithPrimary
        [.inputStarted 0 true, .setInput 1]).map
      (fun c => (c.state, c.inStates[1]?, c.admits (.inputStarted 1 true),
        c.inputStartedAssert Options.sequentialWithPrimary 1)) =
      some (CORE_STOPPING_PREVIOUS, some INPUT_STARTING, true, false) ∧
    ((Core.started Options.sequentialWithPrimary).run Options.sequentialWithPrimary
        [.inputStarted 0 true, .setInput 1, .inputStarted 1 true]).map
      (fun c => (c.state, c.curPlugin, c.nextPlugin)) = some (CORE_RUNNING, 0, 1) := by
  decide

/-- C8 (primary pre-emption): for every core state, every strategy and every valid
primary index `p`, after the event `inputReceived(p)` the core has `curPlugin = p`
and `timeoutPlugin = p`; if `curPlugin ≠ p` held after the delayed-switch
completion step, `nextPlugin = p` holds as well. -/
theorem C8_primary_preemption (opt : Options) (c : Core) (p : Nat)
    (hp : p = opt.primaryInput) (_hvalid : p < c.size) :
    (c.inputReceived opt p).2.curPlugin = p ∧
    (c.inputReceived opt p).2.timeoutPlugin = p ∧
    ((c.delayedCompletion opt p).curPlugin ≠ p → (c.inputReceived opt p).2.nextPlugin = p) := by
  subst hp
  simp only [Core.inputReceived]
  generalize c.delayedCompletion opt opt.primaryInput = d
  by_cases hcur : d.curPlugin = opt.primaryInput
  · simp [Core.primaryPreemption, Core.receivedOnCurrent, Core.restartTimeout, hcur]
  · simp [Core.primaryPreemption, Core.receivedOnCurrent, Core.restartTimeout, hcur]

/-- Witness of C8: fast strategy, input 1 primary, input 0 current after `start()`. -/
theorem C8_primary_preemption_witness :
    ((Core.started Options.fastWithPrimary).inputReceived Options.fastWithPrimary 1).2.curPlugin = 1 ∧
    ((Core.started Options.fastWithPrimary).inputReceived Options.fastWithPrimary 1).2.timeoutPlugin = 1 ∧
    ((Core.started Options.fastWithPrimary).inputReceived Options.fastWithPrimary 1).2.nextPlugin = 1 :=
  have h := C8_primary_preemption Options.fastWithPrimary
    (Core.started Options.fastWithPrimary) 1 rfl (by decide)
  ⟨h.1, h.2.1, h.2.2 (by decide)⟩

/-- C9 (cycle counting, scenario 6), evaluated on the code: inputs A and B,
sequential strategy, `cycleCount = 2`.  A's session ends on its own and its two
stop notifications make the core start B; B's first session ends on its own;
its first stop notification sets `curCycle = 1` and makes the core post a stop
request on B, and the second notification of that same session end sets
`curCycle = 2`: the core terminates (terminate set, state STOPPED) while B has
ended one session and A has not been started a second time. -/
theorem C9_stop_after_first_sweep :
    ((System.started Options.twoCycles).run Options.twoCycles
        [.sessionWait 0 true, .receive 0 2, .receive 0 0, .endSession 0 true,
         .sessionWait 0 true, .sessionWait 0 true,
         .sessionWait 1 true, .receive 1 2, .receive 1 0, .endSession 1 true,
         .sessionWait 1 true]).map
      (fun s => (s.core.curCycle, s.core.terminate, s.core.state, s.core.inStates)) =
      some (1, false, CORE_STOPPING_PREVIOUS, [INPUT_STOPPED, INPUT_STOPPING]) ∧
    ((System.started Options.twoCycles).run Options.twoCycles
        [.sessionWait 0 true, .receive 0 2, .receive 0 0, .endSession 0 true,
         .sessionWait 0 true, .sessionWait 0 true,
         .sessionWait 1 true, .receive 1 2, .receive 1 0, .endSession 1 true,
         .sessionWait 1 true, .sessionWait 1 true]).map
      (fun s => (s.core.curCycle, s.core.terminate, s.core.state, s.core.inStates)) =
      some (2, true, CORE_STOPPED, [INPUT_STOPPED, INPUT_STOPPED]) := by
  decide

/-- C10 (termination trigger): for a well-formed core and an input `index` whose
state is not STOPPED, if after marking it STOPPED and counting the cycle the
terminate option is set or `cycleCount > 0` and `curCycle ≥ cycleCount`, then
`inputStopped(index)` returns false, `timeoutPlugin` is "none" (the number of
inputs), the terminate flag is set, every input state is STOPPED, the core state
is STOPPED; no switch is attempted: `curPlugin` and `nextPlugin` are unchanged
and the executors receive no start or stop request, only `terminateInput`. -/
theorem C10_termination_trigger (opt : Options) (c : Core) (index : Nat) (success : Bool)
    (hwf : c.WellFormed) (_hidx : index < c.size)
    (hstate : c.inStates[index]? ≠ some INPUT_STOPPED)
    (hstop : (c.markStopped index).stopRequest opt = true) :
    (c.inputStopped opt index success).1 = false ∧
    (c.inputStopped opt index success).2.timeoutPlugin = c.size ∧
    (c.inputStopped opt index success).2.size = c.size ∧
    (c.inputStopped opt index success).2.terminate = true ∧
    (∀ j, j < c.size → (c.inputStopped opt index success).2.inStates[j]? = some INPUT_STOPPED) ∧
    (c.inputStopped opt index success).2.state = CORE_STOPPED ∧
    (c.inputStopped opt index success).2.curPlugin = c.curPlugin ∧
    (c.inputStopped opt index success).2.nextPlugin = c.nextPlugin ∧
    (c.inputStopped opt index success).2.inputs = c.inputs.map InputExecutor.terminateInput := by
  have hms := markStopped_eq c index
  have hwf1 : (c.markStopped index).cancelTimeout.WellFormed := by
    unfold Core.WellFormed at hwf ⊢
    rw [hms]; simp [Core.cancelTimeout, hwf]
  have hsz : (c.markStopped index).cancelTimeout.size = c.size := by
    rw [hms]; rfl
  have hin : (c.markStopped index).cancelTimeout.inputs = c.inputs := by
    rw [hms]; rfl
  have hcur : (c.markStopped index).cancelTimeout.curPlugin = c.curPlugin := by
    rw [hms]; rfl
  have hnext : (c.markStopped index).cancelTimeout.nextPlugin = c.nextPlugin := by
    rw [hms]; rfl
  have htp : (c.markStopped index).cancelTimeout.timeoutPlugin = c.size := by
    rw [hms]; rfl
  have hres : c.inputStopped opt index success =
      (false, (c.markStopped index).cancelTimeout.stop true) := by
    unfold Core.inputStopped
    rw [if_neg hstate]
    simp only [hstop, if_true]
    rw [stop_true_eq _ hwf1]
    rfl
  rw [hres, stop_true_eq _ hwf1]
  refine ⟨rfl, htp, ?_, rfl, ?_, rfl, hcur, hnext, ?_⟩
  · simp [Core.size, hin]
  · intro j hj
    simp only [hsz]
    rw [List.getElem?_replicate, if_pos hj]
  · simp only [hin]
/-- Witness of C10: fast strategy, two inputs, `cycleCount = 1`; the last input
stops after `start()`. -/
theorem C10_termination_trigger_witness :
    ((Core.started Options.fastWithPrimary).inputStopped Options.fastWithPrimary 1 true).1 = false ∧
    ((Core.started Options.fastWithPrimary).inputStopped Options.fastWithPrimary 1 true).2.terminate
      = true ∧
    ((Core.started Options.fastWithPrimary).inputStopped Options.fastWithPrimary 1 true).2.state
      = CORE_STOPPED :=
  have h := C10_termination_trigger Options.fastWithPrimary
    (Core.started Options.fastWithPrimary) 1 true (by decide) (by decide) (by decide) (by decide)
  ⟨h.1, h.2.2.2.1, h.2.2.2.2.2.1⟩

/-! ## Effect of the core methods on the control fields -/

theorem flow_onInput_keep (c : Core) (i j : Nat) (f : InputExecutor → InputExecutor)
    (hf : ∀ e, (f e).flowControl = e.flowControl) : (c.onInput i f).flow j = c.flow j := by
  simp only [Core.onInput, Core.flow, List.getElem?_modify]
  cases h : c.inputs[j]? with
  | none => rfl
  | some e =>
    by_cases hij : i = j
    · simp [hij, hf]
    · simp [hij]

theorem flow_onInput_set (c : Core) (i j : Nat) (f : InputExecutor → InputExecutor) (b : Bool)
    (hf : ∀ e, (f e).flowControl = b) :
    (c.onInput i f).flow j = if i = j then (c.flow j).map (fun _ => b) else c.flow j := by
  simp only [Core.onInput, Core.flow, List.getElem?_modify]
  cases h : c.inputs[j]? with
  | none => simp
  | some e =>
    by_cases hij : i = j
    · simp [hij, hf]
    · simp [hij]

theorem size_onInput (c : Core) (i : Nat) (f : InputExecutor → InputExecutor) :
    (c.onInput i f).size = c.size := by
  simp [Core.onInput, Core.size]

theorem stopPlugin_fields (c : Core) (i : Nat) (a : Bool) :
    (c.stopPlugin i a).state = c.state ∧ (c.stopPlugin i a).curPlugin = c.curPlugin ∧
    (c.stopPlugin i a).nextPlugin = c.nextPlugin ∧
    (c.stopPlugin i a).timeoutPlugin = c.timeoutPlugin ∧
    (c.stopPlugin i a).terminate = c.terminate ∧ (c.stopPlugin i a).curCycle = c.curCycle ∧
    (c.stopPlugin i a).size = c.size ∧
    (c.stopPlugin i a).inStates = c.inStates.set i INPUT_STOPPING ∧
    (∀ j, (c.stopPlugin i a).flow j = c.flow j) := by
  cases a
  · refine ⟨rfl, rfl, rfl, rfl, rfl, rfl, ?_, rfl, ?_⟩
    · simp [Core.stopPlugin, Core.onInput, Core.size]
    · intro j
      simp only [Core.stopPlugin, Bool.false_eq_true, if_false]
      rw [flow_onInput_keep _ _ _ InputExecutor.stopInput (fun _ => rfl)]
      rfl
  · refine ⟨rfl, rfl, rfl, rfl, rfl, rfl, ?_, rfl, ?_⟩
    · simp [Core.stopPlugin, Core.onInput, Core.size]
    · intro j
      simp only [Core.stopPlugin, if_true]
      rw [flow_onInput_keep _ _ _ InputExecutor.stopInput (fun _ => rfl),
        flow_onInput_keep _ _ _ InputExecutor.abortInput (fun _ => rfl)]
      rfl

theorem startPlugin_fields (c : Core) (i : Nat) (b : Bool) :
    (c.startPlugin i b).state = c.state ∧ (c.startPlugin i b).curPlugin = c.curPlugin ∧
    (c.startPlugin i b).nextPlugin = c.nextPlugin ∧
    (c.startPlugin i b).timeoutPlugin = c.timeoutPlugin ∧
    (c.startPlugin i b).terminate = c.terminate ∧ (c.startPlugin i b).curCycle = c.curCycle ∧
    (c.startPlugin i b).size = c.size ∧
    (c.startPlugin i b).inStates = c.inStates.set i INPUT_STARTING ∧
    (∀ j, (c.startPlugin i b).flow j = if i = j then (c.flow j).map (fun _ => b) else c.flow j) := by
  refine ⟨rfl, rfl, rfl, rfl, rfl, rfl, ?_, rfl, ?_⟩
  · simp [Core.startPlugin, Core.onInput, Core.size]
  · intro j
    simp only [Core.startPlugin]
    rw [flow_onInput_set _ _ _ _ b (fun _ => rfl)]
    rfl
@[simp] theorem stopPlugin_state (c : Core) (i : Nat) (a : Bool) :
    (c.stopPlugin i a).state = c.state := (stopPlugin_fields c i a).1

@[simp] theorem stopPlugin_curPlugin (c : Core) (i : Nat) (a : Bool) :
    (c.stopPlugin i a).curPlugin = c.curPlugin := (stopPlugin_fields c i a).2.1

@[simp] theorem stopPlugin_nextPlugin (c : Core) (i : Nat) (a : Bool) :
    (c.stopPlugin i a).nextPlugin = c.nextPlugin := (stopPlugin_fields c i a).2.2.1

@[simp] theorem stopPlugin_timeoutPlugin (c : Core) (i : Nat) (a : Bool) :
    (c.stopPlugin i a).timeoutPlugin = c.timeoutPlugin := (stopPlugin_fields c i a).2.2.2.1

@[simp] theorem stopPlugin_terminate (c : Core) (i : Nat) (a : Bool) :
    (c.stopPlugin i a).terminate = c.terminate := (stopPlugin_fields c i a).2.2.2.2.1

@[simp] theorem stopPlugin_curCycle (c : Core) (i : Nat) (a : Bool) :
    (c.stopPlugin i a).curCycle = c.curCycle := (stopPlugin_fields c i a).2.2.2.2.2.1

@[simp] theorem stopPlugin_size (c : Core) (i : Nat) (a : Bool) :
    (c.stopPlugin i a).size = c.size := (stopPlugin_fields c i a).2.2.2.2.2.2.1

@[simp] theorem startPlugin_state (c : Core) (i : Nat) (b : Bool) :
    (c.startPlugin i b).state = c.state := (startPlugin_fields c i b).1

@[simp] theorem startPlugin_curPlugin (c : Core) (i : Nat) (b : Bool) :
    (c.startPlugin i b).curPlugin = c.curPlugin := (startPlugin_fields c i b).2.1

@[simp] theorem startPlugin_nextPlugin (c : Core) (i : Nat) (b : Bool) :
    (c.startPlugin i b).nextPlugin = c.nextPlugin := (startPlugin_fields c i b).2.2.1

@[simp] theorem startPlugin_timeoutPlugin (c : Core) (i : Nat) (b : Bool) :
    (c.startPlugin i b).timeoutPlugin = c.timeoutPlugin := (startPlugin_fields c i b).2.2.2.1

@[simp] theorem startPlugin_terminate (c : Core) (i : Nat) (b : Bool) :
    (c.startPlugin i b).terminate = c.terminate := (startPlugin_fields c i b).2.2.2.2.1

@[simp] theorem startPlugin_curCycle (c : Core) (i : Nat) (b : Bool) :
    (c.startPlugin i b).curCycle = c.curCycle := (startPlugin_fields c i b).2.2.2.2.2.1

@[simp] theorem startPlugin_size (c : Core) (i : Nat) (b : Bool) :
    (c.startPlugin i b).size = c.size := (startPlugin_fields c i b).2.2.2.2.2.2.1

@[simp] theorem stopPlugin_inStates (c : Core) (i : Nat) (a : Bool) :
    (c.stopPlugin i a).inStates = c.inStates.set i INPUT_STOPPING :=
  (stopPlugin_fields c i a).2.2.2.2.2.2.2.1

@[simp] theorem stopPlugin_flow (c : Core) (i : Nat) (a : Bool) (j : Nat) :
    (c.stopPlugin i a).flow j = c.flow j :=
  (stopPlugin_fields c i a).2.2.2.2.2.2.2.2 j

@[simp] theorem startPlugin_inStates (c : Core) (i : Nat) (b : Bool) :
    (c.startPlugin i b).inStates = c.inStates.set i INPUT_STARTING :=
  (startPlugin_fields c i b).2.2.2.2.2.2.2.1

theorem startPlugin_flow (c : Core) (i : Nat) (b : Bool) (j : Nat) :
    (c.startPlugin i b).flow j = if i = j then (c.flow j).map (fun _ => b) else c.flow j :=
  (startPlugin_fields c i b).2.2.2.2.2.2.2.2 j

theorem sameCtl_refl (c : Core) : c.SameCtl c :=
  ⟨rfl, rfl, rfl, rfl, rfl, rfl, fun _ => rfl⟩

theorem sameCtl_trans (c d e : Core) (h1 : c.SameCtl d) (h2 : d.SameCtl e) : c.SameCtl e := by
  obtain ⟨a1, a2, a3, a4, a5, a6, a7⟩ := h1
  obtain ⟨b1, b2, b3, b4, b5, b6, b7⟩ := h2
  exact ⟨b1.trans a1, b2.trans a2, b3.trans a3, b4.trans a4, b5.trans a5, b6.trans a6,
    fun j => (b7 j).trans (a7 j)⟩

theorem sameCtl_stopPlugin (c : Core) (i : Nat) (a : Bool) : c.SameCtl (c.stopPlugin i a) :=
  ⟨by simp, by simp, by simp, by simp, by simp, by simp, fun j => by simp⟩

theorem sameCtl_forRange (n : Nat) (body : Core → Nat → Core)
    (hbody : ∀ (c : Core) (i : Nat), c.SameCtl (body c i)) (c : Core) : c.SameCtl (forRange n body c) := by
  induction n with
  | zero => exact sameCtl_refl c
  | succ n ih =>
    rw [forRange_succ]
    exact sameCtl_trans _ _ _ ih (hbody _ _)

theorem sameCtl_stopOthers (c : Core) (index : Nat) :
    c.SameCtl (forRange c.size
      (fun c i =>
        if i ≠ index ∧ c.inStates[i]? ≠ some INPUT_STOPPING ∧
            c.inStates[i]? ≠ some INPUT_STOPPED then
          c.stopPlugin i true
        else c) c) := by
  apply sameCtl_forRange
  intro c i
  dsimp only
  split
  · exact sameCtl_stopPlugin c i true
  · exact sameCtl_refl c

theorem sameCtl_stopLoop (c : Core) (n : Nat) :
    c.SameCtl (forRange n
      (fun c i => { c.onInput i InputExecutor.terminateInput with
                    inStates := c.inStates.set i INPUT_STOPPED }) c) := by
  apply sameCtl_forRange
  intro c i
  refine ⟨rfl, rfl, rfl, rfl, rfl, ?_, ?_⟩
  · simp [Core.size, Core.onInput]
  · intro j
    exact flow_onInput_keep c i j InputExecutor.terminateInput (fun _ => rfl)

theorem stop_fields (c : Core) (success : Bool) :
    (c.stop success).state = CORE_STOPPED ∧ (c.stop success).terminate = true ∧
    (c.stop success).curPlugin = c.curPlugin ∧ (c.stop success).nextPlugin = c.nextPlugin ∧
    (c.stop success).timeoutPlugin = c.timeoutPlugin ∧ (c.stop success).size = c.size ∧
    ∀ j, (c.stop success).flow j = c.flow j := by
  cases success
  · simp [Core.stop, Core.size, Core.flow]
  · obtain ⟨_, h2, h3, h4, h5, h6, h7⟩ :=
      sameCtl_stopLoop { c with terminate := true, outputTerminated := true } c.size
    simp only [Core.stop, if_true]
    exact ⟨trivial, h5, h2, h3, h4, h6, h7⟩
/-! ## Watchdog coverage -/

theorem size_def (c : Core) : c.inputs.length = c.size := rfl

theorem watchInv_setInputLocked (opt : Options) (c : Core) (index : Nat) (a : Bool)
    (dir : Direction) (h : c.WatchInv opt) : (c.setInputLocked opt index a dir).WatchInv opt := by
  unfold Core.setInputLocked
  split
  · exact h
  split
  · exact h
  split
  · split
    · rename_i hs
      simp only
      split
      · simp [Core.WatchInv, Core.Covered, Core.cancelTimeout, hs]
      · simp [Core.WatchInv, Core.Covered, Core.cancelTimeout, hs]
    · simp only
      split
      · simp [Core.WatchInv, Core.Covered, Core.cancelTimeout, Core.restartTimeout]
      · simp [Core.WatchInv, Core.Covered, Core.cancelTimeout, Core.size, Core.startPlugin,
          Core.onInput]
    · split
      · split
        · simp [Core.WatchInv, Core.Covered, Core.restartTimeout]
        · exact h
      · exact h
  · exact h
theorem watchInv_handleWatchDogTimeout (opt : Options) (c : Core) (h : c.WatchInv opt) :
    (c.handleWatchDogTimeout opt).WatchInv opt := by
  unfold Core.handleWatchDogTimeout
  split
  · rename_i hlt
    apply watchInv_setInputLocked
    split
    · rename_i hd
      obtain ⟨hs, _, ht⟩ := hd
      have hcov := h.1 (by rw [hs]; decide)
      have hcur : c.timeoutPlugin = c.curPlugin := by
        rcases hcov with h1 | h1
        · exact h1
        · omega
      split <;> simp [Core.WatchInv, Core.Covered, hcur]
    · exact h
  · exact h

theorem watchInv_inputStarted (opt : Options) (c : Core) (index : Nat) (s : Bool)
    (h : c.WatchInv opt) : (c.inputStarted opt index s).2.WatchInv opt := by
  unfold Core.inputStarted
  split
  · exact h
  · simp only
    split
    · exact h
    · split <;> simp [Core.WatchInv, Core.Covered, Core.restartTimeout]

theorem delayedCompletion_cases (opt : Options) (c : Core) (index : Nat) :
    c.delayedCompletion opt index = c ∨
    ((c.delayedCompletion opt index).curPlugin = index ∧
     (c.delayedCompletion opt index).nextPlugin = index ∧
     (c.delayedCompletion opt index).state = CORE_RUNNING ∧
     (c.delayedCompletion opt index).timeoutPlugin = c.timeoutPlugin ∧
     (c.delayedCompletion opt index).terminate = c.terminate ∧
     (c.delayedCompletion opt index).size = c.size ∧
     (∀ j, (c.delayedCompletion opt index).flow j = c.flow j) ∧
     opt.strategy = DELAYED_SWITCH ∧ c.state = CORE_STARTING_NEXT ∧ index = c.nextPlugin) := by
  unfold Core.delayedCompletion
  split
  · rename_i hd
    right
    obtain ⟨h1, h2, h3⟩ := hd
    split
    · refine ⟨?_, ?_, rfl, ?_, ?_, ?_, ?_, h1, h2, h3⟩
      · simp [h3]
      · simp [h3]
      · simp
      · simp
      · show (c.stopPlugin c.curPlugin false).size = c.size
        simp
      · intro j
        show (c.stopPlugin c.curPlugin false).flow j = c.flow j
        simp
    · exact ⟨h3.symm, h3.symm, rfl, rfl, rfl, rfl, fun _ => rfl, h1, h2, h3⟩
  · left; rfl

theorem primaryPreemption_cases (opt : Options) (c : Core) (index : Nat) :
    c.primaryPreemption opt index = c ∨
    ((c.primaryPreemption opt index).curPlugin = index ∧
     (c.primaryPreemption opt index).nextPlugin = index ∧
     (c.primaryPreemption opt index).state = c.state ∧
     (c.primaryPreemption opt index).timeoutPlugin = c.timeoutPlugin ∧
     (c.primaryPreemption opt index).terminate = c.terminate ∧
     (c.primaryPreemption opt index).size = c.size ∧
     index = opt.primaryInput ∧ c.curPlugin ≠ opt.primaryInput) := by
  unfold Core.primaryPreemption
  split
  · rename_i hp
    right
    split
    · refine ⟨rfl, rfl, ?_, ?_, ?_, ?_, hp.1, hp.2⟩
      · show (if _ then _ else _ : Core).state = _
        split <;> rfl
      · show (if _ then _ else _ : Core).timeoutPlugin = _
        split <;> rfl
      · show (if _ then _ else _ : Core).terminate = _
        split <;> rfl
      · show (if _ then _ else _ : Core).size = _
        split <;> simp [Core.size, Core.onInput]
    · obtain ⟨h1, _, _, h4, h5, h6, _⟩ := sameCtl_stopOthers c index
      exact ⟨rfl, rfl, h1, h4, h5, h6, hp.1, hp.2⟩
  · left; rfl

theorem watchInv_inputReceived (opt : Options) (c : Core) (index : Nat)
    (h : c.WatchInv opt) : (c.inputReceived opt index).2.WatchInv opt := by
  have h1 : (c.delayedCompletion opt index).WatchInv opt ∨
      (c.delayedCompletion opt index).curPlugin = index := by
    rcases delayedCompletion_cases opt c index with he | he
    · left; rw [he]; exact h
    · right; exact he.1
  simp only [Core.inputReceived]
  generalize c.delayedCompletion opt index = d at h1 ⊢
  have h2 : (d.primaryPreemption opt index).WatchInv opt ∨
      (d.primaryPreemption opt index).curPlugin = index := by
    rcases primaryPreemption_cases opt d index with he | he
    · rw [he]; exact h1
    · right; exact he.1
  generalize d.primaryPreemption opt index = e at h2 ⊢
  unfold Core.receivedOnCurrent
  split
  · simp [Core.WatchInv, Core.Covered, Core.restartTimeout]
  · rename_i hne
    rcases h2 with h2 | h2
    · exact h2
    · exact absurd h2.symm hne

theorem watchInv_stop (opt : Options) (c : Core) (success : Bool) (h : c.WatchInv opt) :
    (c.stop success).WatchInv opt := by
  obtain ⟨h1, _, h3, _, h5, h6, _⟩ := stop_fields c success
  unfold Core.WatchInv Core.Covered at *
  rw [h1, h3, h5, h6]
  exact ⟨h.1, fun hc => absurd hc (by decide)⟩

theorem watchInv_inputStopped (opt : Options) (c : Core) (index : Nat) (s : Bool)
    (h : c.WatchInv opt) : (c.inputStopped opt index s).2.WatchInv opt := by
  unfold Core.inputStopped
  split
  · exact h
  · simp only
    split
    · apply watchInv_stop
      simp [Core.WatchInv, Core.Covered, Core.cancelTimeout, Core.size]
    · have hm : (c.markStopped index).WatchInv opt := by
        rw [markStopped_eq]; exact h
      generalize c.markStopped index = m at hm
      unfold Core.afterInputStopped
      split
      · exact hm
      · split
        · exact watchInv_setInputLocked _ _ _ _ _ hm
        · exact hm
      · exact hm
      · split
        · rename_i hs hq
          simp [Core.WatchInv, Core.Covered, hq.1]
        · exact hm

theorem watchInv_step (opt : Options) (c : Core) (ev : Event) (h : c.WatchInv opt) :
    (c.step opt ev).WatchInv opt := by
  cases ev with
  | setInput index => exact watchInv_setInputLocked _ _ _ _ _ h
  | nextInput => exact watchInv_setInputLocked _ _ _ _ _ h
  | previousInput => exact watchInv_setInputLocked _ _ _ _ _ h
  | stop success => exact watchInv_stop _ _ _ h
  | inputStarted index success => exact watchInv_inputStarted _ _ _ _ h
  | inputReceived index => exact watchInv_inputReceived _ _ _ h
  | inputStopped index success => exact watchInv_inputStopped _ _ _ _ h
  | watchDogTimeout => exact watchInv_handleWatchDogTimeout _ _ h


theorem watchInv_run (opt : Options) (evs : List Event) :
    ∀ (c d : Core), c.WatchInv opt → Core.run opt c evs = some d → d.WatchInv opt := by
  induction evs with
  | nil =>
    intro c d h hrun
    simp only [Core.run, Option.some.injEq] at hrun
    exact hrun ▸ h
  | cons ev evs ih =>
    intro c d h hrun
    simp only [Core.run] at hrun
    split at hrun
    · exact ih _ _ (watchInv_step opt c ev h) hrun
    · exact absurd hrun (by simp)

/-! ## Start of the core -/

/-- The loop of `start()` under `FAST_SWITCH` over the first `n` inputs: only
`inputs` and `inStates` change, entry by entry. -/
theorem start_loop (p n : Nat) (c : Core) :
    let r := forRange n
      (fun c i => c.startPlugin i (decide (i = c.curPlugin) || decide (i = p))) c
    r = { c with inputs := r.inputs, inStates := r.inStates } ∧
    (∀ j, r.inputs[j]? =
      if j < n then (c.inputs[j]?).map
        (fun e => e.startInput (decide (j = c.curPlugin) || decide (j = p)))
      else c.inputs[j]?) ∧
    (∀ j, r.inStates[j]? =
      if j < n then (c.inStates[j]?).map (fun _ => INPUT_STARTING) else c.inStates[j]?) := by
  induction n with
  | zero => simp [forRange]
  | succ n ih =>
    obtain ⟨h1, h2, h3⟩ := ih
    rw [forRange_succ]
    generalize forRange n _ c = r at h1 h2 h3
    have hcur : r.curPlugin = c.curPlugin := by rw [h1]
    refine ⟨?_, ?_, ?_⟩
    · simp only [Core.startPlugin, Core.onInput]
      rw [h1]
    · intro j
      simp only [Core.startPlugin, Core.onInput, List.getElem?_modify, h2, hcur]
      by_cases hj : n = j
      · subst hj; simp
      · by_cases hlt : j < n
        · simp [hj, hlt, Nat.lt_succ_of_lt hlt]
        · have : ¬ j < n + 1 := by omega
          simp [hj, hlt, this]
    · intro j
      simp only [Core.startPlugin, Core.onInput, List.getElem?_set', h3]
      by_cases hj : n = j
      · subst hj; simp; rfl
      · by_cases hlt : j < n
        · simp [hj, hlt, Nat.lt_succ_of_lt hlt]
        · have : ¬ j < n + 1 := by omega
          simp [hj, hlt, this]

theorem start_ok_eq (opt : Options) (env : StartEnv) (c : Core)
    (hstate : c.state = CORE_STOPPED) (henv : env.allOk c.size = true) :
    c.start opt env =
      (true,
       { (if opt.strategy = FAST_SWITCH then
            forRange c.size
              (fun c i => c.startPlugin i (decide (i = c.curPlugin) || decide (i = opt.primaryInput)))
              { c with curPlugin := opt.firstInput, nextPlugin := opt.firstInput }
          else
            if opt.primaryInput < c.size ∧ opt.primaryInput ≠ opt.firstInput then
              (({ c with curPlugin := opt.firstInput, nextPlugin := opt.firstInput }).startPlugin
                opt.firstInput true).startPlugin opt.primaryInput true
            else
              ({ c with curPlugin := opt.firstInput, nextPlugin := opt.firstInput }).startPlugin
                opt.firstInput true)
         with state := CORE_STARTING_NEXT }) := by
  rw [StartEnv.allOk, Bool.and_eq_true, Bool.and_eq_true] at henv
  obtain ⟨⟨h1, h2⟩, h3⟩ := henv
  unfold Core.start
  rw [if_neg (by simp [hstate]), if_neg (by rw [h1]; decide), if_neg (by rw [h2]; decide)]
  have hsz : ({ c with curPlugin := opt.firstInput, nextPlugin := opt.firstInput } : Core).size
      = c.size := rfl
  simp only [hsz]
  rw [if_neg (by rw [h3]; decide)]
  simp [Core.size, Core.startPlugin, Core.onInput]


theorem flow_some (c : Core) (i : Nat) (h : i < c.size) :
    ∃ b, c.flow i = some b := by
  unfold Core.flow
  rw [List.getElem?_eq_getElem h]
  exact ⟨_, rfl⟩

/-- Effect of a successful `start()`. -/
theorem start_effect (opt : Options) (env : StartEnv) (c : Core)
    (hs : c.state = CORE_STOPPED) (hwf : c.WellFormed)
    (henv : env.allOk c.size = true) :
    (c.start opt env).1 = true ∧
    (c.start opt env).2.state = CORE_STARTING_NEXT ∧
    (c.start opt env).2.curPlugin = opt.firstInput ∧
    (c.start opt env).2.nextPlugin = opt.firstInput ∧
    (opt.strategy = FAST_SWITCH → ∀ i, i < c.size →
      (c.start opt env).2.inStates[i]? = some INPUT_STARTING ∧
      (c.start opt env).2.flow i =
        some (decide (i = opt.firstInput) || decide (i = opt.primaryInput))) ∧
    (opt.strategy ≠ FAST_SWITCH → ∀ i, i < c.size →
      (i = opt.firstInput ∨ i = opt.primaryInput →
        (c.start opt env).2.inStates[i]? = some INPUT_STARTING ∧
        (c.start opt env).2.flow i = some true) ∧
      (i ≠ opt.firstInput ∧ i ≠ opt.primaryInput →
        (c.start opt env).2.inStates[i]? = c.inStates[i]? ∧
        (c.start opt env).2.inputs[i]? = c.inputs[i]?)) := by
  rw [start_ok_eq opt env c hs henv]
  unfold Core.WellFormed at hwf
  have hsz : c.size = c.inputs.length := rfl
  generalize hc0 : ({ c with curPlugin := opt.firstInput, nextPlugin := opt.firstInput } : Core)
    = c0
  have hc0in : c0.inputs = c.inputs := by rw [← hc0]
  have hc0st : c0.inStates = c.inStates := by rw [← hc0]
  have hc0cur : c0.curPlugin = opt.firstInput := by rw [← hc0]
  have hc0next : c0.nextPlugin = opt.firstInput := by rw [← hc0]
  have hc0flow : ∀ j, c0.flow j = c.flow j := by intro j; rw [← hc0]; rfl
  generalize hd : (if opt.strategy = FAST_SWITCH then
          forRange c.size
            (fun c i => c.startPlugin i (decide (i = c.curPlugin) || decide (i = opt.primaryInput)))
            c0
        else
          if opt.primaryInput < c.size ∧ opt.primaryInput ≠ opt.firstInput then
            (c0.startPlugin opt.firstInput true).startPlugin opt.primaryInput true
          else c0.startPlugin opt.firstInput true) = d
  obtain ⟨l1, l2, l3⟩ := start_loop opt.primaryInput c.size c0
  refine ⟨rfl, rfl, ?_, ?_, ?_, ?_⟩
  · show d.curPlugin = _
    rw [← hd]
    split
    · rw [l1]; exact hc0cur
    · split <;> simp [hc0cur]
  · show d.nextPlugin = _
    rw [← hd]
    split
    · rw [l1]; exact hc0next
    · split <;> simp [hc0next]
  · intro hfast i hi
    rw [if_pos hfast] at hd
    show d.inStates[i]? = _ ∧ d.flow i = _
    rw [← hd]
    simp only [Core.flow]
    rw [l2, l3, if_pos hi, if_pos hi, hc0in, hc0st, hc0cur,
      List.getElem?_eq_getElem (by omega : i < c.inStates.length),
      List.getElem?_eq_getElem (by omega : i < c.inputs.length)]
    exact ⟨rfl, rfl⟩
  · intro hfast i hi
    rw [if_neg hfast] at hd
    show (_ → d.inStates[i]? = _ ∧ d.flow i = _) ∧ (_ → d.inStates[i]? = _ ∧ d.inputs[i]? = _)
    obtain ⟨b, hb⟩ := flow_some c i hi
    rw [← hc0flow] at hb
    have hin : i < c.inStates.length := by omega
    rw [← hd]
    refine ⟨?_, ?_⟩
    · intro hor
      split
      · rename_i hp
        refine ⟨?_, ?_⟩
        · simp only [startPlugin_inStates, List.getElem?_set, List.length_set, hc0st]
          by_cases h1 : opt.primaryInput = i
          · rw [if_pos h1, if_pos (by omega)]
          · rw [if_neg h1]
            have h2 : opt.firstInput = i := by
              rcases hor with h | h
              · exact h.symm
              · exact absurd h.symm h1
            rw [if_pos h2, if_pos (by omega)]
        · simp only [startPlugin_flow]
          rw [hb]
          by_cases h1 : opt.primaryInput = i
          · rw [if_pos h1]
            split <;> rfl
          · rw [if_neg h1]
            have h2 : opt.firstInput = i := by
              rcases hor with h | h
              · exact h.symm
              · exact absurd h.symm h1
            rw [if_pos h2]; rfl
      · rename_i hp
        have h2 : opt.firstInput = i := by
          rcases hor with h | h
          · exact h.symm
          · by_contra hne
            apply hp
            exact ⟨by rw [← h]; exact hi, fun he => hne (by rw [← he, h])⟩
        refine ⟨?_, ?_⟩
        · simp only [startPlugin_inStates, List.getElem?_set, hc0st]
          rw [if_pos h2, if_pos (by omega)]
        · simp only [startPlugin_flow]
          rw [hb, if_pos h2]; rfl
    · intro hne
      obtain ⟨h1, h2⟩ := hne
      split
      · simp only [Core.startPlugin, Core.onInput, hc0in, hc0st]
        rw [List.getElem?_set_ne (fun h => h2 h.symm), List.getElem?_set_ne (fun h => h1 h.symm),
          List.getElem?_modify_ne _ _ (fun h => h2 h.symm),
          List.getElem?_modify_ne _ _ (fun h => h1 h.symm)]
        exact ⟨rfl, rfl⟩
      · simp only [Core.startPlugin, Core.onInput, hc0in, hc0st]
        rw [List.getElem?_set_ne (fun h => h1 h.symm),
          List.getElem?_modify_ne _ _ (fun h => h1 h.symm)]
        exact ⟨rfl, rfl⟩

theorem new_fields (opt : Options) :
    (Core.new opt).state = CORE_STOPPED ∧ (Core.new opt).WellFormed ∧
    (Core.new opt).size = opt.inputCount ∧ (Core.new opt).timeoutPlugin = opt.inputCount ∧
    (Core.new opt).terminate = false := by
  simp [Core.new, Core.WellFormed, Core.size]

theorem allOk_success (n : Nat) : StartEnv.success.allOk n = true := by
  simp [StartEnv.allOk, StartEnv.success]

theorem started_eq (opt : Options) :
    Core.started opt = ((Core.new opt).start opt StartEnv.success).2 := rfl

theorem start_loop_size (p n : Nat) (c : Core) :
    (forRange n
      (fun c i => c.startPlugin i (decide (i = c.curPlugin) || decide (i = p))) c).size
      = c.size := by
  induction n with
  | zero => rfl
  | succ n ih => rw [forRange_succ, startPlugin_size, ih]

theorem start_loop_frame (p n : Nat) (c : Core) :
    (forRange n
      (fun c i => c.startPlugin i (decide (i = c.curPlugin) || decide (i = p))) c).timeoutPlugin
      = c.timeoutPlugin ∧
    (forRange n
      (fun c i => c.startPlugin i (decide (i = c.curPlugin) || decide (i = p))) c).terminate
      = c.terminate := by
  induction n with
  | zero => exact ⟨rfl, rfl⟩
  | succ n ih => rw [forRange_succ, startPlugin_timeoutPlugin, startPlugin_terminate]; exact ih

theorem start_sessions_frame (opt : Options) (c0 : Core) :
    (if opt.strategy = FAST_SWITCH then
        forRange c0.size
          (fun c i => c.startPlugin i (decide (i = c.curPlugin) || decide (i = opt.primaryInput)))
          c0
      else
        if opt.primaryInput < (c0.startPlugin c0.curPlugin true).size ∧
            opt.primaryInput ≠ (c0.startPlugin c0.curPlugin true).curPlugin then
          (c0.startPlugin c0.curPlugin true).startPlugin opt.primaryInput true
        else c0.startPlugin c0.curPlugin true).timeoutPlugin = c0.timeoutPlugin ∧
    (if opt.strategy = FAST_SWITCH then
        forRange c0.size
          (fun c i => c.startPlugin i (decide (i = c.curPlugin) || decide (i = opt.primaryInput)))
          c0
      else
        if opt.primaryInput < (c0.startPlugin c0.curPlugin true).size ∧
            opt.primaryInput ≠ (c0.startPlugin c0.curPlugin true).curPlugin then
          (c0.startPlugin c0.curPlugin true).startPlugin opt.primaryInput true
        else c0.startPlugin c0.curPlugin true).size = c0.size ∧
    (if opt.strategy = FAST_SWITCH then
        forRange c0.size
          (fun c i => c.startPlugin i (decide (i = c.curPlugin) || decide (i = opt.primaryInput)))
          c0
      else
        if opt.primaryInput < (c0.startPlugin c0.curPlugin true).size ∧
            opt.primaryInput ≠ (c0.startPlugin c0.curPlugin true).curPlugin then
          (c0.startPlugin c0.curPlugin true).startPlugin opt.primaryInput true
        else c0.startPlugin c0.curPlugin true).terminate = c0.terminate := by
  split
  · exact ⟨(start_loop_frame _ _ _).1, start_loop_size _ _ _, (start_loop_frame _ _ _).2⟩
  · split <;> simp

/-- `start()` keeps the timeout plugin and the number of inputs, and does not
reset the terminate flag. -/
theorem start_frame (opt : Options) (env : StartEnv) (c : Core) :
    (c.start opt env).2.timeoutPlugin = c.timeoutPlugin ∧
    (c.start opt env).2.size = c.size ∧
    (c.terminate = true → (c.start opt env).2.terminate = true) := by
  unfold Core.start
  split
  · exact ⟨rfl, rfl, id⟩
  split
  · exact ⟨rfl, rfl, id⟩
  split
  · exact ⟨rfl, rfl, id⟩
  simp only
  split
  · obtain ⟨_, h2, _, _, h5, h6, _⟩ := stop_fields
      { c with curPlugin := opt.firstInput, nextPlugin := opt.firstInput } false
    exact ⟨h5, h6, fun _ => h2⟩
  · obtain ⟨k1, k2, k3⟩ := start_sessions_frame opt
      { c with curPlugin := opt.firstInput, nextPlugin := opt.firstInput }
    exact ⟨k1, k2, fun ht => k3.trans ht⟩

theorem watchInv_started (opt : Options) : (Core.started opt).WatchInv opt := by
  obtain ⟨_, _, hsz, htp, _⟩ := new_fields opt
  obtain ⟨h1, h2, _⟩ := start_frame opt StartEnv.success (Core.new opt)
  have hc : (Core.started opt).Covered := by
    right
    rw [started_eq, h1, h2, htp, hsz]
  exact ⟨fun _ => hc, fun _ => hc⟩

/-! ## The terminate flag -/

theorem terminate_setInputLocked (opt : Options) (c : Core) (index : Nat) (a : Bool)
    (dir : Direction) : (c.setInputLocked opt index a dir).terminate = c.terminate := by
  unfold Core.setInputLocked
  split
  · rfl
  split
  · rfl
  split
  · split
    · simp only
      split <;> simp [Core.cancelTimeout]
    · simp only
      split <;> simp [Core.cancelTimeout, Core.restartTimeout]
    · split
      · split
        · simp [Core.restartTimeout, Core.onInput]
        · rfl
      · rfl
  · rfl

theorem terminate_handleWatchDogTimeout (opt : Options) (c : Core) :
    (c.handleWatchDogTimeout opt).terminate = c.terminate := by
  unfold Core.handleWatchDogTimeout
  split
  · rw [terminate_setInputLocked]
    split
    · split <;> simp
    · rfl
  · rfl

theorem inputStarted_flag (opt : Options) (c : Core) (index : Nat) (s : Bool) :
    (c.inputStarted opt index s).1 = !(c.inputStarted opt index s).2.terminate ∧
    (c.inputStarted opt index s).2.terminate = c.terminate := by
  unfold Core.inputStarted
  split
  · exact ⟨rfl, rfl⟩
  · simp only
    split
    · exact ⟨rfl, rfl⟩
    · refine ⟨rfl, ?_⟩
      split <;> rfl

theorem inputReceived_flag (opt : Options) (c : Core) (index : Nat) :
    (c.inputReceived opt index).1 = !(c.inputReceived opt index).2.terminate ∧
    (c.inputReceived opt index).2.terminate = c.terminate := by
  refine ⟨rfl, ?_⟩
  simp only [Core.inputReceived]
  have h1 : (c.delayedCompletion opt index).terminate = c.terminate := by
    rcases delayedCompletion_cases opt c index with he | he
    · rw [he]
    · exact he.2.2.2.2.1
  generalize c.delayedCompletion opt index = d at h1 ⊢
  have h2 : (d.primaryPreemption opt index).terminate = d.terminate := by
    rcases primaryPreemption_cases opt d index with he | he
    · rw [he]
    · exact he.2.2.2.2.1
  generalize d.primaryPreemption opt index = e at h2 ⊢
  unfold Core.receivedOnCurrent
  split
  · exact h2.trans h1
  · exact h2.trans h1

theorem inputStopped_flag (opt : Options) (c : Core) (index : Nat) (s : Bool) :
    (c.inputStopped opt index s).1 = !(c.inputStopped opt index s).2.terminate ∧
    (c.terminate = true → (c.inputStopped opt index s).2.terminate = true) := by
  unfold Core.inputStopped
  split
  · exact ⟨rfl, id⟩
  · simp only
    split
    · exact ⟨rfl, fun _ => (stop_fields _ true).2.1⟩
    · refine ⟨rfl, ?_⟩
      intro ht
      have hm : (c.markStopped index).terminate = true := by
        rw [markStopped_eq]; exact ht
      generalize c.markStopped index = m at hm
      unfold Core.afterInputStopped
      split
      · exact hm
      · split
        · rw [terminate_setInputLocked]; exact hm
        · exact hm
      · exact hm
      · split
        · simp [hm]
        · exact hm

theorem terminate_call (opt : Options) (c : Core) (x : Call) (h : c.terminate = true) :
    (c.call opt x).terminate = true := by
  cases x with
  | event ev =>
    cases ev with
    | setInput index => exact (terminate_setInputLocked _ _ _ _ _).trans h
    | nextInput => exact (terminate_setInputLocked _ _ _ _ _).trans h
    | previousInput => exact (terminate_setInputLocked _ _ _ _ _).trans h
    | stop success => exact (stop_fields c success).2.1
    | inputStarted index success => exact (inputStarted_flag _ _ _ _).2.trans h
    | inputReceived index => exact (inputReceived_flag _ _ _).2.trans h
    | inputStopped index success => exact (inputStopped_flag _ _ _ _).2 h
    | watchDogTimeout => exact (terminate_handleWatchDogTimeout _ _).trans h
  | start env => exact (start_frame opt env c).2.2 h
  | getOutputArea =>
    simp only [Core.call, Core.getOutputArea, h, if_true]
  | outputSent pluginIndex count => exact h

theorem terminate_calls (opt : Options) (xs : List Call) :
    ∀ c : Core, c.terminate = true → (c.calls opt xs).terminate = true := by
  induction xs with
  | nil => intro c h; exact h
  | cons x xs ih => intro c h; exact ih _ (terminate_call opt c x h)

/-! ## Flow control of the current input -/

theorem flow_startPlugin_keep (c : Core) (i j : Nat) (h : c.flow j = some true) :
    (c.startPlugin i true).flow j = some true := by
  rw [startPlugin_flow, h]
  split <;> rfl

theorem flow_startPlugin_self (c : Core) (i : Nat) (h : i < c.size) :
    (c.startPlugin i true).flow i = some true := by
  obtain ⟨b, hb⟩ := flow_some c i h
  rw [startPlugin_flow, if_pos rfl, hb]; rfl

theorem flow_mk (i : List InputExecutor) (o w : Bool) (s : CoreState) (cu n t cc : Nat)
    (te : Bool) (is : List InputState) (j : Nat) :
    Core.flow (Core.mk i o w s cu n t cc te is) j = (i[j]?).map (fun e => e.flowControl) := rfl

theorem flow_fold (c : Core) (j : Nat) :
    (c.inputs[j]?).map (fun e => e.flowControl) = c.flow j := rfl

theorem size_mk (i : List InputExecutor) (o w : Bool) (s : CoreState) (cu n t cc : Nat)
    (te : Bool) (is : List InputState) :
    Core.size (Core.mk i o w s cu n t cc te is) = i.length := rfl

theorem size_fold (c : Core) : c.inputs.length = c.size := rfl

theorem flowInv_setInputLocked (opt : Options) (c : Core) (index : Nat) (a : Bool)
    (dir : Direction) (h : c.FlowInv opt) : (c.setInputLocked opt index a dir).FlowInv opt := by
  obtain ⟨h1, h2, h3, h4, h5, h6⟩ := h
  unfold Core.setInputLocked
  split
  · exact ⟨h1, h2, h3, h4, h5, h6⟩
  split
  · exact ⟨h1, h2, h3, h4, h5, h6⟩
  rename_i hnext hidx
  have hidx : index < c.size := by omega
  split
  · rename_i hrun
    split
    · rename_i hs
      simp only
      split
      · refine ⟨?_, ?_, ?_, ?_, ?_, ?_⟩
        · simpa [Core.cancelTimeout, size_mk, size_fold] using hidx
        · simpa [Core.cancelTimeout, size_mk, size_fold] using hidx
        · exact flow_startPlugin_self _ index hidx
        · intro hp
          exact flow_startPlugin_keep _ _ _
            (h4 (by simpa [Core.cancelTimeout, size_mk, size_fold] using hp))
        · intro hd; rw [hs] at hd; exact absurd hd (by decide)
        · intro hd; rw [hs] at hd; exact absurd hd (by decide)
      · refine ⟨?_, ?_, ?_, ?_, ?_, ?_⟩
        · simpa [Core.cancelTimeout, size_mk, size_fold] using h1
        · simpa [Core.cancelTimeout, size_mk, size_fold] using hidx
        · simpa [Core.cancelTimeout, size_mk, size_fold, flow_mk, flow_fold] using h3
        · intro hp
          have := h4 (by simpa [Core.cancelTimeout, size_mk, size_fold] using hp)
          simpa [Core.cancelTimeout, size_mk, size_fold, flow_mk, flow_fold] using this
        · intro hd; rw [hs] at hd; exact absurd hd (by decide)
        · intro hd; rw [hs] at hd; exact absurd hd (by decide)
    · rename_i hs
      simp only
      split
      · rename_i hp
        have hpf : c.flow index = some true := by
          rw [hp.1]; exact h4 (by rw [← hp.1]; exact hidx)
        refine ⟨?_, ?_, ?_, ?_, ?_, ?_⟩
        · simpa [Core.cancelTimeout, Core.restartTimeout, size_mk, size_fold] using hidx
        · simpa [Core.cancelTimeout, Core.restartTimeout, size_mk, size_fold] using hidx
        · simpa [Core.cancelTimeout, Core.restartTimeout, size_mk, size_fold, flow_mk, flow_fold]
            using hpf
        · intro hq
          have := h4 (by simpa [Core.cancelTimeout, Core.restartTimeout, size_mk, size_fold] using hq)
          simpa [Core.cancelTimeout, Core.restartTimeout, size_mk, size_fold, flow_mk, flow_fold]
            using this
        · intro _
          simpa [Core.cancelTimeout, Core.restartTimeout, size_mk, size_fold, flow_mk, flow_fold]
            using hpf
        · intro hd; rw [hs] at hd; exact absurd hd (by decide)
      · refine ⟨?_, ?_, ?_, ?_, ?_, ?_⟩
        · simpa [Core.cancelTimeout, size_mk, size_fold] using h1
        · simpa [Core.cancelTimeout, size_mk, size_fold] using hidx
        · simpa [Core.cancelTimeout, size_mk, size_fold, flow_mk, flow_fold] using
            flow_startPlugin_keep (c.cancelTimeout) index c.curPlugin h3
        · intro hq
          have := h4 (by simpa [Core.cancelTimeout, size_mk, size_fold] using hq)
          simpa [Core.cancelTimeout, size_mk, size_fold, flow_mk, flow_fold] using
            flow_startPlugin_keep (c.cancelTimeout) index opt.primaryInput this
        · intro _
          simpa [Core.cancelTimeout, size_mk, size_fold, flow_mk, flow_fold] using
            flow_startPlugin_self (c.cancelTimeout) index hidx
        · intro hd; rw [hs] at hd; exact absurd hd (by decide)
    · rename_i hs
      exact absurd hrun (h6 hs)
  · exact ⟨h1, h2, h3, h4, h5, h6⟩

theorem flowInv_handleWatchDogTimeout (opt : Options) (c : Core) (h : c.FlowInv opt) :
    (c.handleWatchDogTimeout opt).FlowInv opt := by
  unfold Core.handleWatchDogTimeout
  split
  · apply flowInv_setInputLocked
    obtain ⟨h1, h2, h3, h4, h5, h6⟩ := h
    split
    · rename_i hd
      have hs := hd.1
      split
      · refine ⟨?_, ?_, ?_, ?_, ?_, ?_⟩
        · simpa [size_mk, size_fold] using h1
        · simpa [size_mk, size_fold] using h1
        · simpa [size_mk, size_fold, flow_mk, flow_fold] using h3
        · intro hq
          have := h4 (by simpa [size_mk, size_fold] using hq)
          simpa [size_mk, size_fold, flow_mk, flow_fold] using this
        · intro _
          simpa [size_mk, size_fold, flow_mk, flow_fold] using h3
        · intro hf; rw [hs] at hf; exact absurd hf (by decide)
      · refine ⟨h1, h1, h3, h4, fun _ => h3, ?_⟩
        intro hf; rw [hs] at hf; exact absurd hf (by decide)
    · exact ⟨h1, h2, h3, h4, h5, h6⟩
  · exact h

theorem flowInv_inputStarted (opt : Options) (c : Core) (index : Nat) (s : Bool)
    (h : c.FlowInv opt) : (c.inputStarted opt index s).2.FlowInv opt := by
  obtain ⟨h1, h2, h3, h4, h5, h6⟩ := h
  unfold Core.inputStarted
  split
  · exact ⟨h1, h2, h3, h4, h5, h6⟩
  · simp only
    split
    · exact ⟨h1, h2, h3, h4, h5, h6⟩
    · split
      · rename_i hs
        refine ⟨h1, h2, h3, h4, ?_, ?_⟩
        · intro hd; rw [hs] at hd; exact absurd hd (by decide)
        · intro hd; rw [hs] at hd; exact absurd hd (by decide)
      · exact ⟨h1, h2, h3, h4, h5, h6⟩
      · exact ⟨h1, h2, h3, h4, h5, h6⟩

theorem flowInv_stop (opt : Options) (c : Core) (success : Bool) (h : c.FlowInv opt) :
    (c.stop success).FlowInv opt := by
  obtain ⟨k1, _, k3, k4, _, k6, k7⟩ := stop_fields c success
  obtain ⟨h1, h2, h3, h4, h5, h6⟩ := h
  unfold Core.FlowInv
  rw [k1, k3, k4, k6, k7, k7, k7]
  exact ⟨h1, h2, h3, h4, h5, fun _ => by decide⟩


theorem flow_clear_ne (c : Core) (i j : Nat) (h : i ≠ j) :
    (c.onInput i (fun e => e.setFlowControl false)).flow j = c.flow j := by
  rw [flow_onInput_set c i j (fun e => e.setFlowControl false) false (fun _ => rfl), if_neg h]

theorem primaryPreemption_flow (opt : Options) (c : Core) (index : Nat)
    (hp : index = opt.primaryInput) (hc : c.curPlugin ≠ opt.primaryInput) :
    (c.primaryPreemption opt index).flow index = c.flow index := by
  unfold Core.primaryPreemption
  rw [if_pos ⟨hp, hc⟩]
  split
  · show (if _ then _ else _ : Core).flow index = _
    split
    · rename_i hn
      rw [flow_clear_ne _ _ _ hn.2, flow_clear_ne _ _ _ (by rw [hp]; exact hc)]
    · rw [flow_clear_ne _ _ _ (by rw [hp]; exact hc)]
  · exact (sameCtl_stopOthers c index).2.2.2.2.2.2 index

theorem flowInv_inputReceived (opt : Options) (c : Core) (index : Nat) (hidx : index < c.size)
    (h : c.FlowInv opt) : (c.inputReceived opt index).2.FlowInv opt := by
  have hd : (c.delayedCompletion opt index).FlowInv opt ∧
      (c.delayedCompletion opt index).size = c.size := by
    rcases delayedCompletion_cases opt c index with he | he
    · rw [he]; exact ⟨h, rfl⟩
    · obtain ⟨e1, e2, e3, _, _, e6, e7, e8, _, e10⟩ := he
      obtain ⟨h1, h2, h3, h4, h5, h6⟩ := h
      refine ⟨⟨?_, ?_, ?_, ?_, ?_, ?_⟩, e6⟩
      · rw [e1, e6]; exact hidx
      · rw [e2, e6]; exact hidx
      · rw [e1, e7, e10]; exact h5 e8
      · rw [e6, e7]; exact h4
      · intro _; rw [e2, e7, e10]; exact h5 e8
      · intro hf; rw [e8] at hf; exact absurd hf (by decide)
  obtain ⟨hd, hdsz⟩ := hd
  simp only [Core.inputReceived]
  generalize c.delayedCompletion opt index = d at hd hdsz ⊢
  have hidx2 : index < d.size := by rw [hdsz]; exact hidx
  have hp : (d.primaryPreemption opt index).FlowInv opt := by
    obtain ⟨h1, h2, h3, h4, h5, h6⟩ := hd
    have hcases := primaryPreemption_cases opt d index
    rcases hcases with he | he
    · rw [he]; exact ⟨h1, h2, h3, h4, h5, h6⟩
    · obtain ⟨e1, e2, e3, _, _, e6, e7, e8⟩ := he
      have hfl := primaryPreemption_flow opt d index e7 e8
      have hpt : d.flow index = some true := by
        rw [e7]; exact h4 (by rw [← e7]; exact hidx2)
      refine ⟨?_, ?_, ?_, ?_, ?_, ?_⟩
      · rw [e1, e6]; exact hidx2
      · rw [e2, e6]; exact hidx2
      · rw [e1, hfl]; exact hpt
      · intro _; rw [← e7, hfl]; exact hpt
      · intro _; rw [e2, hfl]; exact hpt
      · rw [e3]; exact h6
  generalize d.primaryPreemption opt index = e at hp ⊢
  unfold Core.receivedOnCurrent
  split
  · exact hp
  · exact hp

theorem flowInv_inputStopped (opt : Options) (c : Core) (index : Nat) (s : Bool)
    (h : c.FlowInv opt) : (c.inputStopped opt index s).2.FlowInv opt := by
  unfold Core.inputStopped
  split
  · exact h
  · simp only
    have hm : (c.markStopped index).FlowInv opt := by
      rw [markStopped_eq]; exact h
    split
    · apply flowInv_stop
      exact hm
    · generalize c.markStopped index = m at hm
      unfold Core.afterInputStopped
      split
      · exact hm
      · split
        · exact flowInv_setInputLocked _ _ _ _ _ hm
        · exact hm
      · exact hm
      · split
        · rename_i hs hq
          obtain ⟨h1, h2, h3, h4, h5, h6⟩ := hm
          refine ⟨?_, ?_, ?_, ?_, ?_, ?_⟩
          · simpa [size_mk, size_fold] using h2
          · simpa [size_mk, size_fold] using h2
          · exact flow_startPlugin_self _ m.nextPlugin h2
          · intro hp
            exact flow_startPlugin_keep _ _ _ (h4 (by simpa [size_mk, size_fold] using hp))
          · intro hd; rw [hq.1] at hd; exact absurd hd (by decide)
          · intro hd; rw [hq.1] at hd; exact absurd hd (by decide)
        · exact hm

theorem size_setInputLocked (opt : Options) (c : Core) (index : Nat) (a : Bool)
    (dir : Direction) : (c.setInputLocked opt index a dir).size = c.size := by
  unfold Core.setInputLocked
  split
  · rfl
  split
  · rfl
  split
  · split
    · simp only
      split
      · simp [Core.cancelTimeout, size_mk, size_fold]
      · simp [Core.cancelTimeout, size_mk, size_fold]
    · simp only
      split
      · simp [Core.cancelTimeout, Core.restartTimeout, size_mk, size_fold]
      · simp [Core.cancelTimeout, size_mk, size_fold]
    · split
      · split
        · simp [Core.restartTimeout, size_mk, size_fold, size_onInput]
        · rfl
      · rfl
  · rfl

theorem size_handleWatchDogTimeout (opt : Options) (c : Core) :
    (c.handleWatchDogTimeout opt).size = c.size := by
  unfold Core.handleWatchDogTimeout
  split
  · simp only
    rw [size_setInputLocked]
    split
    · split
      · simp [size_mk, size_fold]
      · rfl
    · rfl
  · rfl

theorem size_inputStarted (opt : Options) (c : Core) (index : Nat) (s : Bool) :
    (c.inputStarted opt index s).2.size = c.size := by
  unfold Core.inputStarted
  split
  · rfl
  · simp only
    split
    · rfl
    · split <;> rfl

theorem size_inputReceived (opt : Options) (c : Core) (index : Nat) :
    (c.inputReceived opt index).2.size = c.size := by
  have h1 : (c.delayedCompletion opt index).size = c.size := by
    rcases delayedCompletion_cases opt c index with he | he
    · rw [he]
    · exact he.2.2.2.2.2.1
  have h2 : ((c.delayedCompletion opt index).primaryPreemption opt index).size = c.size := by
    rcases primaryPreemption_cases opt (c.delayedCompletion opt index) index with he | he
    · rw [he, h1]
    · rw [he.2.2.2.2.2.1, h1]
  simp only [Core.inputReceived]
  unfold Core.receivedOnCurrent
  split
  · exact h2
  · exact h2

theorem size_inputStopped (opt : Options) (c : Core) (index : Nat) (s : Bool) :
    (c.inputStopped opt index s).2.size = c.size := by
  have hm : (c.markStopped index).size = c.size := by rw [markStopped_eq]; rfl
  unfold Core.inputStopped
  split
  · rfl
  · simp only
    split
    · rw [(stop_fields _ true).2.2.2.2.2.1]
      exact hm
    · unfold Core.afterInputStopped
      split
      · exact hm
      · split
        · rw [size_setInputLocked]; exact hm
        · exact hm
      · exact hm
      · split
        · simpa [size_mk, size_fold] using hm
        · exact hm

theorem size_step (opt : Options) (c : Core) (ev : Event) : (c.step opt ev).size = c.size := by
  cases ev with
  | setInput index => exact size_setInputLocked _ _ _ _ _
  | nextInput => exact size_setInputLocked _ _ _ _ _
  | previousInput => exact size_setInputLocked _ _ _ _ _
  | stop success => exact (stop_fields c success).2.2.2.2.2.1
  | inputStarted index success => exact size_inputStarted _ _ _ _
  | inputReceived index => exact size_inputReceived _ _ _
  | inputStopped index success => exact size_inputStopped _ _ _ _
  | watchDogTimeout => exact size_handleWatchDogTimeout _ _

theorem flowInv_step (opt : Options) (c : Core) (ev : Event)
    (hv : ev.valid c.size = true) (h : c.FlowInv opt) : (c.step opt ev).FlowInv opt := by
  cases ev with
  | setInput index => exact flowInv_setInputLocked _ _ _ _ _ h
  | nextInput => exact flowInv_setInputLocked _ _ _ _ _ h
  | previousInput => exact flowInv_setInputLocked _ _ _ _ _ h
  | stop success => exact flowInv_stop _ _ _ h
  | inputStarted index success => exact flowInv_inputStarted _ _ _ _ h
  | inputReceived index =>
    simp only [Event.valid, decide_eq_true_eq] at hv
    exact flowInv_inputReceived _ _ _ hv h
  | inputStopped index success => exact flowInv_inputStopped _ _ _ _ h
  | watchDogTimeout => exact flowInv_handleWatchDogTimeout _ _ h

theorem flowInv_steps (opt : Options) (evs : List Event) :
    ∀ c : Core, c.FlowInv opt → (∀ ev ∈ evs, ev.valid c.size = true) →
      (evs.foldl (Core.step opt) c).FlowInv opt := by
  induction evs with
  | nil => intro c h _; exact h
  | cons ev evs ih =>
    intro c h hv
    apply ih
    · exact flowInv_step opt c ev (hv ev (List.mem_cons_self _ _)) h
    · intro e he
      rw [size_step]
      exact hv e (List.mem_cons_of_mem _ he)

theorem flowInv_started (opt : Options) (hfirst : opt.firstInput < opt.inputCount) :
    (Core.started opt).FlowInv opt := by
  obtain ⟨n1, n2, n3, _, _⟩ := new_fields opt
  obtain ⟨_, s2, s3, s4, s5, s6⟩ :=
    start_effect opt StartEnv.success (Core.new opt) n1 n2 (allOk_success _)
  obtain ⟨_, f2, _⟩ := start_frame opt StartEnv.success (Core.new opt)
  rw [← started_eq] at s2 s3 s4 s5 s6 f2
  have hfirst2 : opt.firstInput < (Core.new opt).size := by rw [n3]; exact hfirst
  have hflow : ∀ i, i < (Core.new opt).size → (i = opt.firstInput ∨ i = opt.primaryInput) →
      (Core.started opt).flow i = some true := by
    intro i hi hor
    by_cases hf : opt.strategy = FAST_SWITCH
    · rw [(s5 hf i hi).2]
      rcases hor with h | h <;> simp [h]
    · exact ((s6 hf i hi).1 hor).2
  refine ⟨?_, ?_, ?_, ?_, ?_, ?_⟩
  · rw [s3, f2]; exact hfirst2
  · rw [s4, f2]; exact hfirst2
  · rw [s3]; exact hflow _ hfirst2 (Or.inl rfl)
  · intro hp
    rw [f2] at hp
    exact hflow _ hp (Or.inr rfl)
  · intro _
    rw [s4]; exact hflow _ hfirst2 (Or.inl rfl)
  · intro _
    rw [s2]; decide

theorem size_steps (opt : Options) (evs : List Event) :
    ∀ c : Core, (evs.foldl (Core.step opt) c).size = c.size := by
  induction evs with
  | nil => intro c; rfl
  | cons ev evs ih => intro c; rw [List.foldl_cons, ih, size_step]

/-- C18 (flow control on the current input): in every state reached from a
successful `start()` (first input a valid index) by any sequence of commands and
events (the notifications carrying the index of an input), under every strategy,
the flow-control flag of the input designated by `curPlugin` is on, and so is
that of the primary input when one is configured (under FAST in particular). -/
theorem C18_flow_control_current (opt : Options) (evs : List Event)
    (hfirst : opt.firstInput < opt.inputCount)
    (hvalid : ∀ ev ∈ evs, ev.valid opt.inputCount = true) :
    (evs.foldl (Core.step opt) (Core.started opt)).flow
        (evs.foldl (Core.step opt) (Core.started opt)).curPlugin = some true ∧
    (opt.primaryInput < opt.inputCount →
      (evs.foldl (Core.step opt) (Core.started opt)).flow opt.primaryInput = some true) := by
  have hsz : (Core.started opt).size = opt.inputCount := by
    rw [started_eq, (start_frame opt StartEnv.success (Core.new opt)).2.1]
    exact (new_fields opt).2.2.1
  have hsz2 : (evs.foldl (Core.step opt) (Core.started opt)).size = opt.inputCount := by
    rw [size_steps, hsz]
  obtain ⟨_, _, h3, h4, _, _⟩ := flowInv_steps opt evs _ (flowInv_started opt hfirst)
    (by rw [hsz]; exact hvalid)
  exact ⟨h3, fun hp => h4 (by rw [hsz2]; exact hp)⟩

/-! ## Guards of the commands and of the watchdog handler -/

theorem setInputLocked_guard (opt : Options) (c : Core) (index : Nat) (abortCurrent : Bool)
    (dir : Direction)
    (h : index = c.nextPlugin ∨ c.size ≤ index ∨ c.state ≠ CORE_RUNNING) :
    c.setInputLocked opt index abortCurrent dir = c := by
  unfold Core.setInputLocked
  by_cases h1 : index = c.nextPlugin
  · rw [if_pos h1]
  · rw [if_neg h1]
    by_cases h2 : index ≥ c.size
    · rw [if_pos h2]
    · rw [if_neg h2]
      rcases h with h | h | h
      · exact absurd h h1
      · exact absurd h h2
      · split
        · rename_i hs; exact absurd hs h
        · rfl

/-- C14 (switch command guards): for every core state and every target index that
is the next plugin, or is not a valid input index, or when the core is not
RUNNING, `setInput` (and `setInputLocked` with any arguments, hence `nextInput`
and `previousInput` whose target it is) returns the core unchanged: state,
current, next and timeout plugin, cycle, input states, executors. -/
theorem C14_switch_guards (opt : Options) (c : Core) (index : Nat)
    (h : index = c.nextPlugin ∨ c.size ≤ index ∨ c.state ≠ CORE_RUNNING) :
    c.setInput opt index = c ∧
    (∀ abortCurrent dir, c.setInputLocked opt index abortCurrent dir = c) ∧
    (c.nextInputIndex c.nextPlugin UPWARD = index → c.nextInput opt = c) ∧
    (c.nextInputIndex c.nextPlugin DOWNWARD = index → c.previousInput opt = c) := by
  refine ⟨setInputLocked_guard opt c index false UNCHANGED h,
    fun a d => setInputLocked_guard opt c index a d h, ?_, ?_⟩
  · intro hi
    unfold Core.nextInput
    rw [hi]
    exact setInputLocked_guard opt c index false UPWARD h
  · intro hi
    unfold Core.previousInput
    rw [hi]
    exact setInputLocked_guard opt c index false DOWNWARD h

/-- C15 (spurious timeout filter): for every core state whose `timeoutPlugin` is
"none" (the number of inputs), the watchdog handler returns the core unchanged:
no field changes, no input is stopped or started. -/
theorem C15_spurious_timeout (opt : Options) (c : Core) (h : c.timeoutPlugin = c.size) :
    c.handleWatchDogTimeout opt = c := by
  unfold Core.handleWatchDogTimeout
  rw [if_neg (by omega)]

/-! ## Watchdog coverage, termination flag, start -/

theorem watchInv_steps (opt : Options) (evs : List Event) :
    ∀ c : Core, c.WatchInv opt → (evs.foldl (Core.step opt) c).WatchInv opt := by
  induction evs with
  | nil => intro c h; exact h
  | cons ev evs ih => intro c h; exact ih _ (watchInv_step opt c ev h)

/-- C13 (watchdog coverage): in every state reached from a successful `start()` by
any sequence of commands and events, under every strategy, if the core is RUNNING
then `timeoutPlugin` is `curPlugin` or "none" (the number of inputs). -/
theorem C13_watchdog_coverage (opt : Options) (evs : List Event)
    (hstate : (evs.foldl (Core.step opt) (Core.started opt)).state = CORE_RUNNING) :
    (evs.foldl (Core.step opt) (Core.started opt)).timeoutPlugin =
      (evs.foldl (Core.step opt) (Core.started opt)).curPlugin ∨
    (evs.foldl (Core.step opt) (Core.started opt)).timeoutPlugin =
      (evs.foldl (Core.step opt) (Core.started opt)).size :=
  (watchInv_steps opt evs _ (watchInv_started opt)).2 hstate

/-- Witness of C13: sequential strategy, after `start()` and `inputStarted(0)`. -/
theorem C13_watchdog_coverage_witness :
    ([Event.inputStarted 0 true].foldl (Core.step Options.sequentialWithPrimary)
      (Core.started Options.sequentialWithPrimary)).state = CORE_RUNNING ∧
    (([Event.inputStarted 0 true].foldl (Core.step Options.sequentialWithPrimary)
      (Core.started Options.sequentialWithPrimary)).timeoutPlugin =
     ([Event.inputStarted 0 true].foldl (Core.step Options.sequentialWithPrimary)
      (Core.started Options.sequentialWithPrimary)).curPlugin ∨
     ([Event.inputStarted 0 true].foldl (Core.step Options.sequentialWithPrimary)
      (Core.started Options.sequentialWithPrimary)).timeoutPlugin =
     ([Event.inputStarted 0 true].foldl (Core.step Options.sequentialWithPrimary)
      (Core.started Options.sequentialWithPrimary)).size) :=
  ⟨by decide, C13_watchdog_coverage Options.sequentialWithPrimary [Event.inputStarted 0 true]
    (by decide)⟩

/-- C16 (terminate is one-way): after `stop()`, whatever calls follow (commands,
events, `start()`, calls of the output thread), the terminate flag is set, every
`inputStarted`, `inputReceived`, `inputStopped` and `outputSent` returns false and
`getOutputArea` returns false with a null area and count 0. -/
theorem C16_terminate_one_way (opt : Options) (c : Core) (success : Bool) (xs : List Call) :
    ((c.stop success).calls opt xs).terminate = true ∧
    (∀ index s, (((c.stop success).calls opt xs).inputStarted opt index s).1 = false) ∧
    (∀ index, (((c.stop success).calls opt xs).inputReceived opt index).1 = false) ∧
    (∀ index s, (((c.stop success).calls opt xs).inputStopped opt index s).1 = false) ∧
    (∀ index count, (((c.stop success).calls opt xs).outputSent index count).1 = false) ∧
    ((c.stop success).calls opt xs).getOutputArea.1 =
      some { ok := false, pluginIndex := ((c.stop success).calls opt xs).curPlugin,
             first := none, count := 0 } := by
  have ht := terminate_calls opt xs (c.stop success) (stop_fields c success).2.1
  generalize (c.stop success).calls opt xs = d at ht
  refine ⟨ht, ?_, ?_, ?_, ?_, ?_⟩
  · intro index s
    obtain ⟨h1, h2⟩ := inputStarted_flag opt d index s
    rw [h1, h2, ht]; rfl
  · intro index
    obtain ⟨h1, h2⟩ := inputReceived_flag opt d index
    rw [h1, h2, ht]; rfl
  · intro index s
    obtain ⟨h1, h2⟩ := inputStopped_flag opt d index s
    rw [h1, h2 ht]; rfl
  · intro index count
    simp [Core.outputSent, Core.onInput, ht]
  · simp [Core.getOutputArea, ht]

/-- C17 (start sessions): when the state is not STOPPED, `start()` returns false
and changes nothing.  When it is STOPPED and every external call succeeds,
`start()` returns true with state STARTING_NEXT and `curPlugin = nextPlugin =
firstInput`; under FAST every input is STARTING and input `i` has flow control on
exactly when `i` is `firstInput` or `primaryInput`; under the other strategies
`firstInput` and the primary (a valid index) are STARTING with flow control on and
every other input keeps its state and its executor untouched. -/
theorem C17_start_sessions (opt : Options) (env : StartEnv) (c : Core) :
    (c.state ≠ CORE_STOPPED → c.start opt env = (false, c)) ∧
    (c.state = CORE_STOPPED → c.WellFormed → env.allOk c.size = true →
      (c.start opt env).1 = true ∧
      (c.start opt env).2.state = CORE_STARTING_NEXT ∧
      (c.start opt env).2.curPlugin = opt.firstInput ∧
      (c.start opt env).2.nextPlugin = opt.firstInput ∧
      (opt.strategy = FAST_SWITCH → ∀ i, i < c.size →
        (c.start opt env).2.inStates[i]? = some INPUT_STARTING ∧
        (c.start opt env).2.flow i =
          some (decide (i = opt.firstInput) || decide (i = opt.primaryInput))) ∧
      (opt.strategy ≠ FAST_SWITCH → ∀ i, i < c.size →
        (i = opt.firstInput ∨ i = opt.primaryInput →
          (c.start opt env).2.inStates[i]? = some INPUT_STARTING ∧
          (c.start opt env).2.flow i = some true) ∧
        (i ≠ opt.firstInput ∧ i ≠ opt.primaryInput →
          (c.start opt env).2.inStates[i]? = c.inStates[i]? ∧
          (c.start opt env).2.inputs[i]? = c.inputs[i]?))) := by
  refine ⟨?_, ?_⟩
  · intro hs
    unfold Core.start
    rw [if_pos hs]
  · intro hs hwf henv
    exact start_effect opt env c hs hwf henv

/-! ## Scenarios 1 and 3 -/

/-- C11 (sequential failover on timeout, scenario 1): SEQUENTIAL strategy, three
inputs, no primary input, no cycle limit and no `--terminate`, core RUNNING with
`curPlugin = nextPlugin = timeoutPlugin = 0`.  The watchdog timeout yields state
STOPPING_PREVIOUS, `nextPlugin = 1`, input 0 STOPPING, timeout "none" (and
`curPlugin` still 0); the following `inputStopped(0)` yields STARTING_NEXT,
`curPlugin = 1`, input 1 STARTING with flow control on; the following
`inputStarted(1)` yields RUNNING with `curPlugin = nextPlugin = timeoutPlugin = 1`. -/
theorem C11_sequential_failover (opt : Options) (c : Core) (s1 s2 : Bool)
    (hsize : c.size = 3) (hwf : c.WellFormed)
    (hstrat : opt.strategy = SEQUENTIAL_SWITCH) (hprim : ¬ opt.primaryInput < 3)
    (hcycle : opt.cycleCount = 0) (hterm : opt.terminate = false)
    (hstate : c.state = CORE_RUNNING) (hcur : c.curPlugin = 0) (hnext : c.nextPlugin = 0)
    (htime : c.timeoutPlugin = 0) :
    ((c.handleWatchDogTimeout opt).state = CORE_STOPPING_PREVIOUS ∧
     (c.handleWatchDogTimeout opt).curPlugin = 0 ∧
     (c.handleWatchDogTimeout opt).nextPlugin = 1 ∧
     (c.handleWatchDogTimeout opt).inStates[0]? = some INPUT_STOPPING ∧
     (c.handleWatchDogTimeout opt).timeoutPlugin = c.size) ∧
    ((((c.handleWatchDogTimeout opt).inputStopped opt 0 s1).2).state = CORE_STARTING_NEXT ∧
     (((c.handleWatchDogTimeout opt).inputStopped opt 0 s1).2).curPlugin = 1 ∧
     (((c.handleWatchDogTimeout opt).inputStopped opt 0 s1).2).inStates[1]?
        = some INPUT_STARTING ∧
     (((c.handleWatchDogTimeout opt).inputStopped opt 0 s1).2).flow 1 = some true) ∧
    ((((((c.handleWatchDogTimeout opt).inputStopped opt 0 s1).2).inputStarted opt 1 s2).2).state
        = CORE_RUNNING ∧
     (((((c.handleWatchDogTimeout opt).inputStopped opt 0 s1).2).inputStarted opt 1
        s2).2).curPlugin = 1 ∧
     (((((c.handleWatchDogTimeout opt).inputStopped opt 0 s1).2).inputStarted opt 1
        s2).2).nextPlugin = 1 ∧
     (((((c.handleWatchDogTimeout opt).inputStopped opt 0 s1).2).inputStarted opt 1
        s2).2).timeoutPlugin = 1) := by
  obtain ⟨inputs, oT, wd, state, cur, next, tp, cc, term, inStates⟩ := c
  simp only [Core.size, Core.WellFormed] at hsize hwf hstate hcur hnext htime
  subst hstate hcur hnext htime
  rw [hsize] at hwf
  obtain ⟨e0, e1, e2, rfl⟩ := List.length_eq_three.mp hsize
  obtain ⟨i0, i1, i2, rfl⟩ := List.length_eq_three.mp hwf
  obtain ⟨n, f, p, cy, te, st, bp, mp⟩ := opt
  simp only at hstrat hprim hcycle hterm
  subst hstrat hcycle hterm
  have hp0 : ¬ (0 = p) := by omega
  have hp0' : ¬ (p = 0) := by omega
  simp [Core.handleWatchDogTimeout, Core.setInputLocked, Core.nextInputIndex, Core.size,
    Core.cancelTimeout, Core.stopPlugin, Core.onInput, Core.inputStopped, Core.markStopped,
    Core.stopRequest, Core.afterInputStopped, Core.startPlugin, Core.inputStarted,
    Core.restartTimeout, Core.flow, subSize, SIZE_MOD, hp0, hp0', InputExecutor.startInput,
    InputExecutor.stopInput, List.modify]

/-- Witness of C11: three inputs, after `start()` and `inputStarted(0)`. -/
theorem C11_sequential_failover_witness :
    ((Core.started Options.threeSequential).step Options.threeSequential
      (.inputStarted 0 true)).state = CORE_RUNNING ∧
    ((((Core.started Options.threeSequential).step Options.threeSequential
      (.inputStarted 0 true)).handleWatchDogTimeout Options.threeSequential).inputStopped
        Options.threeSequential 0 true).2.curPlugin = 1 :=
  ⟨by decide,
   (C11_sequential_failover Options.threeSequential
      ((Core.started Options.threeSequential).step Options.threeSequential
        (.inputStarted 0 true)) true true
      (by decide) (by decide) (by decide) (by decide) (by decide) (by decide) (by decide)
      (by decide) (by decide) (by decide)).2.1.2.1⟩

/-- C12 (delayed switch completion, scenario 3): DELAYED strategy, two inputs, no
primary input, core RUNNING with `curPlugin = nextPlugin = 0`.  `setInput(1)`
yields STARTING_NEXT, `nextPlugin = 1`, input 1 STARTING, `curPlugin` still 0;
`inputStarted(1)` leaves STARTING_NEXT and `curPlugin = 0`; the first
`inputReceived(1)` puts input 0 in STOPPING by a stop request without abort (its
executor is the original one after `stopInput`) and yields RUNNING with
`curPlugin = nextPlugin = timeoutPlugin = 1`. -/
theorem C12_delayed_completion (opt : Options) (c : Core) (s : Bool)
    (hsize : c.size = 2) (hwf : c.WellFormed)
    (hstrat : opt.strategy = DELAYED_SWITCH) (hprim : ¬ opt.primaryInput < 2)
    (hstate : c.state = CORE_RUNNING) (hcur : c.curPlugin = 0) (hnext : c.nextPlugin = 0) :
    ((c.setInput opt 1).state = CORE_STARTING_NEXT ∧
     (c.setInput opt 1).nextPlugin = 1 ∧
     (c.setInput opt 1).inStates[1]? = some INPUT_STARTING ∧
     (c.setInput opt 1).curPlugin = 0) ∧
    ((((c.setInput opt 1).inputStarted opt 1 s).2).state = CORE_STARTING_NEXT ∧
     (((c.setInput opt 1).inputStarted opt 1 s).2).curPlugin = 0) ∧
    ((((((c.setInput opt 1).inputStarted opt 1 s).2).inputReceived opt 1).2).inStates[0]?
        = some INPUT_STOPPING ∧
     (((((c.setInput opt 1).inputStarted opt 1 s).2).inputReceived opt 1).2).inputs[0]?
        = (c.inputs[0]?).map InputExecutor.stopInput ∧
     (((((c.setInput opt 1).inputStarted opt 1 s).2).inputReceived opt 1).2).state
        = CORE_RUNNING ∧
     (((((c.setInput opt 1).inputStarted opt 1 s).2).inputReceived opt 1).2).curPlugin = 1 ∧
     (((((c.setInput opt 1).inputStarted opt 1 s).2).inputReceived opt 1).2).nextPlugin = 1 ∧
     (((((c.setInput opt 1).inputStarted opt 1 s).2).inputReceived opt 1).2).timeoutPlugin
        = 1) := by
  obtain ⟨inputs, oT, wd, state, cur, next, tp, cc, term, inStates⟩ := c
  simp only [Core.size, Core.WellFormed] at hsize hwf hstate hcur hnext
  subst hstate hcur hnext
  rw [hsize] at hwf
  obtain ⟨e0, e1, rfl⟩ := List.length_eq_two.mp hsize
  obtain ⟨i0, i1, rfl⟩ := List.length_eq_two.mp hwf
  obtain ⟨n, f, p, cy, te, st, bp, mp⟩ := opt
  simp only at hstrat hprim
  subst hstrat
  have hp0 : ¬ (0 = p) := by omega
  have hp1 : ¬ (1 = p) := by omega
  simp [Core.setInput, Core.setInputLocked, Core.size,
    Core.cancelTimeout, Core.stopPlugin, Core.onInput, Core.startPlugin, Core.inputStarted,
    Core.restartTimeout, Core.inputReceived, Core.delayedCompletion, Core.primaryPreemption,
    Core.receivedOnCurrent, hp0, hp1, List.modify]

/-- Witness of C12: two inputs, after `start()`, `inputStarted(0)` and
`inputReceived(0)`. -/
theorem C12_delayed_completion_witness :
    (((Core.started Options.twoDelayed).step Options.twoDelayed (.inputStarted 0 true)).step
      Options.twoDelayed (.inputReceived 0)).state = CORE_RUNNING ∧
    ((((((Core.started Options.twoDelayed).step Options.twoDelayed (.inputStarted 0 true)).step
      Options.twoDelayed (.inputReceived 0)).setInput Options.twoDelayed 1).inputStarted
        Options.twoDelayed 1 true).2.inputReceived Options.twoDelayed 1).2.curPlugin = 1 :=
  ⟨by decide,
   (C12_delayed_completion Options.twoDelayed
      (((Core.started Options.twoDelayed).step Options.twoDelayed (.inputStarted 0 true)).step
        Options.twoDelayed (.inputReceived 0)) true
      (by decide) (by decide) (by decide) (by decide) (by decide) (by decide)
      (by decide)).2.2.2.2.2.1⟩

/-- Witness of C14: a `setInput(1)` while the core is still STARTING_NEXT. -/
theorem C14_switch_guards_witness :
    (Core.started Options.sequentialWithPrimary).state ≠ CORE_RUNNING ∧
    (Core.started Options.sequentialWithPrimary).setInput Options.sequentialWithPrimary 1 =
      Core.started Options.sequentialWithPrimary :=
  ⟨by decide,
   (C14_switch_guards Options.sequentialWithPrimary
      (Core.started Options.sequentialWithPrimary) 1 (Or.inr (Or.inr (by decide)))).1⟩

/-- Witness of C15: a timeout delivered to a newly constructed core. -/
theorem C15_spurious_timeout_witness :
    (Core.new Options.twoCycles).timeoutPlugin = (Core.new Options.twoCycles).size ∧
    (Core.new Options.twoCycles).handleWatchDogTimeout Options.twoCycles =
      Core.new Options.twoCycles :=
  ⟨by decide, C15_spurious_timeout Options.twoCycles (Core.new Options.twoCycles) (by decide)⟩

/-- Witness of C17: `start()` on a newly constructed core, fast strategy. -/
theorem C17_start_sessions_witness :
    ((Core.new Options.fastWithPrimary).start Options.fastWithPrimary StartEnv.success).1 = true ∧
    ((Core.new Options.fastWithPrimary).start Options.fastWithPrimary StartEnv.success).2.state =
      CORE_STARTING_NEXT :=
  ⟨((C17_start_sessions Options.fastWithPrimary StartEnv.success
      (Core.new Options.fastWithPrimary)).2 (by decide) (by decide) (by decide)).1,
   ((C17_start_sessions Options.fastWithPrimary StartEnv.success
      (Core.new Options.fastWithPrimary)).2 (by decide) (by decide) (by decide)).2.1⟩

/-- Witness of C18: fast strategy, after `start()`, `inputStarted(0)` and the
pre-emption by `inputReceived(1)`. -/
theorem C18_flow_control_current_witness :
    ([Event.inputStarted 0 true, Event.inputReceived 1].foldl
      (Core.step Options.fastWithPrimary) (Core.started Options.fastWithPrimary)).curPlugin = 1 ∧
    ([Event.inputStarted 0 true, Event.inputReceived 1].foldl
      (Core.step Options.fastWithPrimary) (Core.started Options.fastWithPrimary)).flow
      ([Event.inputStarted 0 true, Event.inputReceived 1].foldl
        (Core.step Options.fastWithPrimary) (Core.started Options.fastWithPrimary)).curPlugin =
      some true :=
  ⟨by decide,
   (C18_flow_control_current Options.fastWithPrimary
      [Event.inputStarted 0 true, Event.inputReceived 1] (by decide) (by decide)).1⟩

/-! ## The segment cursor of the HLS input -/

theorem dropInitial_eq {σ : Type} (t : Nat) (l : List σ) :
    hls.dropInitial t l = l.drop (l.length - t) := by
  induction l with
  | nil => simp [hls.dropInitial]
  | cons s rest ih =>
    unfold hls.dropInitial
    split
    · rename_i h
      rw [ih]
      simp only [List.length_cons] at h ⊢
      have : rest.length + 1 - t = (rest.length - t) + 1 := by omega
      rw [this, List.drop_succ_cons]
    · rename_i h
      have : (s :: rest).length - t = 0 := by omega
      rw [this, List.drop_zero]

theorem sizeOfInt_neg (s : Int) (h1 : s < 0) (h2 : -2147483648 < s) :
    hls.sizeOfInt (-s) = (-s).toNat := by
  unfold hls.sizeOfInt SIZE_MOD
  congr 1
  apply Int.emod_eq_of_lt <;> omega

/-- C19 (segment cursor, positive start): evaluation of `start()` on a media
playlist of three segments.  With `--start-segment 3` the subtraction gives 0 and
no segment remains; with `--start-segment 4` the guard `segCount + 1 <
startSegment` is still false, the `size_t` subtraction wraps and all three
segments remain; the clamp is applied from `--start-segment 5` on only.  The law
`clamp(N - s, 1, N)` gives 1 in the three cases. -/
theorem C19_positive_start_guard_off :
    hls.remaining (hls.start hls.Selectors.none
        (hls.StartEnv.direct (hls.PlayList.media [10, 11, 12]))
        (hls.InputPlugin.startingAt 3)) = some [] ∧
    hls.cursorLaw 3 3 = 1 ∧
    hls.remaining (hls.start hls.Selectors.none
        (hls.StartEnv.direct (hls.PlayList.media [10, 11, 12]))
        (hls.InputPlugin.startingAt 4)) = some [10, 11, 12] ∧
    hls.cursorLaw 3 4 = 1 ∧
    hls.remaining (hls.start hls.Selectors.none
        (hls.StartEnv.direct (hls.PlayList.media [10, 11, 12]))
        (hls.InputPlugin.startingAt 5)) = some [12] ∧
    hls.cursorLaw 3 5 = 1 := by
  refine ⟨by decide, by decide, by decide, by decide, by decide, by decide⟩

/-- C20 (segment cursor, negative start): when `start()` succeeds with a negative
`startSegment` (above `INT_MIN`, whose negation is undefined) on the media
playlist `pl` it has loaded, `pl` has at least one segment and, with `k =
-startSegment`, the playlist of the plugin holds exactly the last `min(k, N)`
segments of `pl` in their order. -/
theorem C20_negative_start_segment {σ : Type} (sel : hls.Selectors) (env : hls.StartEnv σ)
    (p p' : hls.InputPlugin σ) (pl : hls.PlayList σ)
    (hload : hls.loadPlayList sel env p = some (.ok pl))
    (hstart : hls.start sel env p = some (.ok p'))
    (hneg : p.startSegment < 0) (hmin : -2147483648 < p.startSegment) :
    1 ≤ pl.segmentCount ∧
    p'.playlist.segments =
      pl.segments.drop (pl.segmentCount - min (-p.startSegment).toNat pl.segmentCount) ∧
    p'.playlist.segmentCount = min (-p.startSegment).toNat pl.segmentCount := by
  unfold hls.start at hstart
  rw [hload] at hstart
  simp only at hstart
  split at hstart
  · exact absurd hstart (by simp)
  split at hstart
  · exact absurd hstart (by simp)
  rename_i ht hn
  split at hstart
  · simp only [Option.some.injEq, Except.ok.injEq] at hstart
    subst hstart
    have hk := sizeOfInt_neg p.startSegment hneg hmin
    have hseg : hls.startSegCount pl.segmentCount p.startSegment =
        min (-p.startSegment).toNat pl.segmentCount := by
      unfold hls.startSegCount
      rw [if_neg (by omega), if_pos hneg, hk]
      split <;> omega
    simp only [hls.PlayList.segmentCount] at hn hseg ⊢
    simp only [hseg, dropInitial_eq, List.length_drop]
    refine ⟨by omega, trivial, by omega⟩
  · exact absurd hstart (by simp)

/-- Witness of C20 (scenario 5): a playlist of ten segments and `--live`, that is
`startSegment = -1`: only the tenth segment remains. -/
theorem C20_negative_start_segment_witness :
    hls.remaining (hls.start hls.Selectors.none
        (hls.StartEnv.direct (hls.PlayList.media [1, 2, 3, 4, 5, 6, 7, 8, 9, 10]))
        (hls.InputPlugin.startingAt (-1))) = some [10] ∧
    ({ hls.InputPlugin.startingAt (-1) with
        playlist := hls.PlayList.media [10] } : hls.InputPlugin Nat).playlist.segments =
      (hls.PlayList.media [1, 2, 3, 4, 5, 6, 7, 8, 9, 10]).segments.drop
        ((hls.PlayList.media [1, 2, 3, 4, 5, 6, 7, 8, 9, 10]).segmentCount -
          min (-(hls.InputPlugin.startingAt (-1)).startSegment).toNat
            (hls.PlayList.media [1, 2, 3, 4, 5, 6, 7, 8, 9, 10]).segmentCount) :=
  ⟨by decide,
   (C20_negative_start_segment hls.Selectors.none
      (hls.StartEnv.direct (hls.PlayList.media [1, 2, 3, 4, 5, 6, 7, 8, 9, 10]))
      (hls.InputPlugin.startingAt (-1))
      { hls.InputPlugin.startingAt (-1) with playlist := hls.PlayList.media [10] }
      (hls.PlayList.media [1, 2, 3, 4, 5, 6, 7, 8, 9, 10])
      (by rfl) (by rfl) (by decide) (by decide)).2.1⟩

/-! ## The HLS input: selection of a variant -/

theorem selectLoop_all_fail {σ : Type} (sel : hls.Selectors) (p : hls.InputPlugin σ)
    (load : Nat → hls.Variant → Option (hls.PlayList σ)) (matching : hls.Variant → Prop)
    (hsel : ∀ m, hls.selectIndex sel p m ≠ NPOS →
      ∃ v, m[hls.selectIndex sel p m]? = some v ∧ matching v)
    (hload : ∀ n v, matching v → load n v = none) :
    ∀ fuel master fetched, master.length < fuel →
      ∃ s, hls.selectLoop sel p load fuel master fetched = some s ∧
        ((s.result = .error .noMorePlaylist ∧ s.master.length = 1 ∧
            hls.selectIndex sel p s.master ≠ NPOS) ∨
         (s.result = .error .noMatchingStream ∧ hls.selectIndex sel p s.master = NPOS)) := by
  intro fuel
  induction fuel with
  | zero => intro master fetched h; omega
  | succ f ih =>
    intro master fetched h
    unfold hls.selectLoop
    simp only
    by_cases hn : hls.selectIndex sel p master = NPOS
    · rw [if_pos hn]
      exact ⟨_, rfl, Or.inr ⟨rfl, hn⟩⟩
    · rw [if_neg hn]
      obtain ⟨v, hv, hm⟩ := hsel master hn
      rw [hv]
      simp only [hload _ v hm]
      by_cases h1 : master.length = 1
      · rw [if_pos h1]
        exact ⟨_, rfl, Or.inl ⟨rfl, h1, hn⟩⟩
      · rw [if_neg h1]
        apply ih
        have hlt : hls.selectIndex sel p master < master.length := by
          rcases Nat.lt_or_ge (hls.selectIndex sel p master) master.length with h2 | h2
          · exact h2
          · rw [List.getElem?_eq_none h2] at hv; exact absurd hv (by simp)
        rw [List.length_eraseIdx, if_pos hlt]
        omega

theorem selectFirstInRange_spec (a b c d e f : Nat) (m : List hls.Variant)
    (h : hls.selectFirstInRange a b c d e f m ≠ NPOS) :
    ∃ v, m[hls.selectFirstInRange a b c d e f m]? = some v ∧
      hls.Variant.inRange a b c d e f v = true := by
  unfold hls.selectFirstInRange at h ⊢
  cases hf : m.findIdx? (hls.Variant.inRange a b c d e f) with
  | none => rw [hf] at h; exact absurd rfl h
  | some i =>
    simp only
    obtain ⟨hi, hp, _⟩ := List.findIdx?_eq_some_iff_getElem.mp hf
    exact ⟨m[i], List.getElem?_eq_getElem hi, hp⟩

/-- Counterexample to C21 (scenario 4): master playlist with the variants at 500,
1500 and 5000 kbps, `--max-bitrate 2000000`, the media playlists of the two
variants in range cannot be downloaded.  `start()` fails with "could not find a
matching stream in master playlist", not with "no more media playlist to try",
whichever of the two variants is tried first. -/
theorem C21_scenario_ends_without_match :
    hls.start hls.Selectors.firstInRange
      (hls.StartEnv.lowRatesFail
        [hls.Variant.atRate 1 500, hls.Variant.atRate 2 1500, hls.Variant.atRate 3 5000])
      hls.InputPlugin.maxBitrate2M = some (.error .noMatchingStream) ∧
    hls.start hls.Selectors.firstInRange
      (hls.StartEnv.lowRatesFail
        [hls.Variant.atRate 2 1500, hls.Variant.atRate 1 500, hls.Variant.atRate 3 5000])
      hls.InputPlugin.maxBitrate2M = some (.error .noMatchingStream) ∧
    (some (.error .noMatchingStream) : Option (Except hls.StartError (hls.InputPlugin Nat))) ≠
      some (.error .noMorePlaylist) := by
  refine ⟨by rfl, by rfl, ?_⟩
  intro h
  cases h

/-- C21 as amended: the URL is a master playlist, every selection returns "not
found" or the index of a variant meeting the criteria, and no variant meeting
the criteria can be downloaded.  Then the selection loop ends and `start()`
fails: with "no more media playlist to try" when the last variant tried was the
only one left in the master playlist, with "could not find a matching stream in
master playlist" when the selection finds nothing among the variants left. -/
theorem C21_matching_variants_fail {σ : Type} (sel : hls.Selectors) (env : hls.StartEnv σ)
    (p : hls.InputPlugin σ) (main : hls.PlayList σ) (matching : hls.Variant → Prop)
    (hmain : env.loadMain = some main) (htype : main.type = .MASTER_PLAYLIST)
    (hsel : ∀ m, hls.selectIndex sel p m ≠ NPOS →
      ∃ v, m[hls.selectIndex sel p m]? = some v ∧ matching v)
    (hload : ∀ n v, matching v → env.loadVariant n v = none) :
    ∃ s, hls.selectLoop sel p env.loadVariant (main.playListCount + 1) main.playlists [] =
        some s ∧
      ((s.master.length = 1 ∧ hls.selectIndex sel p s.master ≠ NPOS ∧
          hls.start sel env p = some (.error .noMorePlaylist)) ∨
       (hls.selectIndex sel p s.master = NPOS ∧
          hls.start sel env p = some (.error .noMatchingStream))) := by
  obtain ⟨s, hs, hcase⟩ := selectLoop_all_fail sel p env.loadVariant matching hsel hload
    (main.playListCount + 1) main.playlists [] (by simp [hls.PlayList.playListCount])
  refine ⟨s, hs, ?_⟩
  have hl : hls.loadPlayList sel env p = some s.result := by
    unfold hls.loadPlayList
    rw [hmain]
    simp only [htype, if_true, hs, Option.map_some']
  unfold hls.start
  rw [hl]
  rcases hcase with ⟨h1, h2, h3⟩ | ⟨h1, h2⟩
  · left; rw [h1]; exact ⟨h2, h3, rfl⟩
  · right; rw [h1]; exact ⟨h2, rfl⟩

/-- Witness of C21 as amended: scenario 4. -/
theorem C21_matching_variants_fail_witness :
    ∃ s, hls.selectLoop hls.Selectors.firstInRange hls.InputPlugin.maxBitrate2M
        (hls.StartEnv.lowRatesFail
          [hls.Variant.atRate 1 500, hls.Variant.atRate 2 1500,
            hls.Variant.atRate 3 5000]).loadVariant
        ((hls.PlayList.master
          [hls.Variant.atRate 1 500, hls.Variant.atRate 2 1500,
            hls.Variant.atRate 3 5000]).playListCount + 1)
        (hls.PlayList.master
          [hls.Variant.atRate 1 500, hls.Variant.atRate 2 1500,
            hls.Variant.atRate 3 5000]).playlists [] = some s ∧
      ((s.master.length = 1 ∧
          hls.selectIndex hls.Selectors.firstInRange hls.InputPlugin.maxBitrate2M s.master ≠
            NPOS ∧
          hls.start hls.Selectors.firstInRange
            (hls.StartEnv.lowRatesFail
              [hls.Variant.atRate 1 500, hls.Variant.atRate 2 1500, hls.Variant.atRate 3 5000])
            hls.InputPlugin.maxBitrate2M = some (.error .noMorePlaylist)) ∨
       (hls.selectIndex hls.Selectors.firstInRange hls.InputPlugin.maxBitrate2M s.master =
            NPOS ∧
          hls.start hls.Selectors.firstInRange
            (hls.StartEnv.lowRatesFail
              [hls.Variant.atRate 1 500, hls.Variant.atRate 2 1500, hls.Variant.atRate 3 5000])
            hls.InputPlugin.maxBitrate2M = some (.error .noMatchingStream))) :=
  C21_matching_variants_fail hls.Selectors.firstInRange
    (hls.StartEnv.lowRatesFail
      [hls.Variant.atRate 1 500, hls.Variant.atRate 2 1500, hls.Variant.atRate 3 5000])
    hls.InputPlugin.maxBitrate2M
    (hls.PlayList.master
      [hls.Variant.atRate 1 500, hls.Variant.atRate 2 1500, hls.Variant.atRate 3 5000])
    (fun v => hls.Variant.inRange 0 2000000 0 0 0 0 v = true)
    rfl rfl
    (fun m h => selectFirstInRange_spec 0 2000000 0 0 0 0 m h)
    (fun _ v hv => by
      have hb : v.bitrate ≤ 2000000 := by
        simpa [hls.Variant.inRange] using hv
      simp [hls.StartEnv.lowRatesFail, hb])

/-! ## The HLS input: `openURL` and `getOptions` -/

theorem start_counters {σ : Type} (sel : hls.Selectors) (env : hls.StartEnv σ)
    (p p' : hls.InputPlugin σ) (hstart : hls.start sel env p = some (.ok p')) :
    p'.segmentCount = 0 ∧ p'.maxSegmentCount = p.maxSegmentCount := by
  unfold hls.start at hstart
  split at hstart
  · exact absurd hstart (by simp)
  · exact absurd hstart (by simp)
  · split at hstart
    · exact absurd hstart (by simp)
    split at hstart
    · exact absurd hstart (by simp)
    split at hstart
    · simp only [Option.some.injEq, Except.ok.injEq] at hstart
      subst hstart
      exact ⟨rfl, rfl⟩
    · exact absurd hstart (by simp)

theorem openURL_limit_reached {σ : Type} (env : hls.OpenEnv σ) (p : hls.InputPlugin σ)
    (hmax : p.maxSegmentCount > 0) (hcount : p.segmentCount ≥ p.maxSegmentCount) :
    hls.openURL env p = { ret := false, reloads := 0, opened := none, plugin := p } := by
  unfold hls.openURL
  simp [hmax, hcount]

theorem openURL_counter {σ : Type} (env : hls.OpenEnv σ) (p : hls.InputPlugin σ)
    (hmax : p.maxSegmentCount > 0) (hcount : p.segmentCount ≤ p.maxSegmentCount) :
    (hls.openURL env p).plugin.segmentCount ≤ p.maxSegmentCount ∧
    (hls.openURL env p).plugin.maxSegmentCount = p.maxSegmentCount := by
  by_cases hge : p.segmentCount ≥ p.maxSegmentCount
  · rw [openURL_limit_reached env p hmax hge]
    exact ⟨hcount, rfl⟩
  · have hlt : p.segmentCount + 1 ≤ p.maxSegmentCount := by omega
    have hmod : (p.segmentCount + 1) % SIZE_MOD ≤ p.maxSegmentCount :=
      Nat.le_trans (Nat.mod_le _ _) hlt
    unfold hls.openURL
    simp only
    split_ifs <;> first | exact ⟨hcount, rfl⟩ | exact ⟨hmod, rfl⟩

theorem openURLs_counter {σ : Type} (envs : List (hls.OpenEnv σ)) :
    ∀ p : hls.InputPlugin σ, p.maxSegmentCount > 0 → p.segmentCount ≤ p.maxSegmentCount →
      (hls.openURLs p envs).segmentCount ≤ p.maxSegmentCount ∧
      (hls.openURLs p envs).maxSegmentCount = p.maxSegmentCount := by
  induction envs with
  | nil => intro p _ hc; exact ⟨hc, rfl⟩
  | cons env envs ih =>
    intro p hmax hc
    obtain ⟨h1, h2⟩ := openURL_counter env p hmax hc
    obtain ⟨h3, h4⟩ := ih (hls.openURL env p).plugin (by rw [h2]; exact hmax) (by rw [h2]; exact h1)
    rw [h2] at h3 h4
    exact ⟨h3, h4⟩

/-- C22 (segment limit): after a successful `start()` with `maxSegmentCount > 0`
and any sequence of `openURL()` calls, whatever their external outcomes, the
counter of consumed segments is at most `maxSegmentCount`; and once it has
reached `maxSegmentCount`, an `openURL()` call returns false, reloads nothing,
opens nothing and leaves the plugin (playlist and counter) unchanged. -/
theorem C22_segment_limit {σ : Type} (sel : hls.Selectors) (senv : hls.StartEnv σ)
    (p p' : hls.InputPlugin σ) (envs : List (hls.OpenEnv σ)) (env : hls.OpenEnv σ)
    (hmax : p.maxSegmentCount > 0) (hstart : hls.start sel senv p = some (.ok p')) :
    (hls.openURLs p' envs).segmentCount ≤ p.maxSegmentCount ∧
    ((hls.openURLs p' envs).segmentCount = p.maxSegmentCount →
      hls.openURL env (hls.openURLs p' envs) =
        { ret := false, reloads := 0, opened := none, plugin := hls.openURLs p' envs }) := by
  obtain ⟨h0, hm⟩ := start_counters sel senv p p' hstart
  obtain ⟨h1, h2⟩ := openURLs_counter envs p' (by rw [hm]; exact hmax) (by rw [h0]; omega)
  rw [hm] at h1 h2
  refine ⟨h1, ?_⟩
  intro heq
  exact openURL_limit_reached env _ (by rw [h2]; exact hmax) (by rw [h2, heq])

/-- Witness of C22: media playlist of three segments, `--segment-count 1`, two
calls of `openURL()`. -/
theorem C22_segment_limit_witness :
    (hls.openURLs
      ({ hls.InputPlugin.startingAt 0 with
          maxSegmentCount := 1, playlist := hls.PlayList.media [10, 11, 12] } : hls.InputPlugin Nat)
      [hls.OpenEnv.quiet, hls.OpenEnv.quiet]).segmentCount ≤ 1 :=
  (C22_segment_limit hls.Selectors.none (hls.StartEnv.direct (hls.PlayList.media [10, 11, 12]))
    ({ hls.InputPlugin.startingAt 0 with maxSegmentCount := 1 } : hls.InputPlugin Nat)
    ({ hls.InputPlugin.startingAt 0 with
        maxSegmentCount := 1, playlist := hls.PlayList.media [10, 11, 12] } : hls.InputPlugin Nat)
    [hls.OpenEnv.quiet, hls.OpenEnv.quiet] hls.OpenEnv.quiet (by decide) (by rfl)).1

/-- C23 (end of playlist): evaluation of `openURL()` on a playlist that is not
updatable.  After `start()` on a media playlist of one segment, the first call
pops that segment; the second call finds the playlist empty with one segment
consumed: it is not "completed", there is no reload, `request.open` is called
for the segment of an empty playlist and the counter of consumed segments goes
from 1 to 2. -/
theorem C23_pop_from_empty_playlist :
    hls.remaining (hls.start hls.Selectors.none
      (hls.StartEnv.direct (hls.PlayList.media [10])) (hls.InputPlugin.startingAt 0)) =
      some [10] ∧
    (hls.openURL hls.OpenEnv.quiet
      ({ hls.InputPlugin.startingAt 0 with playlist := hls.PlayList.media [10] })).opened =
      some (some 10) ∧
    (hls.openURL hls.OpenEnv.quiet
      ({ hls.InputPlugin.startingAt 0 with playlist := hls.PlayList.media [10] })).plugin =
      { hls.InputPlugin.startingAt 0 with playlist := hls.PlayList.media [], segmentCount := 1 } ∧
    (hls.openURL hls.OpenEnv.quiet
      ({ hls.InputPlugin.startingAt 0 with
          playlist := hls.PlayList.media [], segmentCount := 1 })).opened = some none ∧
    (hls.openURL hls.OpenEnv.quiet
      ({ hls.InputPlugin.startingAt 0 with
          playlist := hls.PlayList.media [], segmentCount := 1 })).reloads = 0 ∧
    (hls.openURL hls.OpenEnv.quiet
      ({ hls.InputPlugin.startingAt 0 with
          playlist := hls.PlayList.media [], segmentCount := 1 })).plugin.segmentCount = 2 := by
  refine ⟨by rfl, by rfl, by rfl, by rfl, by rfl, by rfl⟩

theorem multiSelect_pos {σ : Type} (p : hls.InputPlugin σ) :
    0 < hls.multiSelect p ↔
      (0 < p.minRate ∨ 0 < p.maxRate ∨ 0 < p.minWidth ∨ 0 < p.maxWidth ∨ 0 < p.minHeight ∨
        0 < p.maxHeight) := by
  unfold hls.multiSelect
  by_cases h1 : 0 < p.minRate <;> by_cases h2 : 0 < p.maxRate <;>
    by_cases h3 : 0 < p.minWidth <;> by_cases h4 : 0 < p.maxWidth <;>
    by_cases h5 : 0 < p.minHeight <;> by_cases h6 : 0 < p.maxHeight <;>
    simp [Bool.toNat, h1, h2, h3, h4, h5, h6]

/-- C24 (consistency of the selection options): with a valid URL and without
`--live`, `getOptions` fails if and only if more than one of the four options
`--lowest-bitrate`, `--highest-bitrate`, `--lowest-resolution`,
`--highest-resolution` is present, or one of them is present together with a
ranged option (minimum or maximum bitrate, width or height) greater than zero. -/
theorem C24_selection_consistency {σ : Type} (cl : hls.CommandLine) (p : hls.InputPlugin σ)
    (hurl : cl.urlValid = true) (hlive : cl.live = false) :
    (hls.getOptions cl p).1 = false ↔
      (2 ≤ cl.lowestBitrate.toNat + cl.highestBitrate.toNat + cl.lowestResolution.toNat +
            cl.highestResolution.toNat ∨
       ((cl.lowestBitrate = true ∨ cl.highestBitrate = true ∨ cl.lowestResolution = true ∨
           cl.highestResolution = true) ∧
        (cl.minBitrate > 0 ∨ cl.maxBitrate > 0 ∨ cl.minWidth > 0 ∨ cl.maxWidth > 0 ∨
           cl.minHeight > 0 ∨ cl.maxHeight > 0))) := by
  obtain ⟨u, sc, a, b, c, d, e, f, ss, f1, f2, f3, f4, lv, live⟩ := cl
  simp only at hurl hlive
  subst hurl hlive
  cases f1 <;> cases f2 <;> cases f3 <;> cases f4 <;>
    simp [hls.getOptions, hls.singleSelect, Bool.toNat, multiSelect_pos] <;>
    split <;> simp_all

/-- Witness of C24: `--lowest-bitrate` together with `--highest-bitrate`. -/
theorem C24_selection_consistency_witness :
    (hls.getOptions
      { urlValid := true, segmentCount := 0, minBitrate := 0, maxBitrate := 0, minWidth := 0,
        maxWidth := 0, minHeight := 0, maxHeight := 0, startSegment := 0,
        lowestBitrate := true, highestBitrate := true, lowestResolution := false,
        highestResolution := false, listVariants := false, live := false }
      (hls.InputPlugin.startingAt 0)).1 = false :=
  (C24_selection_consistency
    { urlValid := true, segmentCount := 0, minBitrate := 0, maxBitrate := 0, minWidth := 0,
      maxWidth := 0, minHeight := 0, maxHeight := 0, startSegment := 0,
      lowestBitrate := true, highestBitrate := true, lowestResolution := false,
      highestResolution := false, listVariants := false, live := false }
    (hls.InputPlugin.startingAt 0) rfl rfl).mpr (Or.inl (by decide))

/-! ## The fast strategy: current and next plugin -/

theorem fastEq_setInputLocked (opt : Options) (c : Core) (index : Nat) (a : Bool)
    (dir : Direction) (hf : opt.strategy = FAST_SWITCH) (h : c.curPlugin = c.nextPlugin) :
    (c.setInputLocked opt index a dir).curPlugin = (c.setInputLocked opt index a dir).nextPlugin := by
  unfold Core.setInputLocked
  split
  · exact h
  split
  · exact h
  split
  · split
    · rename_i hs; rw [hf] at hs; exact absurd hs (by decide)
    · rename_i hs; rw [hf] at hs; exact absurd hs (by decide)
    · split
      · split
        · rfl
        · exact h
      · exact h
  · exact h

theorem fastEq_handleWatchDogTimeout (opt : Options) (c : Core)
    (hf : opt.strategy = FAST_SWITCH) (h : c.curPlugin = c.nextPlugin) :
    (c.handleWatchDogTimeout opt).curPlugin = (c.handleWatchDogTimeout opt).nextPlugin := by
  unfold Core.handleWatchDogTimeout
  split
  · simp only
    rw [if_neg (by rw [hf]; simp)]
    exact fastEq_setInputLocked _ _ _ _ _ hf h
  · exact h

theorem fastEq_inputStarted (opt : Options) (c : Core) (index : Nat) (s : Bool)
    (h : c.curPlugin = c.nextPlugin) :
    (c.inputStarted opt index s).2.curPlugin = (c.inputStarted opt index s).2.nextPlugin := by
  unfold Core.inputStarted
  split
  · exact h
  · simp only
    split
    · exact h
    · split <;> exact h

theorem fastEq_inputReceived (opt : Options) (c : Core) (index : Nat)
    (hf : opt.strategy = FAST_SWITCH) (h : c.curPlugin = c.nextPlugin) :
    (c.inputReceived opt index).2.curPlugin = (c.inputReceived opt index).2.nextPlugin := by
  have hd : c.delayedCompletion opt index = c := by
    unfold Core.delayedCompletion
    rw [if_neg (by rw [hf]; simp)]
  have hp : (c.primaryPreemption opt index).curPlugin =
      (c.primaryPreemption opt index).nextPlugin := by
    rcases primaryPreemption_cases opt c index with he | he
    · rw [he]; exact h
    · rw [he.1, he.2.1]
  simp only [Core.inputReceived, hd]
  unfold Core.receivedOnCurrent
  split
  · exact hp
  · exact hp

theorem fastEq_inputStopped (opt : Options) (c : Core) (index : Nat) (s : Bool)
    (hf : opt.strategy = FAST_SWITCH) (h : c.curPlugin = c.nextPlugin) :
    (c.inputStopped opt index s).2.curPlugin = (c.inputStopped opt index s).2.nextPlugin := by
  have hm : (c.markStopped index).curPlugin = (c.markStopped index).nextPlugin := by
    rw [markStopped_eq]; exact h
  unfold Core.inputStopped
  split
  · exact h
  · simp only
    split
    · obtain ⟨_, _, h3, h4, _⟩ := stop_fields (c.markStopped index).cancelTimeout true
      rw [h3, h4]
      exact hm
    · unfold Core.afterInputStopped
      split
      · exact hm
      · split
        · exact fastEq_setInputLocked _ _ _ _ _ hf hm
        · exact hm
      · exact hm
      · rw [if_neg (by rw [hf]; simp)]
        exact hm

theorem fastEq_step (opt : Options) (c : Core) (ev : Event)
    (hf : opt.strategy = FAST_SWITCH) (h : c.curPlugin = c.nextPlugin) :
    (c.step opt ev).curPlugin = (c.step opt ev).nextPlugin := by
  cases ev with
  | setInput index => exact fastEq_setInputLocked _ _ _ _ _ hf h
  | nextInput => exact fastEq_setInputLocked _ _ _ _ _ hf h
  | previousInput => exact fastEq_setInputLocked _ _ _ _ _ hf h
  | stop success =>
    obtain ⟨_, _, h3, h4, _⟩ := stop_fields c success
    show (c.stop success).curPlugin = (c.stop success).nextPlugin
    rw [h3, h4]; exact h
  | inputStarted index success => exact fastEq_inputStarted _ _ _ _ h
  | inputReceived index => exact fastEq_inputReceived _ _ _ hf h
  | inputStopped index success => exact fastEq_inputStopped _ _ _ _ hf h
  | watchDogTimeout => exact fastEq_handleWatchDogTimeout _ _ hf h

theorem fastEq_steps (opt : Options) (evs : List Event) (hf : opt.strategy = FAST_SWITCH) :
    ∀ c : Core, c.curPlugin = c.nextPlugin →
      (evs.foldl (Core.step opt) c).curPlugin = (evs.foldl (Core.step opt) c).nextPlugin := by
  induction evs with
  | nil => intro c h; exact h
  | cons ev evs ih => intro c h; exact ih _ (fastEq_step opt c ev hf h)

theorem started_cur_next (opt : Options) :
    (Core.started opt).curPlugin = opt.firstInput ∧
    (Core.started opt).nextPlugin = opt.firstInput := by
  obtain ⟨n1, n2, _⟩ := new_fields opt
  obtain ⟨_, _, s3, s4, _⟩ :=
    start_effect opt StartEnv.success (Core.new opt) n1 n2 (allOk_success _)
  rw [← started_eq] at s3 s4
  exact ⟨s3, s4⟩

/-- C25 (FAST invariant): under the FAST strategy, in every state reached from a
successful `start()` by any sequence of commands and events, `curPlugin ==
nextPlugin`, and the assertions `_curPlugin == _nextPlugin` of `setInputLocked`
and of `inputStarted` hold for every call made in that state. -/
theorem C25_fast_invariant (opt : Options) (evs : List Event)
    (hfast : opt.strategy = FAST_SWITCH) :
    (evs.foldl (Core.step opt) (Core.started opt)).curPlugin =
      (evs.foldl (Core.step opt) (Core.started opt)).nextPlugin ∧
    (∀ index, (evs.foldl (Core.step opt) (Core.started opt)).setInputLockedAssert opt index =
      true) ∧
    (∀ index, (evs.foldl (Core.step opt) (Core.started opt)).inputStartedAssert opt index =
      true) := by
  have h := fastEq_steps opt evs hfast (Core.started opt)
    (by rw [(started_cur_next opt).1, (started_cur_next opt).2])
  generalize evs.foldl (Core.step opt) (Core.started opt) = c at h
  refine ⟨h, ?_, ?_⟩
  · intro index
    unfold Core.setInputLockedAssert
    split
    · exact decide_eq_true h
    · rfl
  · intro index
    unfold Core.inputStartedAssert
    split
    · rfl
    · split
      · rfl
      · rw [hfast]
        exact decide_eq_true h

/-- Witness of C25: fast strategy with a primary input, after `start()`,
`inputStarted(0)`, the pre-emption by `inputReceived(1)` and a `setInput(0)`. -/
theorem C25_fast_invariant_witness :
    ([Event.inputStarted 0 true, Event.inputReceived 1, Event.setInput 0].foldl
      (Core.step Options.fastWithPrimary) (Core.started Options.fastWithPrimary)).curPlugin =
    ([Event.inputStarted 0 true, Event.inputReceived 1, Event.setInput 0].foldl
      (Core.step Options.fastWithPrimary) (Core.started Options.fastWithPrimary)).nextPlugin :=
  (C25_fast_invariant Options.fastWithPrimary
    [Event.inputStarted 0 true, Event.inputReceived 1, Event.setInput 0] (by decide)).1

/-! ## The switch step of each strategy -/

/-- C26 (SEQUENTIAL switch step): under SEQUENTIAL, for every core that is RUNNING
and every valid target other than `nextPlugin`, `setInputLocked(target,
abortCurrent, dir)` sets `nextPlugin = target` and the timeout to "none".  When
`curPlugin` is the primary input, no input is stopped: `curPlugin = target`, the
target is marked STARTING and started with flow control on (the only changes to
the input states and executors), state STARTING_NEXT.  Otherwise `curPlugin` is
marked STOPPING, its executor gets a stop request, after an abort of its input
exactly when `abortCurrent` (the only changes), `curPlugin` is unchanged and the
state is STOPPING_PREVIOUS. -/
theorem C26_sequential_switch_step (opt : Options) (c : Core) (target : Nat)
    (abortCurrent : Bool) (dir : Direction)
    (hstrat : opt.strategy = SEQUENTIAL_SWITCH) (hstate : c.state = CORE_RUNNING)
    (hvalid : target < c.size) (hnext : target ≠ c.nextPlugin) :
    (c.setInputLocked opt target abortCurrent dir).nextPlugin = target ∧
    (c.setInputLocked opt target abortCurrent dir).timeoutPlugin = c.size ∧
    (c.curPlugin = opt.primaryInput →
      (c.setInputLocked opt target abortCurrent dir).curPlugin = target ∧
      (c.setInputLocked opt target abortCurrent dir).state = CORE_STARTING_NEXT ∧
      (c.setInputLocked opt target abortCurrent dir).inStates =
        c.inStates.set target INPUT_STARTING ∧
      (c.setInputLocked opt target abortCurrent dir).inputs =
        c.inputs.modify (fun e => e.startInput true) target ∧
      (c.setInputLocked opt target abortCurrent dir).flow target = some true) ∧
    (c.curPlugin ≠ opt.primaryInput →
      (c.setInputLocked opt target abortCurrent dir).curPlugin = c.curPlugin ∧
      (c.setInputLocked opt target abortCurrent dir).state = CORE_STOPPING_PREVIOUS ∧
      (c.setInputLocked opt target abortCurrent dir).inStates =
        c.inStates.set c.curPlugin INPUT_STOPPING ∧
      (c.setInputLocked opt target abortCurrent dir).inputs =
        c.inputs.modify
          (fun e => (if abortCurrent then e.abortInput else e).stopInput) c.curPlugin) := by
  have hv : ¬ target ≥ c.size := by omega
  unfold Core.setInputLocked
  rw [if_neg hnext, if_neg hv]
  split
  · split
    · simp only
      by_cases hp : c.curPlugin = opt.primaryInput
      · have hp' : ({ c with nextPlugin := target } : Core).cancelTimeout.curPlugin =
            opt.primaryInput := hp
        rw [if_pos hp']
        refine ⟨rfl, rfl, fun _ => ⟨rfl, rfl, rfl, rfl, ?_⟩, fun h => absurd hp h⟩
        exact flow_startPlugin_self _ target hvalid
      · have hp' : ¬ ({ c with nextPlugin := target } : Core).cancelTimeout.curPlugin =
            opt.primaryInput := hp
        rw [if_neg hp']
        refine ⟨?_, ?_, fun h => absurd h hp, fun _ => ⟨?_, ?_, ?_, ?_⟩⟩
        · rw [stopPlugin_nextPlugin]; rfl
        · rw [stopPlugin_timeoutPlugin]; rfl
        · rw [stopPlugin_curPlugin]; rfl
        · rw [stopPlugin_state]
        · rw [stopPlugin_inStates]; rfl
        · cases abortCurrent
          · simp [Core.stopPlugin, Core.onInput, Core.cancelTimeout]
          · simp [Core.stopPlugin, Core.onInput, Core.cancelTimeout, List.modify_modify_eq]
            rfl
    · rename_i hs; rw [hstrat] at hs; exact absurd hs (by decide)
    · rename_i hs; rw [hstrat] at hs; exact absurd hs (by decide)
  · rename_i hns
    exact absurd hstate hns

/-- Witness of C26: sequential strategy, input 0 current and RUNNING, input 1 the
primary: `setInput(1)` stops input 0. -/
theorem C26_sequential_switch_step_witness :
    (((Core.started Options.sequentialWithPrimary).step Options.sequentialWithPrimary
        (.inputStarted 0 true)).setInputLocked Options.sequentialWithPrimary 1 false
        UNCHANGED).nextPlugin = 1 :=
  (C26_sequential_switch_step Options.sequentialWithPrimary
    ((Core.started Options.sequentialWithPrimary).step Options.sequentialWithPrimary
      (.inputStarted 0 true)) 1 false UNCHANGED
    (by decide) (by decide) (by decide) (by decide)).1

/-- C29 (delayed switch abort on timeout): under DELAYED, for every core in state
STARTING_NEXT whose `timeoutPlugin` is a valid index equal to `nextPlugin`, the
watchdog handler first passes to the core `r` in which `nextPlugin` (unless it
is the primary input) is marked STOPPING with its input aborted and a stop
request, `nextPlugin` is reverted to `curPlugin` and the state is RUNNING, and
then performs `setInputLocked(nextInputIndex(timeoutPlugin, UPWARD), false,
UPWARD)` from `r`. -/
theorem C29_delayed_abort_on_timeout (opt : Options) (c : Core)
    (hstrat : opt.strategy = DELAYED_SWITCH) (hstate : c.state = CORE_STARTING_NEXT)
    (hvalid : c.timeoutPlugin < c.size) (htime : c.timeoutPlugin = c.nextPlugin) :
    ∃ r : Core,
      c.handleWatchDogTimeout opt =
        r.setInputLocked opt (r.nextInputIndex c.timeoutPlugin UPWARD) false UPWARD ∧
      r.state = CORE_RUNNING ∧ r.nextPlugin = c.curPlugin ∧ r.curPlugin = c.curPlugin ∧
      r.timeoutPlugin = c.timeoutPlugin ∧ r.size = c.size ∧
      (c.nextPlugin ≠ opt.primaryInput →
        r.inStates = c.inStates.set c.nextPlugin INPUT_STOPPING ∧
        r.inputs = c.inputs.modify (fun e => e.abortInput.stopInput) c.nextPlugin) ∧
      (c.nextPlugin = opt.primaryInput → r.inStates = c.inStates ∧ r.inputs = c.inputs) := by
  unfold Core.handleWatchDogTimeout
  rw [if_pos hvalid, if_pos ⟨hstrat, hstate, htime⟩]
  by_cases hp : c.nextPlugin = opt.primaryInput
  · refine ⟨{ c with nextPlugin := c.curPlugin, state := CORE_RUNNING }, ?_, rfl, rfl, rfl, rfl,
      rfl, fun h => absurd hp h, fun _ => ⟨rfl, rfl⟩⟩
    simp only [ne_eq, hp, not_true_eq_false, if_false]
  · refine ⟨{ c.stopPlugin c.nextPlugin true with
        nextPlugin := (c.stopPlugin c.nextPlugin true).curPlugin, state := CORE_RUNNING },
      ?_, rfl, ?_, ?_, ?_, ?_, fun _ => ⟨?_, ?_⟩, fun h => absurd h hp⟩
    · simp only [ne_eq, hp, not_false_eq_true, if_true]
      rw [stopPlugin_timeoutPlugin]
    · exact stopPlugin_curPlugin _ _ _
    · exact stopPlugin_curPlugin _ _ _
    · exact stopPlugin_timeoutPlugin _ _ _
    · exact stopPlugin_size _ _ _
    · exact stopPlugin_inStates _ _ _
    · simp [Core.stopPlugin, Core.onInput, List.modify_modify_eq]
      rfl

/-- Witness of C29: delayed strategy, after `start()` and `inputStarted(0)` the
timeout is placed on input 0, which is both the current and the next plugin. -/
theorem C29_delayed_abort_on_timeout_witness :
    ∃ r : Core,
      (([Event.inputStarted 0 true].foldl (Core.step Options.twoDelayed)
          (Core.started Options.twoDelayed)).handleWatchDogTimeout Options.twoDelayed) =
        r.setInputLocked Options.twoDelayed
          (r.nextInputIndex
            ([Event.inputStarted 0 true].foldl (Core.step Options.twoDelayed)
              (Core.started Options.twoDelayed)).timeoutPlugin UPWARD)
          false UPWARD ∧
      r.state = CORE_RUNNING :=
  (C29_delayed_abort_on_timeout Options.twoDelayed
    ([Event.inputStarted 0 true].foldl (Core.step Options.twoDelayed)
      (Core.started Options.twoDelayed))
    (by decide) (by decide) (by decide) (by decide)).imp
    (fun _ h => ⟨h.1, h.2.1⟩)

/-! ## The search loop of the fast strategy -/

theorem mod_add_ne (index k n : Nat) (hi : index < n) (hk0 : 0 < k) (hk : k < n) :
    (index + k) % n ≠ index := by
  rcases Nat.lt_or_ge (index + k) n with h | h
  · rw [Nat.mod_eq_of_lt h]; omega
  · rw [Nat.mod_eq_sub_mod h, Nat.mod_eq_of_lt (by omega)]; omega

theorem visit_upward (c : Core) (index : Nat) (hi : index < c.size) :
    ∀ k, c.visit index UPWARD k = (index + k) % c.size := by
  intro k
  induction k with
  | zero => simp [Core.visit, Nat.mod_eq_of_lt hi]
  | succ k ih =>
    simp only [Core.visit, ih, Core.nextInputIndex]
    exact upward_step index k c.size

theorem visit_downward (c : Core) (index : Nat) (hi : index < c.size) :
    ∀ k, k ≤ c.size → c.visit index DOWNWARD k = (index + (c.size - k)) % c.size := by
  intro k
  induction k with
  | zero => intro _; simp [Core.visit, Nat.mod_eq_of_lt hi]
  | succ k ih =>
    intro hk
    simp only [Core.visit, ih (by omega), Core.nextInputIndex]
    rw [downward_step index (c.size - k) c.size (by omega) (by omega)]
    congr 2

theorem visit_end (c : Core) (index : Nat) (dir : Direction) (hi : index < c.size) :
    c.visit index dir c.size = index := by
  cases dir with
  | UPWARD => rw [visit_upward c index hi, Nat.add_mod_right, Nat.mod_eq_of_lt hi]
  | DOWNWARD =>
    rw [visit_downward c index hi _ (Nat.le_refl _), Nat.sub_self, Nat.add_zero,
      Nat.mod_eq_of_lt hi]
  | UNCHANGED =>
    generalize c.size = n
    induction n with
    | zero => rfl
    | succ n ih => simp only [Core.visit, ih, Core.nextInputIndex]

theorem visit_ne_start (c : Core) (index : Nat) (dir : Direction) (hd : dir ≠ UNCHANGED)
    (hi : index < c.size) (k : Nat) (hk0 : 0 < k) (hk : k < c.size) :
    c.visit index dir k ≠ index := by
  cases dir with
  | UPWARD => rw [visit_upward c index hi]; exact mod_add_ne index k c.size hi hk0 hk
  | DOWNWARD =>
    rw [visit_downward c index hi k (by omega)]
    exact mod_add_ne index (c.size - k) c.size hi (by omega) (by omega)
  | UNCHANGED => exact absurd rfl hd

theorem fastTarget_spec (c : Core) (index : Nat) (dir : Direction) (hd : dir ≠ UNCHANGED)
    (hi : index < c.size) :
    ∀ fuel k, k < c.size → c.size ≤ fuel + k →
      (∃ t, k ≤ t ∧ t < c.size ∧ c.inStates[c.visit index dir t]? = some INPUT_RUNNING ∧
        (∀ j, k ≤ j → j < t → c.inStates[c.visit index dir j]? ≠ some INPUT_RUNNING) ∧
        c.fastTarget index dir fuel (c.visit index dir k) = some (some (c.visit index dir t))) ∨
      ((∀ j, k ≤ j → j < c.size → c.inStates[c.visit index dir j]? ≠ some INPUT_RUNNING) ∧
        c.fastTarget index dir fuel (c.visit index dir k) = some none) := by
  intro fuel
  induction fuel with
  | zero => intro k hk hf; omega
  | succ f ih =>
    intro k hk hf
    unfold Core.fastTarget
    by_cases hr : c.inStates[c.visit index dir k]? = some INPUT_RUNNING
    · left
      refine ⟨k, Nat.le_refl _, hk, hr, fun j h1 h2 => by omega, ?_⟩
      rw [if_neg (by simpa using hr)]
    · rw [if_pos hr, if_neg hd]
      simp only
      have hv : c.nextInputIndex (c.visit index dir k) dir = c.visit index dir (k + 1) := rfl
      rw [hv]
      by_cases he : c.visit index dir (k + 1) = index
      · right
        rw [if_pos he]
        refine ⟨?_, rfl⟩
        intro j h1 h2
        have hk1 : ¬ k + 1 < c.size := fun h =>
          visit_ne_start c index dir hd hi (k + 1) (by omega) h he
        have : j = k := by omega
        rw [this]; exact hr
      · rw [if_neg he]
        have hk1 : k + 1 < c.size := by
          rcases Nat.lt_or_ge (k + 1) c.size with h | h
          · exact h
          · exfalso
            apply he
            have : k + 1 = c.size := by omega
            rw [this]; exact visit_end c index dir hi
        rcases ih (k + 1) hk1 (by omega) with ⟨t, h1, h2, h3, h4, h5⟩ | ⟨h1, h2⟩
        · left
          refine ⟨t, by omega, h2, h3, ?_, h5⟩
          intro j hj1 hj2
          rcases Nat.eq_or_lt_of_le hj1 with h | h
          · rw [← h]; exact hr
          · exact h4 j (by omega) hj2
        · right
          refine ⟨?_, h2⟩
          intro j hj1 hj2
          rcases Nat.eq_or_lt_of_le hj1 with h | h
          · rw [← h]; exact hr
          · exact h1 j (by omega) hj2

theorem setInputLocked_fast (opt : Options) (c : Core) (index : Nat) (a : Bool)
    (dir : Direction) (hstrat : opt.strategy = FAST_SWITCH) (hstate : c.state = CORE_RUNNING)
    (hvalid : index < c.size) (hne : index ≠ c.nextPlugin) :
    (∀ t, c.fastTarget index dir c.size index = some (some t) →
      c.setInputLocked opt index a dir = c.fastSwitch t) ∧
    (c.fastTarget index dir c.size index = some none → c.setInputLocked opt index a dir = c) := by
  have hv : ¬ index ≥ c.size := by omega
  unfold Core.setInputLocked
  rw [if_neg hne, if_neg hv]
  split
  · split
    · rename_i hs; rw [hstrat] at hs; exact absurd hs (by decide)
    · rename_i hs; rw [hstrat] at hs; exact absurd hs (by decide)
    · refine ⟨?_, ?_⟩
      · intro t ht
        rw [ht]
        simp only
        unfold Core.fastSwitch
        by_cases htc : t = c.curPlugin
        · rw [if_neg (by simpa using htc), if_pos htc]
        · rw [if_pos htc, if_neg htc]
          rfl
      · intro ht
        rw [ht]
  · rename_i hns
    exact absurd hstate hns

/-! ## The pre-emption loop -/

theorem stopPlugin_inputs (c : Core) (i : Nat) :
    (c.stopPlugin i true).inputs = c.inputs.modify (fun e => e.abortInput.stopInput) i := by
  simp [Core.stopPlugin, Core.onInput, List.modify_modify_eq]
  rfl

theorem stopOthers_loop (index : Nat) (c : Core) (hwf : c.WellFormed) :
    ∀ n, n ≤ c.size →
      (∀ i, (forRange n
          (fun c i =>
            if i ≠ index ∧ c.inStates[i]? ≠ some INPUT_STOPPING ∧
                c.inStates[i]? ≠ some INPUT_STOPPED then
              c.stopPlugin i true
            else c) c).inStates[i]? =
        if i < n ∧ c.toStop index i then some INPUT_STOPPING else c.inStates[i]?) ∧
      (∀ i, (forRange n
          (fun c i =>
            if i ≠ index ∧ c.inStates[i]? ≠ some INPUT_STOPPING ∧
                c.inStates[i]? ≠ some INPUT_STOPPED then
              c.stopPlugin i true
            else c) c).inputs[i]? =
        if i < n ∧ c.toStop index i then (c.inputs[i]?).map (fun e => e.abortInput.stopInput)
        else c.inputs[i]?) := by
  intro n
  induction n with
  | zero =>
    intro _
    refine ⟨fun i => ?_, fun i => ?_⟩ <;> simp [forRange]
  | succ n ih =>
    intro hn
    obtain ⟨ih1, ih2⟩ := ih (by omega)
    rw [forRange_succ]
    generalize forRange n _ c = r at ih1 ih2 ⊢
    have hrn : r.inStates[n]? = c.inStates[n]? := by
      rw [ih1 n, if_neg (by omega)]
    have hlen : n < c.inStates.length := by
      unfold Core.WellFormed at hwf
      rw [hwf]; exact hn
    by_cases hc : c.toStop index n
    · have hc' := hc
      unfold Core.toStop at hc'
      rw [← hrn] at hc'
      rw [if_pos hc']
      refine ⟨fun i => ?_, fun i => ?_⟩
      · rw [stopPlugin_inStates, List.getElem?_set]
        by_cases hi : n = i
        · subst hi
          have hl : n < r.inStates.length := by
            rcases Nat.lt_or_ge n r.inStates.length with h | h
            · exact h
            · have h1 := List.getElem?_eq_none h
              rw [hrn, List.getElem?_eq_getElem hlen] at h1
              exact absurd h1 (by simp)
          rw [if_pos rfl, if_pos hl, if_pos ⟨by omega, hc⟩]
        · rw [if_neg hi, ih1 i]
          by_cases hin : i < n
          · by_cases hci : c.toStop index i
            · rw [if_pos ⟨hin, hci⟩, if_pos ⟨by omega, hci⟩]
            · rw [if_neg (fun h => hci h.2), if_neg (fun h => hci h.2)]
          · rw [if_neg (fun h => hin h.1), if_neg (fun h => by omega)]
      · rw [stopPlugin_inputs, List.getElem?_modify, ih2 i]
        by_cases hi : n = i
        · subst hi
          simp [hc]
        · have hlt : (i < n + 1 ∧ c.toStop index i) ↔ (i < n ∧ c.toStop index i) := by
            constructor <;> (intro h; exact ⟨by omega, h.2⟩)
          simp only [hlt]
          simp [hi]
    · have hc' : ¬ (n ≠ index ∧ r.inStates[n]? ≠ some INPUT_STOPPING ∧
          r.inStates[n]? ≠ some INPUT_STOPPED) := by
        rw [hrn]; exact hc
      rw [if_neg hc']
      refine ⟨fun i => ?_, fun i => ?_⟩
      · rw [ih1 i]
        by_cases hi : i = n
        · subst hi
          rw [if_neg (fun h => by omega), if_neg (fun h => hc h.2)]
        · by_cases hci : c.toStop index i
          · by_cases hin : i < n
            · rw [if_pos ⟨hin, hci⟩, if_pos ⟨by omega, hci⟩]
            · rw [if_neg (fun h => hin h.1), if_neg (fun h => by omega)]
          · rw [if_neg (fun h => hci h.2), if_neg (fun h => hci h.2)]
      · rw [ih2 i]
        by_cases hi : i = n
        · subst hi
          rw [if_neg (fun h => by omega), if_neg (fun h => hc h.2)]
        · by_cases hci : c.toStop index i
          · by_cases hin : i < n
            · rw [if_pos ⟨hin, hci⟩, if_pos ⟨by omega, hci⟩]
            · rw [if_neg (fun h => hin h.1), if_neg (fun h => by omega)]
          · rw [if_neg (fun h => hci h.2), if_neg (fun h => hci h.2)]

/-- C27 (FAST switch step): under FAST, for every core that is RUNNING and every
valid index other than `nextPlugin` (whether or not `curPlugin == nextPlugin`),
the search loop of `setInputLocked(index, dir)` ends within as many iterations
as there are inputs.  With `dir` UPWARD or DOWNWARD the target is the first
input RUNNING among those visited from `index` in direction `dir`, and the core
is unchanged when none of them is RUNNING; with `dir` UNCHANGED the target is
`index` when it is RUNNING and the core is unchanged otherwise.  The switch to
the target is `fastSwitch`: nothing when it is the current plugin, otherwise
flow control cleared on the old current plugin, `curPlugin = nextPlugin =
target`, flow control set on the target and the timeout restarted on it. -/
theorem C27_fast_switch_step (opt : Options) (c : Core) (index : Nat) (a : Bool)
    (dir : Direction) (hstrat : opt.strategy = FAST_SWITCH) (hstate : c.state = CORE_RUNNING)
    (hvalid : index < c.size) (hne : index ≠ c.nextPlugin) :
    c.fastTarget index dir c.size index ≠ none ∧
    (dir ≠ UNCHANGED →
      (∃ k, k < c.size ∧ c.inStates[c.visit index dir k]? = some INPUT_RUNNING ∧
        (∀ j, j < k → c.inStates[c.visit index dir j]? ≠ some INPUT_RUNNING) ∧
        c.setInputLocked opt index a dir = c.fastSwitch (c.visit index dir k)) ∨
      ((∀ j, j < c.size → c.inStates[c.visit index dir j]? ≠ some INPUT_RUNNING) ∧
        c.setInputLocked opt index a dir = c)) ∧
    (dir = UNCHANGED →
      (c.inStates[index]? = some INPUT_RUNNING →
        c.setInputLocked opt index a dir = c.fastSwitch index) ∧
      (c.inStates[index]? ≠ some INPUT_RUNNING → c.setInputLocked opt index a dir = c)) ∧
    ((∀ i : Nat, c.inStates[i]? ≠ some INPUT_RUNNING) → c.setInputLocked opt index a dir = c) := by
  obtain ⟨hsw, hno⟩ := setInputLocked_fast opt c index a dir hstrat hstate hvalid hne
  have hB : dir ≠ UNCHANGED →
      (∃ k, k < c.size ∧ c.inStates[c.visit index dir k]? = some INPUT_RUNNING ∧
        (∀ j, j < k → c.inStates[c.visit index dir j]? ≠ some INPUT_RUNNING) ∧
        c.setInputLocked opt index a dir = c.fastSwitch (c.visit index dir k)) ∨
      ((∀ j, j < c.size → c.inStates[c.visit index dir j]? ≠ some INPUT_RUNNING) ∧
        c.setInputLocked opt index a dir = c) := by
    intro hd
    rcases fastTarget_spec c index dir hd hvalid c.size 0 (by omega) (by omega) with
      ⟨t, _, h2, h3, h4, h5⟩ | ⟨h1, h2⟩
    · left
      exact ⟨t, h2, h3, fun j hj => h4 j (Nat.zero_le _) hj, hsw _ h5⟩
    · right
      exact ⟨fun j hj => h1 j (Nat.zero_le _) hj, hno h2⟩
  have hC : dir = UNCHANGED →
      (c.inStates[index]? = some INPUT_RUNNING →
        c.setInputLocked opt index a dir = c.fastSwitch index) ∧
      (c.inStates[index]? ≠ some INPUT_RUNNING → c.setInputLocked opt index a dir = c) := by
    intro hd
    obtain ⟨f, hf⟩ : ∃ f, c.size = f + 1 := ⟨c.size - 1, by omega⟩
    refine ⟨fun hr => hsw _ ?_, fun hr => hno ?_⟩
    · rw [hf]; unfold Core.fastTarget
      rw [if_neg (by simpa using hr)]
    · rw [hf]; unfold Core.fastTarget
      rw [if_pos hr, if_pos hd]
  refine ⟨fastTarget_terminates c index dir hvalid, hB, hC, ?_⟩
  intro hall
  by_cases hd : dir = UNCHANGED
  · exact (hC hd).2 (hall _)
  · rcases hB hd with ⟨k, _, hr, _⟩ | ⟨_, h⟩
    · exact absurd hr (hall _)
    · exact h

/-- Witness of C27: two inputs RUNNING, input 0 current, the core put in state
RUNNING: `nextInput()` switches to input 1. -/
theorem C27_fast_switch_step_witness :
    ({ [Event.inputStarted 0 true, Event.inputStarted 1 true].foldl
        (Core.step Options.fastWithPrimary) (Core.started Options.fastWithPrimary) with
        state := CORE_RUNNING } : Core).fastTarget 1 UPWARD 2 1 ≠ none :=
  (C27_fast_switch_step Options.fastWithPrimary
    { [Event.inputStarted 0 true, Event.inputStarted 1 true].foldl
        (Core.step Options.fastWithPrimary) (Core.started Options.fastWithPrimary) with
        state := CORE_RUNNING } 1 false UPWARD
    (by decide) (by decide) (by decide) (by decide)).1

/-- C28 (pre-emption side effects): `inputReceived(p)` on a well-formed core, `p`
being the primary input, when the pre-emption is made, that is when the current
plugin is not `p` at the test of the pre-emption (then it was not `p` at the
call and no delayed switch was completed by the call).  The current and next
plugin become `p`.  Under FAST no input state changes and the only change to
the executors is flow control cleared on the old current plugin and on the old
next plugin when it differs from both the old current plugin and `p`.  Under
SEQUENTIAL and DELAYED every input other than `p` that is neither STOPPING nor
STOPPED becomes STOPPING, its executor getting an abort and a stop request;
every other input, the primary among them, keeps its state and its executor. -/
theorem C28_preemption_effects (opt : Options) (c : Core) (p : Nat)
    (hp : p = opt.primaryInput) (hwf : c.WellFormed)
    (hpre : (c.delayedCompletion opt p).curPlugin ≠ opt.primaryInput) :
    c.delayedCompletion opt p = c ∧ c.curPlugin ≠ p ∧
    (c.inputReceived opt p).2.curPlugin = p ∧ (c.inputReceived opt p).2.nextPlugin = p ∧
    (opt.strategy = FAST_SWITCH →
      (c.inputReceived opt p).2.inStates = c.inStates ∧
      (c.inputReceived opt p).2.inputs =
        if c.nextPlugin ≠ c.curPlugin ∧ c.nextPlugin ≠ p then
          (c.inputs.modify (fun e => e.setFlowControl false) c.curPlugin).modify
            (fun e => e.setFlowControl false) c.nextPlugin
        else c.inputs.modify (fun e => e.setFlowControl false) c.curPlugin) ∧
    (opt.strategy ≠ FAST_SWITCH → ∀ i, i < c.size →
      (c.toStop p i →
        (c.inputReceived opt p).2.inStates[i]? = some INPUT_STOPPING ∧
        (c.inputReceived opt p).2.inputs[i]? =
          (c.inputs[i]?).map (fun e => e.abortInput.stopInput)) ∧
      (¬ c.toStop p i →
        (c.inputReceived opt p).2.inStates[i]? = c.inStates[i]? ∧
        (c.inputReceived opt p).2.inputs[i]? = c.inputs[i]?)) := by
  have hd : c.delayedCompletion opt p = c := by
    rcases delayedCompletion_cases opt c p with he | he
    · exact he
    · exact absurd (he.1.trans hp) hpre
  rw [hd] at hpre
  have hcp : c.curPlugin ≠ p := by rw [hp]; exact hpre
  have hrc : ∀ d : Core, d.curPlugin = p →
      (d.receivedOnCurrent p) = d.restartTimeout d.curPlugin := by
    intro d hdc
    unfold Core.receivedOnCurrent
    rw [if_pos hdc.symm]
  have hpc : (c.primaryPreemption opt p).curPlugin = p := by
    unfold Core.primaryPreemption
    rw [if_pos ⟨hp, hpre⟩]
  simp only [Core.inputReceived, hd]
  rw [hrc _ hpc]
  unfold Core.primaryPreemption
  rw [if_pos ⟨hp, hpre⟩]
  refine ⟨trivial, hcp, rfl, rfl, ?_, ?_⟩
  · intro hf
    rw [if_pos hf]
    simp only [Core.restartTimeout, Core.onInput]
    by_cases hn : c.nextPlugin ≠ c.curPlugin ∧ c.nextPlugin ≠ p
    · rw [if_pos hn, if_pos hn]
      exact ⟨rfl, rfl⟩
    · rw [if_neg hn, if_neg hn]
      exact ⟨rfl, rfl⟩
  · intro hf i hi
    rw [if_neg hf]
    obtain ⟨h1, h2⟩ := stopOthers_loop p c hwf c.size (Nat.le_refl _)
    simp only [Core.restartTimeout]
    refine ⟨fun hs => ⟨?_, ?_⟩, fun hs => ⟨?_, ?_⟩⟩
    · exact (h1 i).trans (if_pos ⟨hi, hs⟩)
    · exact (h2 i).trans (if_pos ⟨hi, hs⟩)
    · exact (h1 i).trans (if_neg (fun h => hs h.2))
    · exact (h2 i).trans (if_neg (fun h => hs h.2))

/-- Witness of C28: sequential strategy, input 0 current and RUNNING, the primary
input 1 started: its first packets pre-empt input 0. -/
theorem C28_preemption_effects_witness :
    (([Event.inputStarted 0 true, Event.inputStarted 1 true].foldl
        (Core.step Options.sequentialWithPrimary)
        (Core.started Options.sequentialWithPrimary)).inputReceived
        Options.sequentialWithPrimary 1).2.curPlugin = 1 :=
  (C28_preemption_effects Options.sequentialWithPrimary
    ([Event.inputStarted 0 true, Event.inputStarted 1 true].foldl
      (Core.step Options.sequentialWithPrimary) (Core.started Options.sequentialWithPrimary))
    1 (by decide) (by decide) (by decide)).2.2.1

/-! ## A session that fails to start -/

theorem inputStarted_inputs (opt : Options) (c : Core) (index : Nat) (s : Bool) :
    (c.inputStarted opt index s).2.inputs = c.inputs := by
  unfold Core.inputStarted
  split
  · rfl
  · simp only
    split
    · rfl
    · split <;> rfl

theorem sessionWait_failed (opt : Options) (index : Nat) (t : ExecThread) (c c2 : Core)
    (e0 : InputExecutor) (he : c.inputs[index]? = some e0) (hnt : e0.terminated = false)
    (hstart : 0 < e0.startRequests) (hs1 : e0.startRequests < SIZE_MOD)
    (hs2 : e0.stopRequests < SIZE_MOD)
    (hc2 : c2 = if e0.stopRequests = 0 then c.onInput index InputExecutor.resetBuffer
      else ((c.onInput index InputExecutor.resetBuffer).inputStopped opt index t.stopStatus).2)
    (hnt2 : (c2.inputs[index]?).any (fun e => e.terminated) = false) :
    System.sessionWait opt index false t c =
      some ({ t with
              startStatus := false
              phase := if (((c2.inputStarted opt index false).2.onInput index (fun e =>
                  { e with startRequests := subSize e.startRequests e0.startRequests
                           stopRequests := subSize e.stopRequests e0.stopRequests })).inputs[index]?).any
                    (fun e => e.terminated) then .exited else .waiting },
            (c2.inputStarted opt index false).2.onInput index (fun e =>
              { e with startRequests := subSize e.startRequests e0.startRequests
                       stopRequests := subSize e.stopRequests e0.stopRequests })) := by
  unfold System.sessionWait
  rw [he]
  simp only [hnt, Bool.false_eq_true, if_false]
  rw [if_neg (by omega), notifyLoop_two _ _ _ hs2, ← hc2]
  simp only [Option.some_bind, hnt2, Bool.not_false, true_and, decide_eq_true_eq]
  rw [if_pos (by simpa using hstart), notifyLoop_two _ _ _ hs1, if_neg (by omega)]
  simp


/-- C30 (failed session start): the thread of executor `index` is waiting for a
session, a start request is pending, and after the stop notifications (core
`c2`) the executor is not terminated, so the plugin is started; its `start()`
returns false.  The step is taken: the core is notified with
`inputStarted(index, false)` and the request counters are updated; the local
`startStatus` is false and the thread does not pass to the receive loop, so no
step of the receive loop (no receive call, no `inputReceived`) can be taken by
this thread; the ring of the executor (`_outFirst`, `_outCount`) is as it was
when the plugin was started. -/
theorem C30_failed_session_start (opt : Options) (s : System) (index : Nat) (t : ExecThread)
    (e0 : InputExecutor) (c2 : Core)
    (ht : s.threads[index]? = some t) (hph : t.phase = .waiting)
    (he : s.core.inputs[index]? = some e0) (hnt : e0.terminated = false)
    (hstart : 0 < e0.startRequests) (hs1 : e0.startRequests < SIZE_MOD)
    (hs2 : e0.stopRequests < SIZE_MOD)
    (hc2 : c2 = if e0.stopRequests = 0 then s.core.onInput index InputExecutor.resetBuffer
      else ((s.core.onInput index InputExecutor.resetBuffer).inputStopped opt index
        t.stopStatus).2)
    (hnt2 : (c2.inputs[index]?).any (fun e => e.terminated) = false) :
    ∃ s1 t1, s.step opt (.sessionWait index false) = some s1 ∧
      s1.core = (c2.inputStarted opt index false).2.onInput index (fun e =>
        { e with startRequests := subSize e.startRequests e0.startRequests
                 stopRequests := subSize e.stopRequests e0.stopRequests }) ∧
      s1.threads[index]? = some t1 ∧ t1.startStatus = false ∧ t1.phase ≠ .receiving ∧
      (∀ received, s1.step opt (.receive index received) = none) ∧
      (s1.core.inputs[index]?).map (fun e => (e.outFirst, e.outCount)) =
        (c2.inputs[index]?).map (fun e => (e.outFirst, e.outCount)) := by
  have hw := sessionWait_failed opt index t s.core c2 e0 he hnt hstart hs1 hs2 hc2 hnt2
  have hlen : index < s.threads.length := by
    rcases Nat.lt_or_ge index s.threads.length with h | h
    · exact h
    · rw [List.getElem?_eq_none h] at ht; exact absurd ht (by simp)
  obtain ⟨c4, hc4⟩ : ∃ c4 : Core, c4 = (c2.inputStarted opt index false).2.onInput index
      (fun e => { e with startRequests := subSize e.startRequests e0.startRequests
                         stopRequests := subSize e.stopRequests e0.stopRequests }) := ⟨_, rfl⟩
  rw [← hc4] at hw ⊢
  obtain ⟨t1, ht1⟩ : ∃ t1 : ExecThread, t1 = { t with
      startStatus := false
      phase := if (c4.inputs[index]?).any (fun e => e.terminated) then .exited
               else .waiting } := ⟨_, rfl⟩
  rw [← ht1] at hw
  have hphase : t1.phase ≠ .receiving := by
    rw [ht1]
    simp only
    split <;> simp
  refine ⟨{ core := c4, threads := s.threads.set index t1 }, t1, ?_, rfl, ?_, ?_, hphase, ?_, ?_⟩
  · simp only [System.step, ht, hph, if_true, hw, Option.map_some']
  · simp only [List.getElem?_set, if_pos hlen, if_true]
  · rw [ht1]
  · intro received
    simp only [System.step, List.getElem?_set, if_pos hlen, if_true]
    rw [if_neg hphase]
  · rw [hc4]
    simp only [Core.onInput, List.getElem?_modify, if_true, inputStarted_inputs]
    cases c2.inputs[index]? <;> rfl

/-- Witness of C30: sequential strategy, first session of input 0 after `start()`,
the plugin failing to start. -/
theorem C30_failed_session_start_witness :
    ∃ s1 t1, (System.started Options.sequentialWithPrimary).step Options.sequentialWithPrimary
        (.sessionWait 0 false) = some s1 ∧
      s1.core = (((System.started Options.sequentialWithPrimary).core.onInput 0
          InputExecutor.resetBuffer).inputStarted Options.sequentialWithPrimary 0
          false).2.onInput 0 (fun e =>
        { e with startRequests := subSize e.startRequests
                   ((InputExecutor.new 4).startInput true).startRequests
                 stopRequests := subSize e.stopRequests
                   ((InputExecutor.new 4).startInput true).stopRequests }) ∧
      s1.threads[0]? = some t1 ∧ t1.startStatus = false ∧ t1.phase ≠ .receiving ∧
      (∀ received, s1.step Options.sequentialWithPrimary (.receive 0 received) = none) ∧
      (s1.core.inputs[0]?).map (fun e => (e.outFirst, e.outCount)) =
        (((System.started Options.sequentialWithPrimary).core.onInput 0
          InputExecutor.resetBuffer).inputs[0]?).map (fun e => (e.outFirst, e.outCount)) :=
  C30_failed_session_start Options.sequentialWithPrimary
    (System.started Options.sequentialWithPrimary) 0
    { phase := .waiting, startStatus := false, stopStatus := false }
    ((InputExecutor.new 4).startInput true)
    ((System.started Options.sequentialWithPrimary).core.onInput 0 InputExecutor.resetBuffer)
    (by rfl) (by rfl) (by rfl) (by rfl) (by decide) (by decide) (by decide) (by rfl) (by rfl)

/-! ## End of a session and first packets of a delayed start -/

/-- C31 (drain on normal end of input), evaluated on the code: sequential
strategy, first session of input 0 under flow control.  Two packets are
committed and not read by the output thread (`outputInUse` false); the next
receive returns 0, which posts the stop request of the executor itself
(`_stopRequests++`), no stop coming from the core and no terminate.  The wait at
the end of the session then tests `_stopRequests == 0`, which is false: the step
is taken at once with `outCount = 2` and resets the ring, the two packets being
discarded. -/
theorem C31_end_of_input_discards_packets :
    ((System.started Options.twoCycles).run Options.twoCycles
        [.sessionWait 0 true, .receive 0 2]).map
      (fun s => (s.core.inputs[0]?).map
        (fun e => (e.outCount, e.outputInUse, e.stopRequests, e.terminated))) =
      some (some (2, false, 0, false)) ∧
    ((System.started Options.twoCycles).run Options.twoCycles
        [.sessionWait 0 true, .receive 0 2, .receive 0 0]).map
      (fun s => ((s.core.inputs[0]?).map
        (fun e => (e.outCount, e.outputInUse, e.stopRequests, e.terminated)),
        (s.threads[0]?).map (fun t => t.phase))) =
      some (some (2, false, 1, false), some .ending) ∧
    ((System.started Options.twoCycles).run Options.twoCycles
        [.sessionWait 0 true, .receive 0 2, .receive 0 0, .endSession 0 true]).map
      (fun s => ((s.core.inputs[0]?).map (fun e => (e.outFirst, e.outCount)),
        (s.threads[0]?).map (fun t => t.phase))) =
      some (some (0, 0), some .waiting) := by
  refine ⟨by rfl, by rfl, by rfl⟩

/-- C34 (delayed completion on the first packets), evaluated on the code: delayed
strategy, two inputs, no primary input.  After `start()` and `inputStarted(0)`
the core is STARTING_NEXT with `curPlugin = nextPlugin = 0`; the first
`inputReceived(0)` takes the branch of the delayed completion, where the
assertion `_curPlugin != _nextPlugin` is false, and stops input 0, the input
that has just delivered packets and is still the current one. -/
theorem C34_first_packets_stop_current :
    ((Core.started Options.twoDelayed).run Options.twoDelayed [.inputStarted 0 true]).map
      (fun c => (c.state, c.curPlugin, c.nextPlugin, c.admits (.inputReceived 0),
        c.delayedCompletionAssert Options.twoDelayed 0)) =
      some (CORE_STARTING_NEXT, 0, 0, true, false) ∧
    ((Core.started Options.twoDelayed).run Options.twoDelayed
        [.inputStarted 0 true, .inputReceived 0]).map
      (fun c => (c.state, c.curPlugin, c.nextPlugin, c.inStates[0]?,
        (c.inputs[0]?).map (fun e => e.stopRequests))) =
      some (CORE_RUNNING, 0, 0, some INPUT_STOPPING, some 1) := by
  refine ⟨by rfl, by rfl⟩

/-- C36 (the success flag of `inputStarted` is not read): for every core and every
index, `inputStarted(i, true)` and `inputStarted(i, false)` give the same core
and the same returned flag.  An input reported with a failed start is marked
RUNNING as well; under SEQUENTIAL, when it is the next plugin and was not marked
RUNNING before, the core becomes RUNNING and the watchdog is restarted on the
current plugin, which is that input when `curPlugin == nextPlugin`. -/
theorem C36_success_flag_ignored (opt : Options) (c : Core) (i : Nat) :
    c.inputStarted opt i true = c.inputStarted opt i false ∧
    (i < c.inStates.length → (c.inputStarted opt i false).2.inStates[i]? = some INPUT_RUNNING) ∧
    (opt.strategy = SEQUENTIAL_SWITCH → i = c.nextPlugin →
      c.inStates[i]? ≠ some INPUT_RUNNING →
      (c.inputStarted opt i false).2.state = CORE_RUNNING ∧
      (c.inputStarted opt i false).2.watchDogActive = true ∧
      (c.inputStarted opt i false).2.timeoutPlugin = c.curPlugin ∧
      (c.curPlugin = c.nextPlugin → (c.inputStarted opt i false).2.timeoutPlugin = i)) := by
  refine ⟨rfl, ?_, ?_⟩
  · intro hi
    unfold Core.inputStarted
    split
    · rename_i h; exact h
    · simp only
      split
      · simp [List.getElem?_set, hi]
      · split <;> simp [Core.restartTimeout, List.getElem?_set, hi]
  · intro hs hn hr
    unfold Core.inputStarted
    rw [if_neg hr]
    simp only
    rw [if_neg (by simpa using hn)]
    rw [hs]
    refine ⟨rfl, rfl, rfl, ?_⟩
    intro hcn
    show c.curPlugin = i
    rw [hcn, hn]

/-- Witness of C36: sequential strategy, first input after `start()`. -/
theorem C36_success_flag_ignored_witness :
    ((Core.started Options.twoCycles).inputStarted Options.twoCycles 0 false).2.state =
      CORE_RUNNING :=
  ((C36_success_flag_ignored Options.twoCycles (Core.started Options.twoCycles) 0).2.2
    (by decide) (by decide) (by decide)).1

/-! ## `nextInputIndex` and the notification loops -/

theorem visit_lt (c : Core) (index : Nat) (hi : index < c.size) (k : Nat) :
    c.visit index UPWARD k < c.size := by
  rw [visit_upward c index hi]
  exact Nat.mod_lt _ (by omega)

theorem visit_upward_inj (c : Core) (index : Nat) (hi : index < c.size) (a b : Nat)
    (ha : a < c.size) (hb : b < c.size) (h : c.visit index UPWARD a = c.visit index UPWARD b) :
    a = b := by
  rw [visit_upward c index hi, visit_upward c index hi] at h
  by_contra hne
  exact mod_slot_ne index c.size a b ha hb hne h

theorem visit_upward_surj (c : Core) (index : Nat) (hi : index < c.size) (j : Nat)
    (hj : j < c.size) : ∃ k, k < c.size ∧ c.visit index UPWARD k = j := by
  rcases Nat.lt_or_ge j index with h | h
  · refine ⟨j + c.size - index, by omega, ?_⟩
    rw [visit_upward c index hi]
    have : index + (j + c.size - index) = j + c.size := by omega
    rw [this, Nat.add_mod_right, Nat.mod_eq_of_lt hj]
  · refine ⟨j - index, by omega, ?_⟩
    rw [visit_upward c index hi]
    have : index + (j - index) = j := by omega
    rw [this, Nat.mod_eq_of_lt hj]

/-- C38 (`nextInputIndex` is a cyclic successor and predecessor): for every core
with at least one input and every valid index `i`, the upward and the downward
neighbour of `i` are valid indexes, UNCHANGED gives `i`, DOWNWARD and UPWARD
undo each other, and `n` upward steps from `i`, `n` the number of inputs, come
back to `i` after visiting every valid index exactly once. -/
theorem C38_next_input_index_cycle (c : Core) (i : Nat) (hi : i < c.size) :
    c.nextInputIndex i UPWARD < c.size ∧ c.nextInputIndex i DOWNWARD < c.size ∧
    c.nextInputIndex i UNCHANGED = i ∧
    c.nextInputIndex (c.nextInputIndex i UPWARD) DOWNWARD = i ∧
    c.nextInputIndex (c.nextInputIndex i DOWNWARD) UPWARD = i ∧
    c.visit i UPWARD c.size = i ∧
    (∀ k, k < c.size → c.visit i UPWARD k < c.size) ∧
    (∀ j, j < c.size → ∃ k, k < c.size ∧ c.visit i UPWARD k = j ∧
      ∀ m, m < c.size → c.visit i UPWARD m = j → m = k) := by
  have hn : 0 < c.size := by omega
  have h1 := subSize_of_le c.size 1 hn
  refine ⟨Nat.mod_lt _ hn, ?_, rfl, ?_, ?_, visit_end c i UPWARD hi,
    fun k _ => visit_lt c i hi k, ?_⟩
  · simp only [Core.nextInputIndex]
    split
    · rw [subSize_of_le i 1 (by omega)]; omega
    · rw [h1]; omega
  · simp only [Core.nextInputIndex]
    rcases Nat.lt_or_ge (i + 1) c.size with h | h
    · rw [Nat.mod_eq_of_lt h, if_pos (by omega), subSize_of_le (i + 1) 1 (by omega)]
      omega
    · have he : i + 1 = c.size := by omega
      rw [he, Nat.mod_self, if_neg (by omega), h1]
      omega
  · simp only [Core.nextInputIndex]
    by_cases h : i > 0
    · rw [if_pos h, subSize_of_le i 1 (by omega)]
      have : i - 1 + 1 = i := by omega
      rw [this, Nat.mod_eq_of_lt hi]
    · rw [if_neg h, h1]
      have : c.size - 1 + 1 = c.size := by omega
      rw [this, Nat.mod_self]
      omega
  · intro j hj
    obtain ⟨k, hk, hkj⟩ := visit_upward_surj c i hi j hj
    refine ⟨k, hk, hkj, fun m hm hmj => ?_⟩
    exact visit_upward_inj c i hi m k hm hk (hmj.trans hkj.symm)

/-- Witness of C38: two inputs, index 1. -/
theorem C38_next_input_index_cycle_witness :
    (Core.new Options.twoCycles).nextInputIndex 1 UPWARD < (Core.new Options.twoCycles).size :=
  (C38_next_input_index_cycle (Core.new Options.twoCycles) 1 (by decide)).1

/-- C39 (the notification loops): for every `count` of type `size_t`, the loop
`for (size_t i = 0; i < count; i--)` ends within two tests of its condition,
whatever fuel of at least two tests it is given, and runs its body exactly
`min(count, 1)` times: not at all when `count == 0`, once when `count >= 1`, the
index wrapping to `2^64 - 1` after the first pass. -/
theorem C39_notification_loop_count {σ : Type} (count : Nat) (body : σ → σ) (s : σ)
    (fuel : Nat) (hcount : count < SIZE_MOD) :
    notifyLoop count body (fuel + 2) 0 s = some (body^[min count 1] s) ∧
    subSize 0 1 = SIZE_MOD - 1 := by
  have hw : ¬ (subSize 0 1 < count) := by
    unfold subSize SIZE_MOD at *
    simp only [Nat.reduceLeDiff, if_false]
    omega
  refine ⟨?_, by decide⟩
  by_cases h : count = 0
  · subst h; simp [notifyLoop]
  · have h0 : 0 < count := Nat.pos_of_ne_zero h
    have hmin : min count 1 = 1 := by omega
    rw [hmin]
    simp [notifyLoop, h0, hw]

/-- Witness of C39: three pending requests, the body counting its runs. -/
theorem C39_notification_loop_count_witness :
    notifyLoop 3 (fun calls : Nat => calls + 1) 2 0 0 =
      some ((fun calls : Nat => calls + 1)^[min 3 1] 0) :=
  (C39_notification_loop_count 3 (fun calls : Nat => calls + 1) 0 0 (by decide)).1

/-! ## The selection loop of the HLS input ends -/

theorem perm_cons_eraseIdx {α : Type} (l : List α) :
    ∀ (i : Nat) (v : α), l[i]? = some v → l.Perm (v :: l.eraseIdx i) := by
  induction l with
  | nil => intro i v h; simp at h
  | cons a l ih =>
    intro i v h
    cases i with
    | zero =>
      simp only [List.getElem?_cons_zero, Option.some.injEq] at h
      subst h
      exact List.Perm.refl _
    | succ i =>
      simp only [List.getElem?_cons_succ] at h
      simp only [List.eraseIdx_cons_succ]
      exact ((ih i v h).cons a).trans (List.Perm.swap v a _)

theorem selectLoop_bound {σ : Type} (sel : hls.Selectors) (p : hls.InputPlugin σ)
    (load : Nat → hls.Variant → Option (hls.PlayList σ)) :
    ∀ fuel master fetched, master.length < fuel →
      ∃ s, hls.selectLoop sel p load fuel master fetched = some s ∧
        ∃ tried : List hls.Variant, s.fetched = fetched ++ tried ∧
          tried.length ≤ master.length ∧ tried.Subperm master := by
  intro fuel
  induction fuel with
  | zero => intro master fetched h; omega
  | succ f ih =>
    intro master fetched h
    unfold hls.selectLoop
    simp only
    split
    · exact ⟨_, rfl, [], by simp, by simp, List.nil_subperm⟩
    · cases hv : master[hls.selectIndex sel p master]? with
      | none => exact ⟨_, rfl, [], by simp, by simp, List.nil_subperm⟩
      | some v =>
        have hlt : hls.selectIndex sel p master < master.length := by
          rcases Nat.lt_or_ge (hls.selectIndex sel p master) master.length with h2 | h2
          · exact h2
          · rw [List.getElem?_eq_none h2] at hv; exact absurd hv (by simp)
        have hmem : v ∈ master := List.getElem?_mem hv
        have hone : [v].Subperm master := List.singleton_subperm_iff.mpr hmem
        simp only
        cases hl : load fetched.length v with
        | some pl => exact ⟨_, rfl, [v], rfl, by simp; omega, hone⟩
        | none =>
          simp only
          split
          · exact ⟨_, rfl, [v], rfl, by simp; omega, hone⟩
          · have hlen : (master.eraseIdx (hls.selectIndex sel p master)).length =
                master.length - 1 := by
              rw [List.length_eraseIdx, if_pos hlt]
            obtain ⟨s, hs, tried, ht1, ht2, ht3⟩ :=
              ih (master.eraseIdx (hls.selectIndex sel p master)) (fetched ++ [v])
                (by rw [hlen]; omega)
            refine ⟨s, hs, v :: tried, ?_, ?_, ?_⟩
            · rw [ht1]; simp
            · simp only [List.length_cons]; omega
            · have hperm := perm_cons_eraseIdx master _ v hv
              exact ((List.subperm_cons v).mpr ht3).trans hperm.symm.subperm

/-- C32 (the selection loop ends): the URL is a master playlist of `V` variants.
Whatever the selectors return and whatever the outcome of each download, the
loop of `start()` ends within `V + 1` iterations, downloads at most `V` media
playlists, each entry of the master playlist at most once (the variants
downloaded are, up to their order, part of the list of variants: a variant
removed after a failure is not downloaded again), and ends either with a
playlist loaded or with `start()` returning false with an error. -/
theorem C32_selection_loop_ends {σ : Type} (sel : hls.Selectors) (env : hls.StartEnv σ)
    (p : hls.InputPlugin σ) (main : hls.PlayList σ)
    (hmain : env.loadMain = some main) (htype : main.type = .MASTER_PLAYLIST) :
    ∃ s, hls.selectLoop sel p env.loadVariant (main.playListCount + 1) main.playlists [] =
        some s ∧
      s.fetched.length ≤ main.playListCount ∧ s.fetched.Subperm main.playlists ∧
      ((∃ pl, s.result = .ok pl ∧ hls.loadPlayList sel env p = some (.ok pl)) ∨
       (∃ e, s.result = .error e ∧ hls.start sel env p = some (.error e))) := by
  obtain ⟨s, hs, tried, ht1, ht2, ht3⟩ := selectLoop_bound sel p env.loadVariant
    (main.playListCount + 1) main.playlists [] (by simp [hls.PlayList.playListCount])
  rw [List.nil_append] at ht1
  have hl : hls.loadPlayList sel env p = some s.result := by
    unfold hls.loadPlayList
    rw [hmain]
    simp only [htype, if_true, hs, Option.map_some']
  refine ⟨s, hs, by rw [ht1]; exact ht2, by rw [ht1]; exact ht3, ?_⟩
  cases hr : s.result with
  | ok pl =>
    left
    exact ⟨pl, rfl, by rw [hl, hr]⟩
  | error e =>
    right
    refine ⟨e, rfl, ?_⟩
    unfold hls.start
    rw [hl, hr]

/-- Witness of C32: scenario 4, two downloads for three variants. -/
theorem C32_selection_loop_ends_witness :
    ∃ s, hls.selectLoop hls.Selectors.firstInRange hls.InputPlugin.maxBitrate2M
        (hls.StartEnv.lowRatesFail
          [hls.Variant.atRate 1 500, hls.Variant.atRate 2 1500,
            hls.Variant.atRate 3 5000]).loadVariant
        ((hls.PlayList.master
          [hls.Variant.atRate 1 500, hls.Variant.atRate 2 1500,
            hls.Variant.atRate 3 5000]).playListCount + 1)
        (hls.PlayList.master
          [hls.Variant.atRate 1 500, hls.Variant.atRate 2 1500,
            hls.Variant.atRate 3 5000]).playlists [] = some s ∧
      s.fetched.length ≤ 3 :=
  (C32_selection_loop_ends hls.Selectors.firstInRange
    (hls.StartEnv.lowRatesFail
      [hls.Variant.atRate 1 500, hls.Variant.atRate 2 1500, hls.Variant.atRate 3 5000])
    hls.InputPlugin.maxBitrate2M
    (hls.PlayList.master
      [hls.Variant.atRate 1 500, hls.Variant.atRate 2 1500, hls.Variant.atRate 3 5000])
    rfl rfl).imp (fun _ h => ⟨h.1, h.2.1⟩)

/-! ## The fast strategy never reaches RUNNING -/

theorem fastState_setInputLocked (opt : Options) (c : Core) (index : Nat) (a : Bool)
    (dir : Direction) (h : c.state ≠ CORE_RUNNING) : c.setInputLocked opt index a dir = c :=
  setInputLocked_guard opt c index a dir (Or.inr (Or.inr h))

theorem handleWatchDogTimeout_fast (opt : Options) (c : Core)
    (hf : opt.strategy = FAST_SWITCH) (h : c.state ≠ CORE_RUNNING) :
    c.handleWatchDogTimeout opt = c := by
  unfold Core.handleWatchDogTimeout
  split
  · simp only
    rw [if_neg (by rw [hf]; simp)]
    exact fastState_setInputLocked _ _ _ _ _ h
  · rfl

theorem inputStarted_fast (opt : Options) (c : Core) (index : Nat) (s : Bool)
    (hf : opt.strategy = FAST_SWITCH) :
    (c.inputStarted opt index s).2.state = c.state ∧
    (c.inputStarted opt index s).2.curPlugin = c.curPlugin := by
  unfold Core.inputStarted
  split
  · exact ⟨rfl, rfl⟩
  · simp only
    split
    · exact ⟨rfl, rfl⟩
    · rw [hf]; exact ⟨rfl, rfl⟩

theorem inputReceived_fast (opt : Options) (c : Core) (index : Nat)
    (hf : opt.strategy = FAST_SWITCH) :
    (c.inputReceived opt index).2.state = c.state ∧
    ((c.inputReceived opt index).2.curPlugin ≠ c.curPlugin →
      index = opt.primaryInput ∧ c.curPlugin ≠ opt.primaryInput ∧
      (c.inputReceived opt index).2.curPlugin = index) := by
  have hd : c.delayedCompletion opt index = c := by
    unfold Core.delayedCompletion
    rw [if_neg (by rw [hf]; simp)]
  have hr : ∀ d : Core, (d.receivedOnCurrent index).state = d.state ∧
      (d.receivedOnCurrent index).curPlugin = d.curPlugin := by
    intro d
    unfold Core.receivedOnCurrent
    split <;> exact ⟨rfl, rfl⟩
  simp only [Core.inputReceived, hd]
  rw [(hr _).1, (hr _).2]
  rcases primaryPreemption_cases opt c index with he | he
  · rw [he]
    exact ⟨rfl, fun h => absurd rfl h⟩
  · obtain ⟨e1, _, e3, _, _, _, e7, e8⟩ := he
    exact ⟨e3, fun _ => ⟨e7, e8, e1⟩⟩

theorem inputStopped_fast (opt : Options) (c : Core) (index : Nat) (s : Bool)
    (h : c.state = CORE_STOPPED ∨ c.state = CORE_STARTING_NEXT) :
    ((c.inputStopped opt index s).2.state = CORE_STOPPED ∨
      (c.inputStopped opt index s).2.state = CORE_STARTING_NEXT) ∧
    (c.inputStopped opt index s).2.curPlugin = c.curPlugin := by
  have hm : (c.markStopped index).state = c.state ∧
      (c.markStopped index).curPlugin = c.curPlugin := by
    rw [markStopped_eq]; exact ⟨rfl, rfl⟩
  unfold Core.inputStopped
  split
  · exact ⟨h, rfl⟩
  · simp only
    split
    · obtain ⟨h1, _, h3, _⟩ := stop_fields (c.markStopped index).cancelTimeout true
      refine ⟨Or.inl h1, ?_⟩
      rw [h3]; exact hm.2
    · unfold Core.afterInputStopped
      rw [← hm.1] at h
      split
      · exact ⟨h, hm.2⟩
      · rename_i hs; rw [hs] at h; rcases h with h | h <;> exact absurd h (by decide)
      · exact ⟨h, hm.2⟩
      · rename_i hs; rw [hs] at h; rcases h with h | h <;> exact absurd h (by decide)

theorem fastState_step (opt : Options) (c : Core) (ev : Event)
    (hf : opt.strategy = FAST_SWITCH)
    (h : c.state = CORE_STOPPED ∨ c.state = CORE_STARTING_NEXT) :
    ((c.step opt ev).state = CORE_STOPPED ∨ (c.step opt ev).state = CORE_STARTING_NEXT) ∧
    ((c.step opt ev).curPlugin ≠ c.curPlugin →
      ∃ index, ev = .inputReceived index ∧ index = opt.primaryInput ∧
        c.curPlugin ≠ opt.primaryInput ∧ (c.step opt ev).curPlugin = index) := by
  have hnr : c.state ≠ CORE_RUNNING := by
    rcases h with h | h <;> (rw [h]; decide)
  cases ev with
  | setInput index =>
    have hs : c.step opt (.setInput index) = c := fastState_setInputLocked opt c _ _ _ hnr
    rw [hs]
    exact ⟨h, fun hc => absurd rfl hc⟩
  | nextInput =>
    have hs : c.step opt .nextInput = c := fastState_setInputLocked opt c _ _ _ hnr
    rw [hs]
    exact ⟨h, fun hc => absurd rfl hc⟩
  | previousInput =>
    have hs : c.step opt .previousInput = c := fastState_setInputLocked opt c _ _ _ hnr
    rw [hs]
    exact ⟨h, fun hc => absurd rfl hc⟩
  | stop success =>
    obtain ⟨h1, _, h3, _⟩ := stop_fields c success
    exact ⟨Or.inl h1, fun hc => absurd h3 hc⟩
  | inputStarted index success =>
    obtain ⟨h1, h2⟩ := inputStarted_fast opt c index success hf
    have h1' : (c.step opt (.inputStarted index success)).state = c.state := h1
    rw [h1']
    exact ⟨h, fun hc => absurd h2 hc⟩
  | inputReceived index =>
    obtain ⟨h1, h2⟩ := inputReceived_fast opt c index hf
    have h1' : (c.step opt (.inputReceived index)).state = c.state := h1
    rw [h1']
    exact ⟨h, fun hc => ⟨index, rfl, (h2 hc).1, (h2 hc).2.1, (h2 hc).2.2⟩⟩
  | inputStopped index success =>
    obtain ⟨h1, h2⟩ := inputStopped_fast opt c index success h
    exact ⟨h1, fun hc => absurd h2 hc⟩
  | watchDogTimeout =>
    have hs : c.step opt .watchDogTimeout = c := handleWatchDogTimeout_fast opt c hf hnr
    rw [hs]
    exact ⟨h, fun hc => absurd rfl hc⟩

theorem fastState_steps (opt : Options) (evs : List Event) (hf : opt.strategy = FAST_SWITCH) :
    ∀ c : Core, (c.state = CORE_STOPPED ∨ c.state = CORE_STARTING_NEXT) →
      ((evs.foldl (Core.step opt) c).state = CORE_STOPPED ∨
        (evs.foldl (Core.step opt) c).state = CORE_STARTING_NEXT) := by
  induction evs with
  | nil => intro c h; exact h
  | cons ev evs ih => intro c h; exact ih _ (fastState_step opt c ev hf h).1

theorem started_state (opt : Options) : (Core.started opt).state = CORE_STARTING_NEXT := by
  obtain ⟨n1, n2, _⟩ := new_fields opt
  obtain ⟨_, s2, _⟩ :=
    start_effect opt StartEnv.success (Core.new opt) n1 n2 (allOk_success _)
  rw [← started_eq] at s2
  exact s2

/-- C33 (the fast strategy never reaches RUNNING): under FAST, in every state
reached from a successful `start()` by any sequence of commands and events, the
core is STOPPED or STARTING_NEXT, never RUNNING.  In such a state `setInput`,
`nextInput`, `previousInput` and the watchdog handler leave the whole core
unchanged, `curPlugin` included, and a command or event that changes
`curPlugin` is an `inputReceived(p)` with `p` the primary input and `curPlugin`
not the primary input (the pre-emption), which makes `p` the current plugin. -/
theorem C33_fast_never_running (opt : Options) (evs : List Event)
    (hfast : opt.strategy = FAST_SWITCH) :
    ((evs.foldl (Core.step opt) (Core.started opt)).state = CORE_STOPPED ∨
      (evs.foldl (Core.step opt) (Core.started opt)).state = CORE_STARTING_NEXT) ∧
    (evs.foldl (Core.step opt) (Core.started opt)).state ≠ CORE_RUNNING ∧
    (∀ index, (evs.foldl (Core.step opt) (Core.started opt)).setInput opt index =
      evs.foldl (Core.step opt) (Core.started opt)) ∧
    (evs.foldl (Core.step opt) (Core.started opt)).nextInput opt =
      evs.foldl (Core.step opt) (Core.started opt) ∧
    (evs.foldl (Core.step opt) (Core.started opt)).previousInput opt =
      evs.foldl (Core.step opt) (Core.started opt) ∧
    (evs.foldl (Core.step opt) (Core.started opt)).handleWatchDogTimeout opt =
      evs.foldl (Core.step opt) (Core.started opt) ∧
    (∀ ev, ((evs.foldl (Core.step opt) (Core.started opt)).step opt ev).curPlugin ≠
        (evs.foldl (Core.step opt) (Core.started opt)).curPlugin →
      ∃ index, ev = .inputReceived index ∧ index = opt.primaryInput ∧
        (evs.foldl (Core.step opt) (Core.started opt)).curPlugin ≠ opt.primaryInput ∧
        ((evs.foldl (Core.step opt) (Core.started opt)).step opt ev).curPlugin = index) := by
  have h := fastState_steps opt evs hfast (Core.started opt) (Or.inr (started_state opt))
  generalize evs.foldl (Core.step opt) (Core.started opt) = c at h
  have hnr : c.state ≠ CORE_RUNNING := by
    rcases h with h | h <;> (rw [h]; decide)
  exact ⟨h, hnr, fun index => fastState_setInputLocked opt c _ _ _ hnr,
    fastState_setInputLocked opt c _ _ _ hnr, fastState_setInputLocked opt c _ _ _ hnr,
    handleWatchDogTimeout_fast opt c hfast hnr,
    fun ev => (fastState_step opt c ev hfast h).2⟩

/-- Witness of C33: fast strategy, both inputs started and delivering packets: the
core is still STARTING_NEXT and `setInput(0)` changes nothing. -/
theorem C33_fast_never_running_witness :
    ([Event.inputStarted 0 true, Event.inputStarted 1 true, Event.inputReceived 0,
        Event.inputReceived 1].foldl (Core.step Options.fastWithPrimary)
        (Core.started Options.fastWithPrimary)).state ≠ CORE_RUNNING :=
  (C33_fast_never_running Options.fastWithPrimary
    [Event.inputStarted 0 true, Event.inputStarted 1 true, Event.inputReceived 0,
      Event.inputReceived 1] (by decide)).2.1

/-! ## Index bounds -/

theorem tle_setInputLocked (opt : Options) (c : Core) (index : Nat) (a : Bool)
    (dir : Direction) (hfast : opt.strategy = FAST_SWITCH → c.state ≠ CORE_RUNNING)
    (ht : c.timeoutPlugin ≤ c.size) :
    (c.setInputLocked opt index a dir).timeoutPlugin ≤ c.size := by
  unfold Core.setInputLocked
  split
  · exact ht
  split
  · exact ht
  rename_i hidx
  split
  · rename_i hst
    split
    · simp only
      split
      · exact Nat.le_refl _
      · rw [stopPlugin_timeoutPlugin]; exact Nat.le_refl _
    · simp only
      split
      · show index ≤ c.size
        omega
      · rw [show ∀ d : Core, ({ d with state := CORE_STARTING_NEXT } : Core).timeoutPlugin =
          d.timeoutPlugin from fun _ => rfl, startPlugin_timeoutPlugin]
        exact Nat.le_refl _
    · rename_i hs
      exact absurd hst (hfast hs)
  · exact ht

theorem tle_handleWatchDogTimeout (opt : Options) (c : Core)
    (hfast : opt.strategy = FAST_SWITCH → c.state ≠ CORE_RUNNING)
    (ht : c.timeoutPlugin ≤ c.size) :
    (c.handleWatchDogTimeout opt).timeoutPlugin ≤ c.size := by
  unfold Core.handleWatchDogTimeout
  split
  · simp only
    split
    · rename_i hd
      have hnf : opt.strategy = FAST_SWITCH → False := by
        intro hf; rw [hd.1] at hf; exact absurd hf (by decide)
      split
      · have hsz : ({ c.stopPlugin c.nextPlugin true with
            nextPlugin := (c.stopPlugin c.nextPlugin true).curPlugin,
            state := CORE_RUNNING } : Core).size = c.size := stopPlugin_size _ _ _
        rw [← hsz]
        apply tle_setInputLocked
        · intro hf; exact absurd hf (fun h => hnf h)
        · rw [hsz]
          show (c.stopPlugin c.nextPlugin true).timeoutPlugin ≤ c.size
          rw [stopPlugin_timeoutPlugin]; exact ht
      · have hsz : ({ c with nextPlugin := c.curPlugin, state := CORE_RUNNING } : Core).size =
            c.size := rfl
        rw [← hsz]
        apply tle_setInputLocked
        · intro hf; exact absurd hf (fun h => hnf h)
        · exact ht
    · exact tle_setInputLocked _ _ _ _ _ hfast ht
  · exact ht

theorem tle_inputStarted (opt : Options) (c : Core) (index : Nat) (s : Bool)
    (hcur : c.curPlugin < c.size) (ht : c.timeoutPlugin ≤ c.size) :
    (c.inputStarted opt index s).2.timeoutPlugin ≤ c.size := by
  unfold Core.inputStarted
  split
  · exact ht
  · simp only
    split
    · exact ht
    · split <;> exact Nat.le_of_lt hcur

theorem tle_inputReceived (opt : Options) (c : Core) (index : Nat)
    (hidx : index < c.size) (ht : c.timeoutPlugin ≤ c.size) :
    (c.inputReceived opt index).2.timeoutPlugin ≤ c.size := by
  have h1 : (c.delayedCompletion opt index).timeoutPlugin = c.timeoutPlugin := by
    rcases delayedCompletion_cases opt c index with he | he
    · rw [he]
    · exact he.2.2.2.1
  have h2 : ((c.delayedCompletion opt index).primaryPreemption opt index).timeoutPlugin =
      c.timeoutPlugin := by
    rcases primaryPreemption_cases opt (c.delayedCompletion opt index) index with he | he
    · rw [he, h1]
    · rw [he.2.2.2.1, h1]
  simp only [Core.inputReceived]
  unfold Core.receivedOnCurrent
  split
  · rename_i hc
    show ((c.delayedCompletion opt index).primaryPreemption opt index).curPlugin ≤ c.size
    rw [← hc]; omega
  · rw [h2]; exact ht

theorem tle_inputStopped (opt : Options) (c : Core) (index : Nat) (s : Bool)
    (hfast : opt.strategy = FAST_SWITCH → c.state ≠ CORE_RUNNING)
    (ht : c.timeoutPlugin ≤ c.size) :
    (c.inputStopped opt index s).2.timeoutPlugin ≤ c.size := by
  have hm : (c.markStopped index).timeoutPlugin = c.timeoutPlugin ∧
      (c.markStopped index).size = c.size ∧ (c.markStopped index).state = c.state := by
    rw [markStopped_eq]; exact ⟨rfl, rfl, rfl⟩
  unfold Core.inputStopped
  split
  · exact ht
  · simp only
    split
    · obtain ⟨_, _, _, _, h5, _⟩ := stop_fields (c.markStopped index).cancelTimeout true
      rw [h5]
      show (c.markStopped index).size ≤ c.size
      rw [hm.2.1]
    · unfold Core.afterInputStopped
      split
      · rw [hm.1]; exact ht
      · split
        · rw [← hm.2.1]
          apply tle_setInputLocked
          · rw [hm.2.2]; exact hfast
          · rw [hm.1, hm.2.1]; exact ht
        · rw [hm.1]; exact ht
      · rw [hm.1]; exact ht
      · split
        · rw [startPlugin_timeoutPlugin]
          show (c.markStopped index).timeoutPlugin ≤ c.size
          rw [hm.1]; exact ht
        · rw [hm.1]; exact ht

theorem tle_step (opt : Options) (c : Core) (ev : Event) (hv : ev.valid c.size = true)
    (hF : c.FlowInv opt) (ht : c.timeoutPlugin ≤ c.size) :
    (c.step opt ev).timeoutPlugin ≤ (c.step opt ev).size := by
  rw [size_step]
  obtain ⟨h1, _, _, _, _, h6⟩ := hF
  cases ev with
  | setInput index => exact tle_setInputLocked _ _ _ _ _ h6 ht
  | nextInput => exact tle_setInputLocked _ _ _ _ _ h6 ht
  | previousInput => exact tle_setInputLocked _ _ _ _ _ h6 ht
  | stop success =>
    obtain ⟨_, _, _, _, h5, _⟩ := stop_fields c success
    show (c.stop success).timeoutPlugin ≤ c.size
    rw [h5]; exact ht
  | inputStarted index success => exact tle_inputStarted _ _ _ _ h1 ht
  | inputReceived index =>
    simp only [Event.valid, decide_eq_true_eq] at hv
    exact tle_inputReceived _ _ _ hv ht
  | inputStopped index success => exact tle_inputStopped _ _ _ _ h6 ht
  | watchDogTimeout => exact tle_handleWatchDogTimeout _ _ h6 ht

theorem len_stopPlugin (c : Core) (i : Nat) (a : Bool) :
    (c.stopPlugin i a).inStates.length = c.inStates.length := by
  rw [stopPlugin_inStates, List.length_set]

theorem len_startPlugin (c : Core) (i : Nat) (b : Bool) :
    (c.startPlugin i b).inStates.length = c.inStates.length := by
  rw [startPlugin_inStates, List.length_set]

theorem len_forRange (n : Nat) (body : Core → Nat → Core)
    (hbody : ∀ (c : Core) (i : Nat), (body c i).inStates.length = c.inStates.length)
    (c : Core) : (forRange n body c).inStates.length = c.inStates.length := by
  induction n with
  | zero => rfl
  | succ n ih => rw [forRange_succ, hbody, ih]

theorem len_stop (c : Core) (success : Bool) :
    (c.stop success).inStates.length = c.inStates.length := by
  cases success
  · rfl
  · simp only [Core.stop, if_true]
    exact len_forRange _ _ (fun c i => by simp [Core.onInput]) _

theorem len_setInputLocked (opt : Options) (c : Core) (index : Nat) (a : Bool)
    (dir : Direction) :
    (c.setInputLocked opt index a dir).inStates.length = c.inStates.length := by
  unfold Core.setInputLocked
  split
  · rfl
  split
  · rfl
  split
  · split
    · simp only
      split
      · rw [len_startPlugin]; rfl
      · rw [len_stopPlugin]; rfl
    · simp only
      split
      · exact len_stopPlugin (({ c with nextPlugin := index } : Core).cancelTimeout) c.curPlugin false
      · exact len_startPlugin (({ c with nextPlugin := index } : Core).cancelTimeout) index true
    · split
      · split
        · rfl
        · rfl
      · rfl
  · rfl

theorem len_handleWatchDogTimeout (opt : Options) (c : Core) :
    (c.handleWatchDogTimeout opt).inStates.length = c.inStates.length := by
  unfold Core.handleWatchDogTimeout
  split
  · simp only
    rw [len_setInputLocked]
    split
    · split
      · exact len_stopPlugin c _ _
      · rfl
    · rfl
  · rfl

theorem len_inputStarted (opt : Options) (c : Core) (index : Nat) (s : Bool) :
    (c.inputStarted opt index s).2.inStates.length = c.inStates.length := by
  unfold Core.inputStarted
  split
  · rfl
  · simp only
    split
    · simp
    · split <;> simp [Core.restartTimeout]

theorem len_inputReceived (opt : Options) (c : Core) (index : Nat) :
    (c.inputReceived opt index).2.inStates.length = c.inStates.length := by
  have h1 : (c.delayedCompletion opt index).inStates.length = c.inStates.length := by
    unfold Core.delayedCompletion
    split
    · split
      · exact len_stopPlugin c _ _
      · rfl
    · rfl
  have h2 : ∀ d : Core, (d.primaryPreemption opt index).inStates.length =
      d.inStates.length := by
    intro d
    unfold Core.primaryPreemption
    split
    · split
      · show (if _ then _ else _ : Core).inStates.length = _
        split <;> rfl
      · show (forRange _ _ d : Core).inStates.length = _
        apply len_forRange
        intro c i
        dsimp only
        split
        · exact len_stopPlugin _ _ _
        · rfl
    · rfl
  simp only [Core.inputReceived]
  unfold Core.receivedOnCurrent
  split
  · exact (h2 _).trans h1
  · exact (h2 _).trans h1

theorem len_inputStopped (opt : Options) (c : Core) (index : Nat) (s : Bool) :
    (c.inputStopped opt index s).2.inStates.length = c.inStates.length := by
  have hm : (c.markStopped index).inStates.length = c.inStates.length := by
    rw [markStopped_eq]; simp
  unfold Core.inputStopped
  split
  · rfl
  · simp only
    split
    · rw [len_stop]; exact hm
    · unfold Core.afterInputStopped
      split
      · exact hm
      · split
        · rw [len_setInputLocked]; exact hm
        · exact hm
      · exact hm
      · split
        · rw [len_startPlugin]; exact hm
        · exact hm

theorem len_step (opt : Options) (c : Core) (ev : Event) :
    (c.step opt ev).inStates.length = c.inStates.length := by
  cases ev with
  | setInput index => exact len_setInputLocked _ _ _ _ _
  | nextInput => exact len_setInputLocked _ _ _ _ _
  | previousInput => exact len_setInputLocked _ _ _ _ _
  | stop success => exact len_stop _ _
  | inputStarted index success => exact len_inputStarted _ _ _ _
  | inputReceived index => exact len_inputReceived _ _ _
  | inputStopped index success => exact len_inputStopped _ _ _ _
  | watchDogTimeout => exact len_handleWatchDogTimeout _ _

theorem len_start (opt : Options) (env : StartEnv) (c : Core) :
    (c.start opt env).2.inStates.length = c.inStates.length := by
  unfold Core.start
  split
  · rfl
  split
  · rfl
  split
  · rfl
  simp only
  split
  · exact len_stop _ _
  · show (if _ then _ else _ : Core).inStates.length = _
    split
    · exact len_forRange _ _ (fun c i => len_startPlugin _ _ _) _
    · split
      · rw [len_startPlugin, len_startPlugin]
      · rw [len_startPlugin]

theorem bounds_steps (opt : Options) (evs : List Event) :
    ∀ c : Core, c.FlowInv opt → c.timeoutPlugin ≤ c.size → c.inStates.length = c.size →
      (∀ ev ∈ evs, ev.valid c.size = true) →
      (evs.foldl (Core.step opt) c).FlowInv opt ∧
      (evs.foldl (Core.step opt) c).timeoutPlugin ≤ (evs.foldl (Core.step opt) c).size ∧
      (evs.foldl (Core.step opt) c).inStates.length = (evs.foldl (Core.step opt) c).size ∧
      (evs.foldl (Core.step opt) c).size = c.size := by
  induction evs with
  | nil => intro c h ht hl _; exact ⟨h, ht, hl, rfl⟩
  | cons ev evs ih =>
    intro c h ht hl hv
    have hev := hv ev (List.mem_cons_self _ _)
    obtain ⟨h1, h2, h3, h4⟩ := ih (c.step opt ev) (flowInv_step opt c ev hev h)
      (tle_step opt c ev hev h ht) (by rw [len_step, size_step]; exact hl)
      (fun e he => by rw [size_step]; exact hv e (List.mem_cons_of_mem _ he))
    exact ⟨h1, h2, h3, by rw [List.foldl_cons, h4, size_step]⟩

/-- C35 (index bounds): with `firstInput` below the number of inputs (so there is
at least one input), in every state reached from a successful `start()` by any
sequence of commands and events whose notifications carry the index of an input,
`curPlugin` and `nextPlugin` are below the number of inputs, `timeoutPlugin` is
below it or equal to it ("none"), there is one input state per input, and the
entries of `_inputs` and `_inStates` at `curPlugin` and at `nextPlugin` exist. -/
theorem C35_index_bounds (opt : Options) (evs : List Event)
    (hfirst : opt.firstInput < opt.inputCount)
    (hvalid : ∀ ev ∈ evs, ev.valid opt.inputCount = true) :
    (evs.foldl (Core.step opt) (Core.started opt)).size = opt.inputCount ∧
    (evs.foldl (Core.step opt) (Core.started opt)).inStates.length = opt.inputCount ∧
    (evs.foldl (Core.step opt) (Core.started opt)).curPlugin < opt.inputCount ∧
    (evs.foldl (Core.step opt) (Core.started opt)).nextPlugin < opt.inputCount ∧
    ((evs.foldl (Core.step opt) (Core.started opt)).timeoutPlugin < opt.inputCount ∨
      (evs.foldl (Core.step opt) (Core.started opt)).timeoutPlugin = opt.inputCount) ∧
    (∃ e, (evs.foldl (Core.step opt) (Core.started opt)).inputs[
        (evs.foldl (Core.step opt) (Core.started opt)).curPlugin]? = some e) ∧
    (∃ e, (evs.foldl (Core.step opt) (Core.started opt)).inputs[
        (evs.foldl (Core.step opt) (Core.started opt)).nextPlugin]? = some e) ∧
    (∃ st, (evs.foldl (Core.step opt) (Core.started opt)).inStates[
        (evs.foldl (Core.step opt) (Core.started opt)).curPlugin]? = some st) ∧
    (∃ st, (evs.foldl (Core.step opt) (Core.started opt)).inStates[
        (evs.foldl (Core.step opt) (Core.started opt)).nextPlugin]? = some st) := by
  obtain ⟨_, n2, n3, n4, _⟩ := new_fields opt
  obtain ⟨f1, f2, _⟩ := start_frame opt StartEnv.success (Core.new opt)
  rw [← started_eq] at f1 f2
  have hsz : (Core.started opt).size = opt.inputCount := by rw [f2, n3]
  have htl : (Core.started opt).timeoutPlugin ≤ (Core.started opt).size := by
    rw [f1, n4, hsz]
  have hlen : (Core.started opt).inStates.length = (Core.started opt).size := by
    rw [started_eq, len_start, ← started_eq, hsz, ← n3]
    exact n2
  obtain ⟨⟨h1, h2, _⟩, h3, h4, h5⟩ := bounds_steps opt evs (Core.started opt)
    (flowInv_started opt hfirst) htl hlen (by rw [hsz]; exact hvalid)
  rw [hsz] at h5
  generalize evs.foldl (Core.step opt) (Core.started opt) = c at h1 h2 h3 h4 h5
  rw [h5] at h1 h2 h3 h4
  have hin : c.inputs.length = opt.inputCount := h5
  refine ⟨h5, h4, h1, h2, by omega, ?_, ?_, ?_, ?_⟩
  · exact ⟨_, List.getElem?_eq_getElem (by rw [hin]; exact h1)⟩
  · exact ⟨_, List.getElem?_eq_getElem (by rw [hin]; exact h2)⟩
  · exact ⟨_, List.getElem?_eq_getElem (by rw [h4]; exact h1)⟩
  · exact ⟨_, List.getElem?_eq_getElem (by rw [h4]; exact h2)⟩

/-- Witness of C35: fast strategy with a primary input, after `start()`,
`inputStarted(0)` and the pre-emption by `inputReceived(1)`. -/
theorem C35_index_bounds_witness :
    ([Event.inputStarted 0 true, Event.inputReceived 1].foldl
      (Core.step Options.fastWithPrimary) (Core.started Options.fastWithPrimary)).curPlugin <
      Options.fastWithPrimary.inputCount :=
  (C35_index_bounds Options.fastWithPrimary
    [Event.inputStarted 0 true, Event.inputReceived 1] (by decide) (by decide)).2.2.1

/-! ## The receive area and the packets to output -/

theorem reader_step (maxIn : Nat) (r : RingSys) (op : RingOp)
    (hop : op.isReader = true) (hen : r.enabled op = true)
    (hf : r.exec.outFirst < r.exec.bufferSize) (hc : r.count ≤ r.exec.outCount)
    (hd : ∀ j m, j < r.exec.outCount → m < r.inCount →
      (r.exec.outFirst + j) % r.exec.bufferSize ≠ r.inFirst + m) :
    (r.apply maxIn op).exec.outFirst < (r.apply maxIn op).exec.bufferSize ∧
    (r.apply maxIn op).count ≤ (r.apply maxIn op).exec.outCount ∧
    (r.apply maxIn op).inFirst = r.inFirst ∧ (r.apply maxIn op).inCount = r.inCount ∧
    (∀ j m, j < (r.apply maxIn op).exec.outCount → m < (r.apply maxIn op).inCount →
      ((r.apply maxIn op).exec.outFirst + j) % (r.apply maxIn op).exec.bufferSize ≠
        (r.apply maxIn op).inFirst + m) := by
  cases op with
  | getOutputArea =>
    refine ⟨hf, ?_, rfl, rfl, hd⟩
    show min r.exec.outCount (subSize r.exec.bufferSize r.exec.outFirst) ≤ r.exec.outCount
    exact Nat.min_le_left _ _
  | freeOutput n =>
    simp only [RingSys.enabled, decide_eq_true_eq] at hen
    have hsub := subSize_of_le r.exec.outCount n (by omega)
    refine ⟨Nat.mod_lt _ (by omega), Nat.zero_le _, rfl, rfl, ?_⟩
    intro j m hj hm
    simp only [RingSys.apply, InputExecutor.freeOutput, hsub] at hj hm ⊢
    rw [Nat.mod_add_mod, Nat.add_assoc]
    exact hd (n + j) m (by omega) hm
  | setFlowControl b => simp [RingOp.isReader] at hop
  | overwrite => simp [RingOp.isReader] at hop
  | reserve => simp [RingOp.isReader] at hop
  | commit n => simp [RingOp.isReader] at hop
  | reset => simp [RingOp.isReader] at hop

theorem reader_run (maxIn : Nat) (ops : List RingOp) :
    ∀ (r t : RingSys), (∀ op ∈ ops, op.isReader = true) → RingSys.run maxIn r ops = some t →
      r.exec.outFirst < r.exec.bufferSize → r.count ≤ r.exec.outCount →
      (∀ j m, j < r.exec.outCount → m < r.inCount →
        (r.exec.outFirst + j) % r.exec.bufferSize ≠ r.inFirst + m) →
      t.inFirst = r.inFirst ∧ t.inCount = r.inCount ∧
      (∀ j m, j < t.exec.outCount → m < t.inCount →
        (t.exec.outFirst + j) % t.exec.bufferSize ≠ t.inFirst + m) := by
  induction ops with
  | nil =>
    intro r t _ hrun hf hc hd
    simp only [RingSys.run, Option.some.injEq] at hrun
    subst hrun
    exact ⟨rfl, rfl, hd⟩
  | cons op ops ih =>
    intro r t hops hrun hf hc hd
    simp only [RingSys.run] at hrun
    split at hrun
    · rename_i hen
      obtain ⟨h1, h2, h3, h4, h5⟩ :=
        reader_step maxIn r op (hops op (List.mem_cons_self _ _)) hen hf hc hd
      obtain ⟨h6, h7, h8⟩ := ih _ t (fun o ho => hops o (List.mem_cons_of_mem _ ho)) hrun h1 h2 h5
      exact ⟨h6.trans h3, h7.trans h4, h8⟩
    · exact absurd hrun (by simp)

theorem receiveArea_bounds (maxInputPackets : Nat) (e : InputExecutor)
    (hfirst : e.outFirst < e.bufferSize) (hcount : e.outCount < e.bufferSize) :
    (e.receiveArea maxInputPackets).1 = (e.outFirst + e.outCount) % e.bufferSize ∧
    (e.receiveArea maxInputPackets).2 ≤ e.bufferSize - e.outCount ∧
    (e.receiveArea maxInputPackets).1 + (e.receiveArea maxInputPackets).2 ≤ e.bufferSize := by
  have hpos : 0 < e.bufferSize := Nat.lt_of_le_of_lt (Nat.zero_le _) hfirst
  have hm : (e.outFirst + e.outCount) % e.bufferSize < e.bufferSize := Nat.mod_lt _ hpos
  have h1 := subSize_of_le e.bufferSize e.outCount (by omega)
  have h2 := subSize_of_le e.bufferSize ((e.outFirst + e.outCount) % e.bufferSize) (by omega)
  simp only [InputExecutor.receiveArea, h1, h2]
  refine ⟨trivial, ?_, ?_⟩ <;> omega

/-- C37 (the write area does not overlap unread packets): for every ring
satisfying its invariant with `outCount < capacity`, after the reservation of
the receive area `[inFirst, inFirst + inCount)` and any sequence of calls of
`getOutputArea` and `freeOutput` by the output thread (none, for the moment of
the reservation), the receive area is still the one reserved and no slot
`(outFirst + j) mod capacity`, `j < outCount`, of the packets to output belongs
to it. -/
theorem C37_write_area_disjoint (maxIn : Nat) (r t : RingSys) (ops : List RingOp)
    (hinv : r.Inv) (hcount : r.exec.outCount < r.exec.bufferSize)
    (hops : ∀ op ∈ ops, op.isReader = true)
    (hrun : RingSys.run maxIn (r.apply maxIn .reserve) ops = some t) :
    t.inFirst = (r.exec.receiveArea maxIn).1 ∧ t.inCount = (r.exec.receiveArea maxIn).2 ∧
    (∀ j m, j < t.exec.outCount → m < t.inCount →
      (t.exec.outFirst + j) % t.exec.bufferSize ≠ t.inFirst + m) := by
  obtain ⟨⟨hk, hf⟩, hcnt, _, _, _⟩ := hinv
  obtain ⟨a1, a2, a4⟩ := receiveArea_bounds maxIn r.exec hf hcount
  apply reader_run maxIn ops (r.apply maxIn .reserve) t hops hrun hf hcnt
  intro j m hj hm
  show (r.exec.outFirst + j) % r.exec.bufferSize ≠ (r.exec.receiveArea maxIn).1 + m
  have hm' : m < (r.exec.receiveArea maxIn).2 := hm
  have hj' : j < r.exec.outCount := hj
  have hle : r.exec.outCount + (r.exec.receiveArea maxIn).2 ≤ r.exec.bufferSize := by
    omega
  rw [a1] at a4 ⊢
  rcases slot_outside r.exec.outFirst r.exec.outCount r.exec.bufferSize
    (r.exec.receiveArea maxIn).2 j (r.exec.receiveArea maxIn).2 hj' hle a4 (Nat.le_refl _)
    with h | h <;> omega

/-- Witness of C37: capacity 4, two packets committed, a second area reserved,
then the output thread takes the two packets and releases one. -/
theorem C37_write_area_disjoint_witness :
    ((((RingSys.halfFull.apply 2 .reserve).apply 2 .getOutputArea).apply 2
        (.freeOutput 1)).inFirst = 2) ∧
    ∀ j m,
      j < (((RingSys.halfFull.apply 2 .reserve).apply 2 .getOutputArea).apply 2
        (.freeOutput 1)).exec.outCount →
      m < (((RingSys.halfFull.apply 2 .reserve).apply 2 .getOutputArea).apply 2
        (.freeOutput 1)).inCount →
      ((((RingSys.halfFull.apply 2 .reserve).apply 2 .getOutputArea).apply 2
        (.freeOutput 1)).exec.outFirst + j) %
        (((RingSys.halfFull.apply 2 .reserve).apply 2 .getOutputArea).apply 2
          (.freeOutput 1)).exec.bufferSize ≠
        (((RingSys.halfFull.apply 2 .reserve).apply 2 .getOutputArea).apply 2
          (.freeOutput 1)).inFirst + m :=
  ⟨by decide,
   (C37_write_area_disjoint 2 RingSys.halfFull
      (((RingSys.halfFull.apply 2 .reserve).apply 2 .getOutputArea).apply 2 (.freeOutput 1))
      [.getOutputArea, .freeOutput 1]
      ⟨⟨by decide, by decide⟩, by decide, by decide, by decide, by decide⟩
      (by decide) (by decide) (by rfl)).2.2⟩

end tsswitch
